import Mathlib

/-!
# Verification of `trabalho1/src/main.cpp`

A shallow embedding of the interactive 2D drawing tool of
`trabalho1/src/main.cpp`: the five shape classes (`PointShape`, `LineShape`,
`CircleShape`, `RectShape`, `TriangleShape`) with their `HandleInput`,
`Contains` and `Move` methods, the free function `CheckCollisionPointLine`,
and the body of the `while` loop of `main` as a function on an explicit
controller state.

Scalars: the program computes in `float`.  The embedding is generic in an
ordered field `F`, so every statement holds for the rationals and the reals
alike.  The `float` operations that `main.cpp` itself writes in
`CheckCollisionPointLine` round their results with `Raylib.fl`; with
`fl v = v` (`Raylib.Exact`) this is exact arithmetic, with `round32` it is
binary32.  Division by zero is the one place where the field and IEEE
arithmetic differ in kind, and it is modelled explicitly in
`CheckCollisionPointLine`.

Library: the raylib / libm functions the program calls but does not define
are either modelled from the spec (`Vector2Add`, `Vector2Subtract`,
`Vector2Distance`, `CheckCollisionPointCircle`, `fabsf`, `fminf`) or collected
in the record `Raylib` and passed as a parameter (`sqrtf`,
`CheckCollisionPointRec`, `CheckCollisionPointTriangle`, the clock), next to
the rounding `fl`.
-/

namespace Trabalho1

/-! ## Data model -/

/-- The raylib type `Vector2`: two scalar coordinates. -/
structure Vector2 (F : Type) where
  x : F
  y : F
deriving DecidableEq, Repr

/-- The raylib type `Rectangle`: top-left corner, width, height. -/
structure Rectangle (F : Type) where
  x : F
  y : F
  width : F
  height : F
deriving DecidableEq, Repr

/-- The raylib type `Color`: four `unsigned char` channels. -/
structure Color where
  r : Nat
  g : Nat
  b : Nat
  a : Nat
deriving DecidableEq, Repr

/-- The library functions `main.cpp` calls without defining them, the
rounding of `float` arithmetic and the readings of the steady clock.  `sqrtf`
is the square root used by `Vector2Distance`; `fl v` is the `float` that a
`float` operation with exact result `v` returns; `clock n` is the value
returned by the `n`-th call of `GetTimestamp` (call number 0 is the one of
`program_start`). -/
structure Raylib (F : Type) where
  sqrtf : F → F
  fl : F → F
  CheckCollisionPointRec : Vector2 F → Rectangle F → Bool
  CheckCollisionPointTriangle : Vector2 F → Vector2 F → Vector2 F → Vector2 F → Bool
  clock : Nat → F

/-- What the input source reports during one frame: `GetMousePosition()`,
the three states of `MOUSE_LEFT_BUTTON`, `IsKeyPressed` for the eight keys the
loop reads, and the three values `GetRandomValue(0, 200)` would return to
`RandomColor` in this frame. -/
structure Input (F : Type) where
  mouse : Vector2 F
  leftPressed : Bool
  leftDown : Bool
  leftReleased : Bool
  keyC : Bool
  keyP : Bool
  keyL : Bool
  keyR : Bool
  keyT : Bool
  keyBackspace : Bool
  keyDelete : Bool
  keyEscape : Bool
  rand0 : Int
  rand1 : Int
  rand2 : Int

section Model

variable {F : Type} [LinearOrderedField F]

/-- The value-initialised `Vector2` written `Vector2 v{}` in the source. -/
def Vector2.zero : Vector2 F := ⟨0, 0⟩

/-- Modelled from the spec: the raymath function `Vector2Add`, which is not
part of the repository; `Move` "translates all stored geometric points by a 2D
offset": the componentwise sum. -/
def Vector2Add (v1 v2 : Vector2 F) : Vector2 F := ⟨v1.x + v2.x, v1.y + v2.y⟩

/-- Modelled from the spec: the raymath function `Vector2Subtract`, which is
not part of the repository; "the delta between current and previous cursor
position": the componentwise difference. -/
def Vector2Subtract (v1 v2 : Vector2 F) : Vector2 F := ⟨v1.x - v2.x, v1.y - v2.y⟩

/-- Modelled from the spec: the raymath function `Vector2Distance`, which is
not part of the repository; the "distance" of the spec, the Euclidean one:
`sqrtf((v1.x - v2.x)*(v1.x - v2.x) + (v1.y - v2.y)*(v1.y - v2.y))`. -/
def Vector2Distance (rl : Raylib F) (v1 v2 : Vector2 F) : F :=
  rl.sqrtf ((v1.x - v2.x) * (v1.x - v2.x) + (v1.y - v2.y) * (v1.y - v2.y))

/-- Modelled from the spec: the libm function `fabsf`, the absolute value
("width/height = |dx|,|dy|"). -/
def fabsf (v : F) : F := |v|

/-- Modelled from the spec: the libm function `fminf`, the minimum
("top-left = (min x, min y)"). -/
def fminf (v w : F) : F := min v w

/-- Modelled from the spec: the raylib function `CheckCollisionPointCircle`,
which is not part of the repository.  The spec describes it as "distance to
center/point ≤ fixed radius tolerance (6 units for point, exact radius for
circle)". -/
def CheckCollisionPointCircle (rl : Raylib F) (point center : Vector2 F) (radius : F) : Bool :=
  decide (Vector2Distance rl point center ≤ radius)

/-- The cast `(unsigned char)` of an `int`. -/
def toUChar (v : Int) : Nat := (v % 256).toNat

/-- The function `RandomColor` (lines 10-16), given the three values `GetRandomValue(0, 200)`
returns. -/
def RandomColor (v0 v1 v2 : Int) : Color := ⟨toUChar v0, toUChar v1, toUChar v2, 255⟩

/-- The argument of `fabsf` in line 20,
`(b.y - a.y) * point.x - (b.x - a.x) * point.y + b.x * a.y - b.y * a.x`, as
the program computes it: the two differences, the four products, and the
difference, sum and difference that combine them from left to right are
`float` operations, each rounded by `rl.fl`. -/
def lineNumeratorFl (rl : Raylib F) (point a b : Vector2 F) : F :=
  rl.fl (rl.fl (rl.fl (rl.fl (rl.fl (b.y - a.y) * point.x) -
    rl.fl (rl.fl (b.x - a.x) * point.y)) + rl.fl (b.x * a.y)) - rl.fl (b.y * a.x))

/-- The function `CheckCollisionPointLine` (lines 18-23).  The numerator is
`lineNumeratorFl` (`fabsf` is exact), and the quotient of line 20-21 is a
`float` division, rounded by `rl.fl`.  The quotient is taken only when the
divisor `Vector2Distance(a, b)` is not zero.  When it is zero the program
divides a non-negative `float` by `0.0f`, which gives `+inf` or `NaN`, and
neither is `<= thickness`: the function returns `false`. -/
def CheckCollisionPointLine (rl : Raylib F) (point a b : Vector2 F) (thickness : F) : Bool :=
  if Vector2Distance rl a b = 0 then false
  else
    let d := rl.fl (fabsf (lineNumeratorFl rl point a b) / Vector2Distance rl a b)
    decide (d ≤ thickness)

/-! ## The five shapes -/

/-- The struct `PointShape` (lines 36-78). -/
structure PointShape (F : Type) where
  pos : Vector2 F
  waiting : Bool
  ready : Bool
  color : Color
deriving DecidableEq, Repr

/-- The struct `LineShape` (lines 81-142). -/
structure LineShape (F : Type) where
  a : Vector2 F
  b : Vector2 F
  waitingA : Bool
  ready : Bool
  color : Color
deriving DecidableEq, Repr

/-- The struct `CircleShape` (lines 145-204). -/
structure CircleShape (F : Type) where
  center : Vector2 F
  radius : F
  waitingCenter : Bool
  ready : Bool
  color : Color
deriving DecidableEq, Repr

/-- The struct `RectShape` (lines 207-275). -/
structure RectShape (F : Type) where
  p1 : Vector2 F
  p2 : Vector2 F
  waitingP1 : Bool
  ready : Bool
  color : Color
deriving DecidableEq, Repr

/-- The struct `TriangleShape` (lines 278-331).  The array `pts[3]` is the three
fields `pts0`, `pts1`, `pts2`; `count` is never negative. -/
structure TriangleShape (F : Type) where
  pts0 : Vector2 F
  pts1 : Vector2 F
  pts2 : Vector2 F
  count : Nat
  ready : Bool
  color : Color
deriving DecidableEq, Repr

/-- The constructor `PointShape()`. -/
def PointShape.new (color : Color) : PointShape F :=
  { pos := Vector2.zero, waiting := true, ready := false, color := color }

/-- The constructor `LineShape()`. -/
def LineShape.new (color : Color) : LineShape F :=
  { a := Vector2.zero, b := Vector2.zero, waitingA := true, ready := false, color := color }

/-- The constructor `CircleShape()`. -/
def CircleShape.new (color : Color) : CircleShape F :=
  { center := Vector2.zero, radius := 0, waitingCenter := true, ready := false, color := color }

/-- The constructor `RectShape()`. -/
def RectShape.new (color : Color) : RectShape F :=
  { p1 := Vector2.zero, p2 := Vector2.zero, waitingP1 := true, ready := false, color := color }

/-- The constructor `TriangleShape()`. -/
def TriangleShape.new (color : Color) : TriangleShape F :=
  { pts0 := Vector2.zero, pts1 := Vector2.zero, pts2 := Vector2.zero, count := 0,
    ready := false, color := color }

/-- The method `PointShape::HandleInput` (lines 45-54): the updated object and the
returned value. -/
def PointShape.HandleInput (s : PointShape F) (inp : Input F) : PointShape F × Bool :=
  let s1 :=
    if s.waiting && inp.leftPressed then
      { s with pos := inp.mouse, waiting := false, ready := true }
    else s
  (s1, s1.ready)

/-- The method `LineShape::HandleInput` (lines 90-109). -/
def LineShape.HandleInput (s : LineShape F) (inp : Input F) : LineShape F × Bool :=
  let s1 :=
    if s.waitingA then
      if inp.leftPressed then { s with a := inp.mouse, waitingA := false } else s
    else if !s.ready then
      if inp.leftPressed then { s with b := inp.mouse, ready := true } else s
    else s
  (s1, s1.ready)

/-- The method `CircleShape::HandleInput` (lines 155-175). -/
def CircleShape.HandleInput (rl : Raylib F) (s : CircleShape F) (inp : Input F) :
    CircleShape F × Bool :=
  let s1 :=
    if s.waitingCenter then
      if inp.leftPressed then { s with center := inp.mouse, waitingCenter := false } else s
    else if !s.ready then
      if inp.leftPressed then
        { s with radius := Vector2Distance rl s.center inp.mouse, ready := true }
      else s
    else s
  (s1, s1.ready)

/-- The method `RectShape::HandleInput` (lines 216-235). -/
def RectShape.HandleInput (s : RectShape F) (inp : Input F) : RectShape F × Bool :=
  let s1 :=
    if s.waitingP1 then
      if inp.leftPressed then { s with p1 := inp.mouse, waitingP1 := false } else s
    else if !s.ready then
      if inp.leftPressed then { s with p2 := inp.mouse, ready := true } else s
    else s
  (s1, s1.ready)

/-- The assignment `pts[i] = v` of `TriangleShape` for an index `i < 3`. -/
def TriangleShape.setPt (s : TriangleShape F) (i : Nat) (v : Vector2 F) : TriangleShape F :=
  match i with
  | 0 => { s with pts0 := v }
  | 1 => { s with pts1 := v }
  | _ => { s with pts2 := v }

/-- The read `pts[i]` of `TriangleShape` for an index `i < 3`. -/
def TriangleShape.getPt (s : TriangleShape F) (i : Nat) : Vector2 F :=
  match i with
  | 0 => s.pts0
  | 1 => s.pts1
  | _ => s.pts2

/-- The method `TriangleShape::HandleInput` (lines 287-296). -/
def TriangleShape.HandleInput (s : TriangleShape F) (inp : Input F) : TriangleShape F × Bool :=
  let s1 :=
    if decide (s.count < 3) && inp.leftPressed then
      let s2 := { s.setPt s.count inp.mouse with count := s.count + 1 }
      if s2.count = 3 then { s2 with ready := true } else s2
    else s
  (s1, s1.ready)

/-- The method `PointShape::Contains` (lines 69-72). -/
def PointShape.Contains (rl : Raylib F) (s : PointShape F) (p : Vector2 F) : Bool :=
  CheckCollisionPointCircle rl p s.pos 6

/-- The method `LineShape::Contains` (lines 132-135). -/
def LineShape.Contains (rl : Raylib F) (s : LineShape F) (p : Vector2 F) : Bool :=
  CheckCollisionPointLine rl p s.a s.b 5

/-- The method `CircleShape::Contains` (lines 195-198). -/
def CircleShape.Contains (rl : Raylib F) (s : CircleShape F) (p : Vector2 F) : Bool :=
  CheckCollisionPointCircle rl p s.center s.radius

/-- The `Rectangle r` built in `RectShape::Contains` (lines 264-266). -/
def RectShape.hitRect (s : RectShape F) : Rectangle F :=
  ⟨fminf s.p1.x s.p2.x, fminf s.p1.y s.p2.y, fabsf (s.p2.x - s.p1.x), fabsf (s.p2.y - s.p1.y)⟩

/-- The rectangle passed to `DrawRectangleRec` by `RectShape::Draw` for a ready
rectangle (lines 254-258). -/
def RectShape.drawRect (s : RectShape F) : Rectangle F :=
  ⟨if s.p1.x < s.p2.x then s.p1.x else s.p2.x, if s.p1.y < s.p2.y then s.p1.y else s.p2.y,
    fabsf (s.p2.x - s.p1.x), fabsf (s.p2.y - s.p1.y)⟩

/-- The method `RectShape::Contains` (lines 262-268). -/
def RectShape.Contains (rl : Raylib F) (s : RectShape F) (p : Vector2 F) : Bool :=
  rl.CheckCollisionPointRec p s.hitRect

/-- The method `TriangleShape::Contains` (lines 321-324). -/
def TriangleShape.Contains (rl : Raylib F) (s : TriangleShape F) (p : Vector2 F) : Bool :=
  rl.CheckCollisionPointTriangle p s.pts0 s.pts1 s.pts2

/-- The method `PointShape::Move` (lines 74-77). -/
def PointShape.Move (s : PointShape F) (delta : Vector2 F) : PointShape F :=
  { s with pos := Vector2Add s.pos delta }

/-- The method `LineShape::Move` (lines 137-141). -/
def LineShape.Move (s : LineShape F) (delta : Vector2 F) : LineShape F :=
  let s1 := { s with a := Vector2Add s.a delta }
  { s1 with b := Vector2Add s1.b delta }

/-- The method `CircleShape::Move` (lines 200-203). -/
def CircleShape.Move (s : CircleShape F) (delta : Vector2 F) : CircleShape F :=
  { s with center := Vector2Add s.center delta }

/-- The method `RectShape::Move` (lines 270-274). -/
def RectShape.Move (s : RectShape F) (delta : Vector2 F) : RectShape F :=
  let s1 := { s with p1 := Vector2Add s.p1 delta }
  { s1 with p2 := Vector2Add s1.p2 delta }

/-- The method `TriangleShape::Move` (lines 326-330): the loop `for (int i = 0; i < 3; i++)`. -/
def TriangleShape.Move (s : TriangleShape F) (delta : Vector2 F) : TriangleShape F :=
  (List.range 3).foldl (fun t i => t.setPt i (Vector2Add (t.getPt i) delta)) s

/-- A shape of one of the five classes: what a `std::unique_ptr<Shape>` of the
program points to. -/
inductive Shape (F : Type) where
  | point (s : PointShape F)
  | line (s : LineShape F)
  | circle (s : CircleShape F)
  | rect (s : RectShape F)
  | triangle (s : TriangleShape F)
deriving DecidableEq, Repr

/-- The virtual call `shape->HandleInput()`. -/
def Shape.HandleInput (rl : Raylib F) (sh : Shape F) (inp : Input F) : Shape F × Bool :=
  match sh with
  | .point s => ((s.HandleInput inp).1 |> Shape.point, (s.HandleInput inp).2)
  | .line s => ((s.HandleInput inp).1 |> Shape.line, (s.HandleInput inp).2)
  | .circle s => ((s.HandleInput rl inp).1 |> Shape.circle, (s.HandleInput rl inp).2)
  | .rect s => ((s.HandleInput inp).1 |> Shape.rect, (s.HandleInput inp).2)
  | .triangle s => ((s.HandleInput inp).1 |> Shape.triangle, (s.HandleInput inp).2)

/-- The virtual call `shape->Contains(p)`. -/
def Shape.Contains (rl : Raylib F) (sh : Shape F) (p : Vector2 F) : Bool :=
  match sh with
  | .point s => s.Contains rl p
  | .line s => s.Contains rl p
  | .circle s => s.Contains rl p
  | .rect s => s.Contains rl p
  | .triangle s => s.Contains rl p

/-- The virtual call `shape->Move(delta)`. -/
def Shape.Move (sh : Shape F) (delta : Vector2 F) : Shape F :=
  match sh with
  | .point s => .point (s.Move delta)
  | .line s => .line (s.Move delta)
  | .circle s => .circle (s.Move delta)
  | .rect s => .rect (s.Move delta)
  | .triangle s => .triangle (s.Move delta)

/-- The field `ready` of a shape. -/
def Shape.ready (sh : Shape F) : Bool :=
  match sh with
  | .point s => s.ready
  | .line s => s.ready
  | .circle s => s.ready
  | .rect s => s.ready
  | .triangle s => s.ready

/-- The field `color` of a shape. -/
def Shape.color (sh : Shape F) : Color :=
  match sh with
  | .point s => s.color
  | .line s => s.color
  | .circle s => s.color
  | .rect s => s.color
  | .triangle s => s.color

/-- The defining points of a shape, in declaration order: the points `Move`
is to translate. -/
def Shape.points (sh : Shape F) : List (Vector2 F) :=
  match sh with
  | .point s => [s.pos]
  | .line s => [s.a, s.b]
  | .circle s => [s.center]
  | .rect s => [s.p1, s.p2]
  | .triangle s => [s.pts0, s.pts1, s.pts2]

/-- The five shape variants the creation keys choose from. -/
inductive Variant where
  | Point
  | Line
  | Circle
  | Rectangle
  | Triangle
deriving DecidableEq, Repr

/-- The object `std::make_unique<...>()` builds for a variant, with the colour
its constructor draws. -/
def Shape.fresh (v : Variant) (color : Color) : Shape F :=
  match v with
  | .Point => .point (PointShape.new color)
  | .Line => .line (LineShape.new color)
  | .Circle => .circle (CircleShape.new color)
  | .Rectangle => .rect (RectShape.new color)
  | .Triangle => .triangle (TriangleShape.new color)

/-- The click count of each variant according to the table of the
specification (section 4.1). -/
def Variant.clicks : Variant → Nat
  | .Point => 1
  | .Line => 2
  | .Circle => 2
  | .Rectangle => 2
  | .Triangle => 3

/-- The values `HandleInput` returns when it is called once per frame on the
same object, frame after frame. -/
def handleInputs (rl : Raylib F) : Shape F → List (Input F) → List Bool
  | _, [] => []
  | sh, inp :: rest => (sh.HandleInput rl inp).2 :: handleInputs rl (sh.HandleInput rl inp).1 rest

/-- The object after `HandleInput` has been called once per frame. -/
def handleInputsState (rl : Raylib F) : Shape F → List (Input F) → Shape F
  | sh, [] => sh
  | sh, inp :: rest => handleInputsState rl (sh.HandleInput rl inp).1 rest

/-- The number of frames of a list that carry a left-button press edge. -/
def pressCount (inps : List (Input F)) : Nat :=
  (inps.filter (fun inp => inp.leftPressed)).length

/-- The object after the calls `Move(d1)`, ..., `Move(dN)`. -/
def moveAll (sh : Shape F) (ds : List (Vector2 F)) : Shape F :=
  ds.foldl Shape.Move sh

/-- The vector sum `d1 + ... + dN`. -/
def vectorSum (ds : List (Vector2 F)) : Vector2 F :=
  ds.foldl Vector2Add Vector2.zero

/-! ## The controller: `main` -/

/-- The struct `LogEvent` (lines 333-339). -/
structure LogEvent (F : Type) where
  timestamp : F
  type : String
  pos : Vector2 F
  shapeIndex : Int
deriving DecidableEq, Repr

/-- The variables of `main` that live across iterations of the loop (lines
358-363) and the global `eventLog`. -/
structure State (F : Type) where
  shapes : List (Shape F)
  current : Option (Shape F)
  selectedIndex : Int
  prevMouse : Vector2 F
  dragging : Bool
  eventLog : List (LogEvent F)
deriving DecidableEq, Repr

/-- The statement `eventLog.push_back({GetTimestamp(), type, pos, shapeIndex})`.
Every record is pushed with its own call of `GetTimestamp`, so the record at
position `n` of the log carries the `n`-th reading of the clock. -/
def State.log (rl : Raylib F) (s : State F) (type : String) (pos : Vector2 F)
    (shapeIndex : Int) : State F :=
  { s with eventLog := s.eventLog ++ [⟨rl.clock s.eventLog.length, type, pos, shapeIndex⟩] }

/-- The state when the loop is entered (lines 353-363): the log holds the
`program_start` record. -/
def initState (rl : Raylib F) : State F :=
  State.log rl
    { shapes := [], current := none, selectedIndex := -1, prevMouse := Vector2.zero,
      dragging := false, eventLog := [] }
    "program_start" ⟨0, 0⟩ (-1)

/-- Lines 367-369: the cursor sample of the frame is logged. -/
def mouseMoveStep (rl : Raylib F) (inp : Input F) (s : State F) : State F :=
  s.log rl "mouse_move" inp.mouse (-1)

/-- Lines 372-399: the creation keys, read only when no shape is under
construction. -/
def createStep (rl : Raylib F) (inp : Input F) (s : State F) : State F :=
  if s.current.isNone then
    if inp.keyC then
      { s.log rl "create_circle" inp.mouse (-1) with
        current := some (.circle (CircleShape.new (RandomColor inp.rand0 inp.rand1 inp.rand2))) }
    else if inp.keyP then
      { s.log rl "create_point" inp.mouse (-1) with
        current := some (.point (PointShape.new (RandomColor inp.rand0 inp.rand1 inp.rand2))) }
    else if inp.keyL then
      { s.log rl "create_line" inp.mouse (-1) with
        current := some (.line (LineShape.new (RandomColor inp.rand0 inp.rand1 inp.rand2))) }
    else if inp.keyR then
      { s.log rl "create_rectangle" inp.mouse (-1) with
        current := some (.rect (RectShape.new (RandomColor inp.rand0 inp.rand1 inp.rand2))) }
    else if inp.keyT then
      { s.log rl "create_triangle" inp.mouse (-1) with
        current := some (.triangle (TriangleShape.new (RandomColor inp.rand0 inp.rand1 inp.rand2))) }
    else s
  else s

/-- Lines 402-406: BACKSPACE discards the shape under construction. -/
def cancelStep (rl : Raylib F) (inp : Input F) (s : State F) : State F :=
  if inp.keyBackspace && s.current.isSome then
    { s.log rl "cancel" inp.mouse (-1) with current := none }
  else s

/-- Lines 411-416: the body of `if (current)`, for the shape `cur` that
`current` points to. -/
def constructStep (rl : Raylib F) (inp : Input F) (s : State F) (cur : Shape F) : State F :=
  if (cur.HandleInput rl inp).2 then
    { s.log rl "shape_ready" inp.mouse s.shapes.length with
      shapes := s.shapes ++ [(cur.HandleInput rl inp).1], current := none }
  else { s with current := some (cur.HandleInput rl inp).1 }

/-- The loop `for (int i = (int)shapes.size() - 1; i >= 0; i--)` of lines
424-434: with `n` indices left to visit, it looks at index `n - 1` next.  The
result is the index at which the loop breaks, if it does. -/
def selectScan (rl : Raylib F) (shapes : List (Shape F)) (mouse : Vector2 F) :
    (n : Nat) → n ≤ shapes.length → Option Nat
  | 0, _ => none
  | i + 1, h =>
    if (shapes.get ⟨i, h⟩).Contains rl mouse then some i
    else selectScan rl shapes mouse i (Nat.le_of_succ_le h)

/-- Lines 421-435: selection on a press edge of the left button. -/
def selectStep (rl : Raylib F) (inp : Input F) (s : State F) : State F :=
  if inp.leftPressed then
    match selectScan rl s.shapes inp.mouse s.shapes.length (Nat.le_refl _) with
    | some i =>
      { s.log rl "select" inp.mouse i with
        selectedIndex := i, prevMouse := inp.mouse, dragging := true }
    | none => { s with selectedIndex := -1 }
  else s

/-- The position in `shapes` an `int` index designates, if it is in bounds. -/
def shapeAt (shapes : List (Shape F)) (i : Int) : Option (Nat × Shape F) :=
  if 0 ≤ i then (shapes.get? i.toNat).map (fun sh => (i.toNat, sh)) else none

/-- The argument of the call `Move(delta)` of line 442, if the condition of
line 438 holds in state `s`. -/
def dragDelta (inp : Input F) (s : State F) : Option (Vector2 F) :=
  if s.dragging && inp.leftDown && s.selectedIndex != -1 then
    some (Vector2Subtract inp.mouse s.prevMouse)
  else none

/-- Lines 438-444: dragging.  The access `shapes[selectedIndex]` is undefined
when the index is out of bounds: the result is then `none`. -/
def dragStep (rl : Raylib F) (inp : Input F) (s : State F) : Option (State F) :=
  match dragDelta inp s with
  | some delta =>
    match shapeAt s.shapes s.selectedIndex with
    | some (i, sh) =>
      some { s.log rl "drag" inp.mouse s.selectedIndex with
        shapes := s.shapes.set i (sh.Move delta), prevMouse := inp.mouse }
    | none => none
  | none => some s

/-- Lines 445-449: a release edge ends the drag. -/
def releaseStep (rl : Raylib F) (inp : Input F) (s : State F) : State F :=
  if inp.leftReleased then
    { s.log rl "drag_end" inp.mouse s.selectedIndex with dragging := false }
  else s

/-- Lines 452-457: DELETE removes the selected shape.  The call
`shapes.erase(shapes.begin() + selectedIndex)` is undefined when the index is
out of bounds: the result is then `none`. -/
def removeStep (rl : Raylib F) (inp : Input F) (s : State F) : Option (State F) :=
  if s.selectedIndex != -1 && inp.keyDelete then
    match shapeAt s.shapes s.selectedIndex with
    | some (i, _) =>
      some { s.log rl "remove" inp.mouse s.selectedIndex with
        shapes := s.shapes.eraseIdx i, selectedIndex := -1 }
    | none => none
  else some s

/-- Lines 419-458: the `else` branch of `if (current)`. -/
def editStep (rl : Raylib F) (inp : Input F) (s : State F) : Option (State F) :=
  (dragStep rl inp (selectStep rl inp s)).bind (fun s1 => removeStep rl inp (releaseStep rl inp s1))

/-- Lines 460-463: the ESCAPE key is logged. -/
def escapeStep (rl : Raylib F) (inp : Input F) (s : State F) : State F :=
  if inp.keyEscape then s.log rl "escape_pressed" inp.mouse (-1) else s

/-- The state in which the test `if (current)` of line 409 is made. -/
def beforeBranch (rl : Raylib F) (inp : Input F) (s : State F) : State F :=
  cancelStep rl inp (createStep rl inp (mouseMoveStep rl inp s))

/-- One iteration of the `while` loop of `main` (lines 367-463; the render
pass of lines 466-487 changes no variable).  The result is `none` when the
iteration makes an out-of-bounds access. -/
def frame (rl : Raylib F) (inp : Input F) (s : State F) : Option (State F) :=
  let s1 := beforeBranch rl inp s
  match s1.current with
  | some cur => some (escapeStep rl inp (constructStep rl inp s1 cur))
  | none => (editStep rl inp s1).map (escapeStep rl inp)

/-- The argument of the call `Move(delta)` the iteration makes, if it makes
one. -/
def frameDelta (rl : Raylib F) (inp : Input F) (s : State F) : Option (Vector2 F) :=
  let s1 := beforeBranch rl inp s
  match s1.current with
  | some _ => none
  | none => dragDelta inp (selectStep rl inp s1)

/-- The index the press edge of the iteration selects (line 429), if it
selects one. -/
def frameSelect (rl : Raylib F) (inp : Input F) (s : State F) : Option Nat :=
  let s1 := beforeBranch rl inp s
  match s1.current with
  | some _ => none
  | none =>
    if inp.leftPressed then
      selectScan rl s1.shapes inp.mouse s1.shapes.length (Nat.le_refl _)
    else none

/-- The iterations of the loop for a list of frames, from state `s`. -/
def run (rl : Raylib F) : List (Input F) → State F → Option (State F)
  | [], s => some s
  | inp :: rest, s => (frame rl inp s).bind (run rl rest)

/-- A state the loop can be in at the start of an iteration. -/
def Reachable (rl : Raylib F) (s : State F) : Prop :=
  ∃ inps : List (Input F), run rl inps (initState rl) = some s

/-- The button states of consecutive frames agree with each other, as raylib
derives them from one sampled button: `prev` tells whether the button was down
in the frame before the list; a press edge is "down now, up before", a release
edge is "up now, down before". -/
def buttonsOk : Bool → List (Input F) → Bool
  | _, [] => true
  | prev, inp :: rest =>
    (inp.leftPressed == (inp.leftDown && !prev)) &&
      (inp.leftReleased == (!inp.leftDown && prev)) && buttonsOk inp.leftDown rest

/-- A frame without any input at cursor position `m`. -/
def Input.idle (m : Vector2 F) : Input F :=
  { mouse := m, leftPressed := false, leftDown := false, leftReleased := false,
    keyC := false, keyP := false, keyL := false, keyR := false, keyT := false,
    keyBackspace := false, keyDelete := false, keyEscape := false,
    rand0 := 0, rand1 := 0, rand2 := 0 }

/-- A button press at the cursor position of `inp`: the frame `inp` with the
press edge (and the held state) of the left button set. -/
def Input.press (inp : Input F) : Input F :=
  { inp with leftPressed := true, leftDown := true, leftReleased := false }

/-- The variant of a shape. -/
def Shape.variant (sh : Shape F) : Variant :=
  match sh with
  | .point _ => .Point
  | .line _ => .Line
  | .circle _ => .Circle
  | .rect _ => .Rectangle
  | .triangle _ => .Triangle

/-- The progress marker of a shape: the flag `waiting`, `waitingA`,
`waitingCenter`, `waitingP1`, or the counter `count`. -/
def Shape.marker (sh : Shape F) : Bool ⊕ Nat :=
  match sh with
  | .point s => .inl s.waiting
  | .line s => .inl s.waitingA
  | .circle s => .inl s.waitingCenter
  | .rect s => .inl s.waitingP1
  | .triangle s => .inr s.count

/-- The field `radius` of a circle. -/
def Shape.radius? (sh : Shape F) : Option F :=
  match sh with
  | .circle s => some s.radius
  | _ => none

/-- Reference definitions of the two collision tests of `Raylib`, as raylib
5.0 writes them (`rshapes.c`), over a given square root and clock, in exact
arithmetic (no operation rounds).  They serve to evaluate the program on
concrete inputs; the general statements hold for every `Raylib` record. -/
def Raylib.std (sqrtf : F → F) (clock : Nat → F) : Raylib F :=
  { sqrtf := sqrtf
    fl := fun v => v
    CheckCollisionPointRec := fun point rec =>
      decide (point.x ≥ rec.x) && decide (point.x < rec.x + rec.width) &&
        decide (point.y ≥ rec.y) && decide (point.y < rec.y + rec.height)
    CheckCollisionPointTriangle := fun point p1 p2 p3 =>
      let den := (p2.y - p3.y) * (p1.x - p3.x) + (p3.x - p2.x) * (p1.y - p3.y)
      let alpha := ((p2.y - p3.y) * (point.x - p3.x) + (p3.x - p2.x) * (point.y - p3.y)) / den
      let beta := ((p3.y - p1.y) * (point.x - p3.x) + (p1.x - p3.x) * (point.y - p3.y)) / den
      let gamma := 1 - alpha - beta
      decide (alpha > 0) && decide (beta > 0) && decide (gamma > 0)
    clock := clock }

/-- The square root is the mathematical one on non-negative arguments. -/
def Raylib.SqrtOk (rl : Raylib F) : Prop :=
  ∀ v : F, 0 ≤ v → 0 ≤ rl.sqrtf v ∧ rl.sqrtf v * rl.sqrtf v = v

/-- The construction stage of a shape of variant `v`: `n` clicks have been
taken so far (all clicks beyond the variant's click count are ignored). -/
def AtStage (v : Variant) (n : Nat) (sh : Shape F) : Prop :=
  match v, sh with
  | .Point, .point s =>
    (n = 0 ∧ s.waiting = true ∧ s.ready = false) ∨ (1 ≤ n ∧ s.waiting = false ∧ s.ready = true)
  | .Line, .line s =>
    (n = 0 ∧ s.waitingA = true ∧ s.ready = false) ∨ (n = 1 ∧ s.waitingA = false ∧ s.ready = false)
      ∨ (2 ≤ n ∧ s.waitingA = false ∧ s.ready = true)
  | .Circle, .circle s =>
    (n = 0 ∧ s.waitingCenter = true ∧ s.ready = false)
      ∨ (n = 1 ∧ s.waitingCenter = false ∧ s.ready = false)
      ∨ (2 ≤ n ∧ s.waitingCenter = false ∧ s.ready = true)
  | .Rectangle, .rect s =>
    (n = 0 ∧ s.waitingP1 = true ∧ s.ready = false) ∨ (n = 1 ∧ s.waitingP1 = false ∧ s.ready = false)
      ∨ (2 ≤ n ∧ s.waitingP1 = false ∧ s.ready = true)
  | .Triangle, .triangle s =>
    (n < 3 ∧ s.count = n ∧ s.ready = false) ∨ (3 ≤ n ∧ s.count = 3 ∧ s.ready = true)
  | _, _ => False

/-- The cursor position of the most recent frame of a run that selected or
translated a shape (`acc` if no frame did): the run starts in state `s` and
stops at an out-of-bounds access. -/
def lastGrab (rl : Raylib F) : List (Input F) → State F → Option (Vector2 F) → Option (Vector2 F)
  | [], _, acc => acc
  | inp :: rest, s, acc =>
    match frame rl inp s with
    | none => acc
    | some s1 =>
      lastGrab rl rest s1
        (if (frameDelta rl inp s).isSome || (frameSelect rl inp s).isSome then some inp.mouse
         else acc)

/-- The selected index is `-1` or an index into `shapes`. -/
def State.SelOk (s : State F) : Prop :=
  s.selectedIndex = -1 ∨ (0 ≤ s.selectedIndex ∧ s.selectedIndex < s.shapes.length)

/-- The records a frame appends to the log: the log of the state after the
frame without the records of the state before it. -/
def appended (s s1 : State F) : List (LogEvent F) :=
  s1.eventLog.drop s.eventLog.length

end Model

/-! ## Concrete instances -/

/-- The integer square root, by search: the number of `k` in `1..n` with
`k * k ≤ n`. -/
def natSqrt (n : Nat) : Nat :=
  ((List.range (n + 1)).filter (fun k => decide (0 < k) && decide (k * k ≤ n))).length

/-- A computable square root on the rationals, exact on squares of
rationals. -/
def sqrtQ (v : ℚ) : ℚ := (natSqrt v.num.toNat : ℚ) / (natSqrt v.den : ℚ)

/-- The reference library over the rationals; the `n`-th clock reading is
`n`. -/
def stdQ : Raylib ℚ := Raylib.std sqrtQ (fun n => (n : ℚ))

/-- A frame without input at cursor `(x, y)`. -/
def idleAt (x y : ℚ) : Input ℚ := Input.idle ⟨x, y⟩

/-! ### Binary32 arithmetic

`float` is IEEE 754 binary32.  A finite `float` is a rational number; an
operation returns the exact result rounded to the nearest `float`, ties to the
even significand.  The definitions cover the normal range (no overflow, no
subnormal results), which is where window coordinates lie. -/

/-- The power `2 ^ e` for an integer exponent. -/
def pow2 (e : Int) : ℚ :=
  if 0 ≤ e then ((2 ^ e.toNat : Nat) : ℚ) else 1 / ((2 ^ (-e).toNat : Nat) : ℚ)

/-- The number of halvings that bring `n` below 2, `fuel` halvings at most. -/
def ilog2Iter : Nat → Nat → Nat
  | 0, _ => 0
  | fuel + 1, n => if n < 2 then 0 else ilog2Iter fuel (n / 2) + 1

/-- The integer binary logarithm of `n` (0 for `n = 0`). -/
def ilog2 (n : Nat) : Nat := ilog2Iter n n

/-- The exponent `e` with `2 ^ e ≤ q < 2 ^ (e + 1)`, for `q > 0`. -/
def floorLog2 (q : ℚ) : Int :=
  let e0 : Int := (ilog2 q.num.toNat : Int) - (ilog2 q.den : Int)
  if pow2 e0 ≤ q then e0 else e0 - 1

/-- Rounding to the nearest integer, ties to the even one. -/
def roundEven (q : ℚ) : Int :=
  let f := q.floor
  if q - f < 1 / 2 then f
  else if 1 / 2 < q - f then f + 1
  else if f % 2 = 0 then f else f + 1

/-- The binary32 number nearest to `q`, ties to even: the significand has 24
bits, so the spacing of the numbers around `q` is `2 ^ (floorLog2 |q| - 23)`. -/
def round32 (q : ℚ) : ℚ :=
  if q = 0 then 0
  else
    let u := pow2 (floorLog2 |q| - 23)
    if q < 0 then -((roundEven (|q| / u) : ℚ) * u) else (roundEven (|q| / u) : ℚ) * u

/-- Newton iteration for the integer square root, from above. -/
def isqrtIter : Nat → Nat → Nat → Nat
  | 0, _, x => x
  | fuel + 1, n, x =>
    if (x + n / x) / 2 < x then isqrtIter fuel n ((x + n / x) / 2) else x

/-- The integer square root of `n`, rounded down. -/
def isqrt (n : Nat) : Nat := isqrtIter n n n

/-- The function `sqrtf` of binary32: the square root of `q`, correctly
rounded (nearest, ties to even).  With `u` the spacing of the binary32 numbers
around the root and `t = q / u²`, the root is `sqrt t` units: it is rounded
down to `m = isqrt (floor t)` or up to `m + 1` by comparing `t` with
`(m + 1/2)²`. -/
def sqrt32 (q : ℚ) : ℚ :=
  if q ≤ 0 then 0
  else
    let u := pow2 (Int.fdiv (floorLog2 q) 2 - 23)
    let t := q / (u * u)
    let m : ℚ := (isqrt t.floor.toNat : ℚ)
    let h := (m + 1 / 2) * (m + 1 / 2)
    if t < h then m * u
    else if h < t then (m + 1) * u
    else if isqrt t.floor.toNat % 2 = 0 then m * u else (m + 1) * u

/-- The library in binary32: the operations of `CheckCollisionPointLine` round
with `round32` and `sqrtf` is `sqrt32`; the two collision tests and the clock
are those of `stdQ`.  `Vector2Distance` rounds in `sqrtf` only: the sum of
squares under the root is taken exactly. -/
def f32 : Raylib ℚ := { stdQ with sqrtf := sqrt32, fl := round32 }

section Model

variable {F : Type} [LinearOrderedField F]

/-- C7 as stated, for the runs whose button states are consistent: whenever
the frame `c` translates the selected shape without being the frame of the
selecting press, the delta passed to `Move` is the cursor of `c` minus the
cursor of the frame `p` right before it. -/
def DeltaIsFrameDifference (rl : Raylib F) : Prop :=
  ∀ (inps : List (Input F)) (p c : Input F) (s : State F) (d : Vector2 F),
    buttonsOk false (inps ++ [p, c]) = true →
    run rl (inps ++ [p]) (initState rl) = some s →
    frameDelta rl c s = some d → frameSelect rl c s = none →
    d = Vector2Subtract c.mouse p.mouse

/-- Six frames that commit the rectangle `(0,0)-(10,10)` and then select it
with a press at `(1,1)`: key R, press, release, press, release, press. -/
def selectRect : List (Input ℚ) :=
  [ { idleAt 0 0 with keyR := true },
    (idleAt 0 0).press,
    { idleAt 5 5 with leftReleased := true },
    (idleAt 10 10).press,
    { idleAt 10 10 with leftReleased := true },
    (idleAt 1 1).press ]

/-- The button stays down and the key L starts a line: cursor at `(2,2)`. -/
def holdKeyL : Input ℚ := { idleAt 2 2 with leftDown := true, keyL := true }

/-- The button stays down and BACKSPACE cancels the line: cursor at `(10,10)`. -/
def holdCancel : Input ℚ := { idleAt 10 10 with leftDown := true, keyBackspace := true }

/-- Frames after `selectRect` and the frame `holdKeyL`: the button is released
while the line is under construction, two presses at `(50,50)` and `(60,60)`
commit the line, and the button of the second press is still down one frame
later, with the cursor at `(70,70)`. -/
def releaseWhileBuilding : List (Input ℚ) :=
  [ { idleAt 2 2 with leftReleased := true },
    (idleAt 50 50).press,
    { idleAt 50 50 with leftReleased := true },
    (idleAt 60 60).press,
    { idleAt 70 70 with leftDown := true } ]

/-- The ready rectangle with corners `(x1, y1)` and `(x2, y2)`, in black. -/
def rectOf (x1 y1 x2 y2 : ℚ) : Shape ℚ :=
  .rect { p1 := ⟨x1, y1⟩, p2 := ⟨x2, y2⟩, waitingP1 := false, ready := true,
          color := ⟨0, 0, 0, 255⟩ }

/-- A state of the selection/edit mode with two committed rectangles,
`(0,0)-(10,10)` at index 0 and `(15,15)-(5,5)` at index 1. -/
def overlapState : State ℚ :=
  { shapes := [rectOf 0 0 10 10, rectOf 15 15 5 5]
    current := none, selectedIndex := -1, prevMouse := ⟨0, 0⟩, dragging := false,
    eventLog := [] }

/-- The button is down (no edge) and DELETE is pressed: cursor at `(1,1)`. -/
def holdDelete : Input ℚ := { idleAt 1 1 with leftDown := true, keyDelete := true }

/-- The part of a log record the program decides: type, position and
shape index (the timestamp is a reading of the clock). -/
def LogEvent.view (e : LogEvent F) : String × Vector2 F × Int := (e.type, e.pos, e.shapeIndex)

/-- The log of `s1` is the log of `s` followed by records whose types are
all among `types`. -/
def Appends (types : List String) (s s1 : State F) : Prop :=
  ∃ l : List (LogEvent F), s1.eventLog = s.eventLog ++ l ∧ ∀ e ∈ l, e.type ∈ types

/-- The record types of the loop other than `shape_ready`. -/
def otherTypes : List String :=
  ["mouse_move", "create_circle", "create_point", "create_line", "create_rectangle",
    "create_triangle", "cancel", "select", "drag", "drag_end", "remove", "escape_pressed"]

/-- The frame in which the key P is pressed, cursor at `m`, with the three
random values the constructor draws. -/
def Input.keyPAt (m : Vector2 F) (r0 r1 r2 : Int) : Input F :=
  { Input.idle m with keyP := true, rand0 := r0, rand1 := r1, rand2 := r2 }

/-- A line under construction whose first endpoint is fixed at `(x, y)`, in
black. -/
def halfLine (x y : ℚ) : Shape ℚ :=
  .line { a := ⟨x, y⟩, b := ⟨0, 0⟩, waitingA := false, ready := false,
          color := ⟨0, 0, 0, 255⟩ }

/-- A state of the construction mode: the rectangle `(0,0)-(10,10)` is
committed and selected, and the line `halfLine 1 2` is under construction. -/
def buildingLine : State ℚ :=
  { shapes := [rectOf 0 0 10 10]
    current := some (halfLine 1 2), selectedIndex := 0, prevMouse := ⟨1, 1⟩, dragging := false,
    eventLog := [] }

/-- Every committed shape is ready and the shape under construction, if
there is one, is not. -/
def State.ReadyOk (s : State F) : Prop :=
  (∀ sh ∈ s.shapes, sh.ready = true) ∧ (∀ cur, s.current = some cur → cur.ready = false)

/-- The record types of the five creation commands. -/
def createTypes : List String :=
  ["create_circle", "create_point", "create_line", "create_rectangle", "create_triangle"]

/-- The record types of the selection/edit branch. -/
def editTypes : List String := ["select", "drag", "drag_end", "remove"]

/-- The `mouse_move` record a frame pushes first (line 369), in state `s`. -/
def mouseMoveRecord (rl : Raylib F) (inp : Input F) (s : State F) : LogEvent F :=
  ⟨rl.clock s.eventLog.length, "mouse_move", inp.mouse, -1⟩

/-- The record types a frame can push after its `mouse_move` record. -/
def afterTypes : List String :=
  ["create_circle", "create_point", "create_line", "create_rectangle", "create_triangle",
    "cancel", "shape_ready", "select", "drag", "drag_end", "remove", "escape_pressed"]

/-- The number of `mouse_move` records in a list of records. -/
def mouseMoves (l : List (LogEvent F)) : Nat :=
  l.countP (fun e => e.type == "mouse_move")

/-- A press of the left button at `(3,3)` in a frame in which BACKSPACE is
pressed as well. -/
def pressCancel : Input ℚ := { (idleAt 3 3).press with keyBackspace := true }

/-- A frame without mouse activity in which the keys C and DELETE are
pressed: cursor at `(4,4)`. -/
def keysCDelete : Input ℚ := { idleAt 4 4 with keyC := true, keyDelete := true }

/-- C14 as stated, for the runs whose button states are consistent: at the
end of every frame in which a construction is in progress, no index is
selected. -/
def NoSelectionWhileBuilding (rl : Raylib F) : Prop :=
  ∀ (inps : List (Input F)) (s : State F),
    buttonsOk false inps = true → run rl inps (initState rl) = some s →
    s.current ≠ none → s.selectedIndex = -1

/-- The button is released and nothing else happens: cursor at `(1,1)`. -/
def releaseAt11 : Input ℚ := { idleAt 1 1 with leftReleased := true }

/-- The key L is pressed, no button is down: cursor at `(1,1)`. -/
def keyLAt11 : Input ℚ := { idleAt 1 1 with keyL := true }

/-- Along the frames of a list, starting in state `s`, every frame succeeds
and ends with the selected index it started with. -/
def keepsSelection (rl : Raylib F) : List (Input F) → State F → Prop
  | [], _ => True
  | inp :: rest, s =>
    ∃ s1, frame rl inp s = some s1 ∧ s1.selectedIndex = s.selectedIndex ∧
      keepsSelection rl rest s1

/-- The button is held (no edge), no key is pressed: cursor at `(x, y)`. -/
def holdAt (x y : ℚ) : Input ℚ := { idleAt x y with leftDown := true }

/-- The cursor position of the last frame of a gesture: of the last frame of
`rest`, or of `first` if `rest` is empty. -/
def lastCursor : Input F → List (Input F) → Vector2 F
  | first, [] => first.mouse
  | _, h :: rest => lastCursor h rest

/-- A frame in which the left button stays held (no edge) and neither a
creation key nor DELETE is pressed. -/
def Input.holds (h : Input F) : Prop :=
  h.leftDown = true ∧ h.leftPressed = false ∧ h.leftReleased = false ∧ h.keyC = false ∧
    h.keyP = false ∧ h.keyL = false ∧ h.keyR = false ∧ h.keyT = false ∧ h.keyDelete = false

/-- A line whose two endpoints coincide. -/
def Shape.degenerate (sh : Shape F) : Bool :=
  match sh with
  | .line l => decide (l.a = l.b)
  | _ => false

/-- The selected index, if there is one, does not designate a line whose
endpoints coincide. -/
def State.SelNotDegenerate (s : State F) : Prop :=
  ∀ sh, s.selectedIndex ≠ -1 → s.shapes[s.selectedIndex.toNat]? = some sh →
    sh.degenerate = false

/-- The numerator of the quotient of `CheckCollisionPointLine` (line 20),
before `fabsf`. -/
def lineNumerator (point a b : Vector2 F) : F :=
  (b.y - a.y) * point.x - (b.x - a.x) * point.y + b.x * a.y - b.y * a.x

/-- The frame in which the key L is pressed, cursor at `m`, with the three
random values the constructor draws. -/
def Input.keyLAt (m : Vector2 F) (r0 r1 r2 : Int) : Input F :=
  { Input.idle m with keyL := true, rand0 := r0, rand1 := r1, rand2 := r2 }

/-- The frame in which the left button is released, cursor at `m`. -/
def Input.release (m : Vector2 F) : Input F :=
  { Input.idle m with leftReleased := true }


/-- C9 as stated (the frame of the removal), for the runs whose button states
are consistent: in a state reached from the initial state with no shape under
construction and a selected index, a frame with DELETE pressed and no press
edge succeeds and ends with the old collection without the element at the
selected index, and with nothing selected. -/
def DeleteRemovesSelected (rl : Raylib F) : Prop :=
  ∀ (inps : List (Input F)) (inp : Input F) (s : State F),
    buttonsOk false (inps ++ [inp]) = true → run rl inps (initState rl) = some s →
    s.current = none → s.selectedIndex ≠ -1 →
    inp.keyDelete = true → inp.leftPressed = false →
    ∃ s1, frame rl inp s = some s1 ∧
      s1.shapes = s.shapes.eraseIdx s.selectedIndex.toNat ∧ s1.selectedIndex = -1

/-- One of the five creation keys is pressed. -/
def Input.createKey (inp : Input F) : Bool :=
  inp.keyC || inp.keyP || inp.keyL || inp.keyR || inp.keyT
/-! ## Theorems -/

set_option linter.unusedSectionVars false

theorem atStage_fresh (v : Variant) (color : Color) : AtStage v 0 (Shape.fresh v color : Shape F) := by
  cases v <;> simp [AtStage, Shape.fresh, PointShape.new, LineShape.new, CircleShape.new,
    RectShape.new, TriangleShape.new]

@[simp]
theorem TriangleShape.setPt_count (s : TriangleShape F) (i : Nat) (v : Vector2 F) :
    (s.setPt i v).count = s.count := by
  unfold TriangleShape.setPt; split <;> rfl

@[simp]
theorem TriangleShape.setPt_ready (s : TriangleShape F) (i : Nat) (v : Vector2 F) :
    (s.setPt i v).ready = s.ready := by
  unfold TriangleShape.setPt; split <;> rfl

@[simp]
theorem TriangleShape.setPt_color (s : TriangleShape F) (i : Nat) (v : Vector2 F) :
    (s.setPt i v).color = s.color := by
  unfold TriangleShape.setPt; split <;> rfl

theorem atStage_step (rl : Raylib F) (v : Variant) (n : Nat) (sh : Shape F) (inp : Input F)
    (h : AtStage v n sh) :
    AtStage v (n + (if inp.leftPressed then 1 else 0)) (sh.HandleInput rl inp).1 ∧
      (sh.HandleInput rl inp).2 = decide (v.clicks ≤ n + (if inp.leftPressed then 1 else 0)) := by
  cases v <;> cases sh <;> simp only [AtStage] at h <;> try exact h.elim
  case Triangle.triangle s =>
    cases hp : inp.leftPressed
    · rcases h with ⟨h1, h2, h3⟩ | ⟨h1, h2, h3⟩ <;>
        simp [AtStage, Shape.HandleInput, TriangleShape.HandleInput, Variant.clicks, hp, h2, h3] <;>
        omega
    · rcases h with ⟨h1, h2, h3⟩ | ⟨h1, h2, h3⟩
      · by_cases h4 : n = 2
        · subst h4
          simp [AtStage, Shape.HandleInput, TriangleShape.HandleInput, Variant.clicks, hp, h2, h3]
        · have h5 : n + 1 < 3 := by omega
          have h6 : ¬ (3 ≤ n + 1) := by omega
          simp [AtStage, Shape.HandleInput, TriangleShape.HandleInput, Variant.clicks, hp, h2, h3,
            h1, h4, h5, h6]
      · have h5 : 3 ≤ n + 1 := by omega
        simp [AtStage, Shape.HandleInput, TriangleShape.HandleInput, Variant.clicks, hp, h2, h3,
          h5]
  all_goals
    cases hp : inp.leftPressed <;>
    simp [AtStage, Shape.HandleInput, PointShape.HandleInput, LineShape.HandleInput,
      CircleShape.HandleInput, RectShape.HandleInput, Variant.clicks, hp] <;>
    rcases h with h | h | h <;> (try rcases h with ⟨h1, h2, h3⟩) <;> simp_all <;> omega

theorem pressCount_cons (inp : Input F) (rest : List (Input F)) :
    pressCount (inp :: rest) = (if inp.leftPressed then 1 else 0) + pressCount rest := by
  cases hp : inp.leftPressed <;> simp [pressCount, List.filter, hp]
  omega

theorem handleInputs_atStage (rl : Raylib F) (v : Variant) (inps : List (Input F)) :
    ∀ (n : Nat) (sh : Shape F), AtStage v n sh →
      handleInputs rl sh inps =
        (List.range inps.length).map
          (fun j => decide (v.clicks ≤ n + pressCount (inps.take (j + 1)))) := by
  induction inps with
  | nil => intro n sh _; simp [handleInputs]
  | cons inp rest ih =>
    intro n sh h
    obtain ⟨h1, h2⟩ := atStage_step rl v n sh inp h
    simp only [handleInputs, List.length_cons, List.range_succ_eq_map, List.map_cons, List.map_map]
    rw [ih _ _ h1, h2]
    have h0 : pressCount ([] : List (Input F)) = 0 := rfl
    simp [pressCount_cons, h0, Function.comp_def, Nat.add_assoc]

/-- C1. For each of the five variants, called once per frame on an object
fresh from its constructor, `HandleInput` returns at frame `j` whether at
least `k` frames among frames `0..j` carried a press edge (`k` = 1 for Point,
2 for Line, Circle and Rectangle, 3 for Triangle): `false` on every frame
before the frame of the `k`-th press, `true` on that frame and on every later
one, whatever the later frames carry. -/
theorem handleInput_latch (rl : Raylib F) (v : Variant) (color : Color) (inps : List (Input F)) :
    handleInputs rl (Shape.fresh v color) inps =
      (List.range inps.length).map
        (fun j => decide (v.clicks ≤ pressCount (inps.take (j + 1)))) := by
  simpa using handleInputs_atStage rl v inps 0 _ (atStage_fresh v color)

theorem vector2Add_assoc (a b c : Vector2 F) :
    Vector2Add (Vector2Add a b) c = Vector2Add a (Vector2Add b c) := by
  simp [Vector2Add, add_assoc]

theorem vector2Add_zero_left (a : Vector2 F) : Vector2Add Vector2.zero a = a := by
  simp [Vector2Add, Vector2.zero]

theorem vector2Add_zero_right (a : Vector2 F) : Vector2Add a Vector2.zero = a := by
  simp [Vector2Add, Vector2.zero]

theorem foldl_vector2Add (ds : List (Vector2 F)) :
    ∀ a : Vector2 F, ds.foldl Vector2Add a = Vector2Add a (vectorSum ds) := by
  induction ds with
  | nil => intro a; simp [vectorSum, vector2Add_zero_right]
  | cons d rest ih =>
    intro a
    simp only [vectorSum, List.foldl_cons]
    rw [ih, ih (Vector2Add Vector2.zero d), vector2Add_zero_left, vector2Add_assoc]

theorem vectorSum_cons (d : Vector2 F) (ds : List (Vector2 F)) :
    vectorSum (d :: ds) = Vector2Add d (vectorSum ds) := by
  simp only [vectorSum, List.foldl_cons]
  rw [foldl_vector2Add, vector2Add_zero_left]
  rfl

theorem TriangleShape.move_eq (s : TriangleShape F) (delta : Vector2 F) :
    s.Move delta =
      { s with pts0 := Vector2Add s.pts0 delta, pts1 := Vector2Add s.pts1 delta,
               pts2 := Vector2Add s.pts2 delta } := by
  simp [TriangleShape.Move, List.range_succ, TriangleShape.setPt, TriangleShape.getPt]

theorem Shape.move_fields (sh : Shape F) (delta : Vector2 F) :
    (sh.Move delta).points = sh.points.map (fun p => Vector2Add p delta) ∧
      (sh.Move delta).variant = sh.variant ∧ (sh.Move delta).ready = sh.ready ∧
      (sh.Move delta).marker = sh.marker ∧ (sh.Move delta).color = sh.color ∧
      (sh.Move delta).radius? = sh.radius? := by
  cases sh <;>
    simp [Shape.Move, Shape.points, Shape.variant, Shape.ready, Shape.marker, Shape.color,
      Shape.radius?, PointShape.Move, LineShape.Move, CircleShape.Move, RectShape.Move,
      TriangleShape.move_eq]

/-- C2. After the calls `Move(d1)`, ..., `Move(dN)` every defining point of a
shape (of any variant, in any construction state) is its original value plus
`d1 + ... + dN`, and the variant, the `ready` flag, the progress marker, the
colour and the radius of a circle are what they were. -/
theorem move_translates_by_sum (sh : Shape F) (ds : List (Vector2 F)) :
    (moveAll sh ds).points = sh.points.map (fun p => Vector2Add p (vectorSum ds)) ∧
      (moveAll sh ds).variant = sh.variant ∧ (moveAll sh ds).ready = sh.ready ∧
      (moveAll sh ds).marker = sh.marker ∧ (moveAll sh ds).color = sh.color ∧
      (moveAll sh ds).radius? = sh.radius? := by
  induction ds generalizing sh with
  | nil =>
    simp [moveAll, vectorSum, vector2Add_zero_right]
  | cons d rest ih =>
    obtain ⟨h1, h2, h3, h4, h5, h6⟩ := Shape.move_fields sh d
    obtain ⟨k1, k2, k3, k4, k5, k6⟩ := ih (sh.Move d)
    have hm : moveAll sh (d :: rest) = moveAll (sh.Move d) rest := rfl
    rw [hm, k1, k2, k3, k4, k5, k6, h1, h2, h3, h4, h5, h6]
    simp [vectorSum_cons, vector2Add_assoc, Function.comp_def]

/-- C3. A rectangle built from a press at `i1.mouse` and a press at
`i2.mouse` is ready, tests hits against (and is drawn as) the rectangle with
top-left corner `(min x1 x2, min y1 y2)`, width `|x2 - x1|` and height
`|y2 - y1|`, both non-negative; built from the same two presses in the other
order it has the same rectangle and the same `Contains` result at every point;
and `Contains(p)` is the library test `CheckCollisionPointRec` of `p` against
that rectangle `(min x1 x2, min y1 y2, |x2 - x1|, |y2 - y1|)`. -/
theorem rect_normalized (rl : Raylib F) (c c' : Color) (i1 i2 : Input F)
    (h1 : i1.leftPressed = true) (h2 : i2.leftPressed = true) :
    ((((RectShape.new c).HandleInput i1).1.HandleInput i2).2 = true) ∧
    (((RectShape.new c).HandleInput i1).1.HandleInput i2).1.hitRect =
      ⟨min i1.mouse.x i2.mouse.x, min i1.mouse.y i2.mouse.y,
        |i2.mouse.x - i1.mouse.x|, |i2.mouse.y - i1.mouse.y|⟩ ∧
    (((RectShape.new c).HandleInput i1).1.HandleInput i2).1.drawRect =
      ⟨min i1.mouse.x i2.mouse.x, min i1.mouse.y i2.mouse.y,
        |i2.mouse.x - i1.mouse.x|, |i2.mouse.y - i1.mouse.y|⟩ ∧
    0 ≤ (((RectShape.new c).HandleInput i1).1.HandleInput i2).1.hitRect.width ∧
    0 ≤ (((RectShape.new c).HandleInput i1).1.HandleInput i2).1.hitRect.height ∧
    (((RectShape.new c').HandleInput i2).1.HandleInput i1).1.hitRect =
      (((RectShape.new c).HandleInput i1).1.HandleInput i2).1.hitRect ∧
    (((RectShape.new c').HandleInput i2).1.HandleInput i1).1.drawRect =
      (((RectShape.new c).HandleInput i1).1.HandleInput i2).1.drawRect ∧
    (∀ p : Vector2 F,
      (((RectShape.new c').HandleInput i2).1.HandleInput i1).1.Contains rl p =
        (((RectShape.new c).HandleInput i1).1.HandleInput i2).1.Contains rl p) ∧
    (∀ p : Vector2 F,
      (((RectShape.new c).HandleInput i1).1.HandleInput i2).1.Contains rl p =
        rl.CheckCollisionPointRec p
          ⟨min i1.mouse.x i2.mouse.x, min i1.mouse.y i2.mouse.y,
            |i2.mouse.x - i1.mouse.x|, |i2.mouse.y - i1.mouse.y|⟩) ∧
    (∀ p : Vector2 F,
      (((RectShape.new c').HandleInput i2).1.HandleInput i1).1.Contains rl p =
        rl.CheckCollisionPointRec p
          ⟨min i1.mouse.x i2.mouse.x, min i1.mouse.y i2.mouse.y,
            |i2.mouse.x - i1.mouse.x|, |i2.mouse.y - i1.mouse.y|⟩) := by
  have hmin : ∀ a b : F, (if a < b then a else b) = min a b := by
    intro a b
    rcases lt_or_le a b with h | h
    · simp [h, min_eq_left h.le]
    · simp [not_lt.mpr h, min_eq_right h]
  simp [RectShape.new, RectShape.HandleInput, h1, h2, RectShape.hitRect, RectShape.drawRect,
    RectShape.Contains, fminf, fabsf, hmin, min_comm, abs_sub_comm]

theorem vector2Distance_ne_zero (rl : Raylib F) (hs : rl.SqrtOk) (A B : Vector2 F) (hAB : A ≠ B) :
    Vector2Distance rl A B ≠ 0 := by
  intro h0
  have hnn : 0 ≤ (A.x - B.x) * (A.x - B.x) + (A.y - B.y) * (A.y - B.y) :=
    add_nonneg (mul_self_nonneg _) (mul_self_nonneg _)
  have hsq := (hs _ hnn).2
  unfold Vector2Distance at h0
  rw [h0] at hsq
  have hsum : (A.x - B.x) * (A.x - B.x) + (A.y - B.y) * (A.y - B.y) = 0 := by
    rw [← hsq]; ring
  have hx : (A.x - B.x) * (A.x - B.x) = 0 := by
    have := mul_self_nonneg (A.x - B.x)
    have := mul_self_nonneg (A.y - B.y)
    linarith
  have hy : (A.y - B.y) * (A.y - B.y) = 0 := by
    have := mul_self_nonneg (A.x - B.x)
    have := mul_self_nonneg (A.y - B.y)
    linarith
  have hx1 : A.x = B.x := sub_eq_zero.mp (mul_self_eq_zero.mp hx)
  have hy1 : A.y = B.y := sub_eq_zero.mp (mul_self_eq_zero.mp hy)
  apply hAB
  cases A; cases B; simp_all

/-- The values of that hit test in binary32, for `A = (114, 185)`,
`B = (625.5, 155.5)` and `p = (44.5, 184)`: the two squares and their sum
under the root are binary32 numbers, so `Vector2Distance` rounds only in
`sqrtf`; the root, the numerator (rounded and exact), and the quotient, which
lies above 5 and rounds to 5. -/
theorem binary32_line_values :
    round32 ((114 - 1251 / 2) * (114 - 1251 / 2)) = (114 - 1251 / 2) * (114 - 1251 / 2) ∧
    round32 ((185 - 311 / 2) * (185 - 311 / 2)) = (185 - 311 / 2) * (185 - 311 / 2) ∧
    round32 ((114 - 1251 / 2) * (114 - 1251 / 2) + (185 - 311 / 2) * (185 - 311 / 2)) =
      2625025 / 10 ∧
    Vector2Distance f32 ⟨114, 185⟩ ⟨1251 / 2, 311 / 2⟩ = 4197171 / 8192 ∧
    lineNumeratorFl f32 ⟨89 / 2, 184⟩ ⟨114, 185⟩ ⟨1251 / 2, 311 / 2⟩ = 256175 / 100 ∧
    lineNumerator (⟨89 / 2, 184⟩ : Vector2 ℚ) ⟨114, 185⟩ ⟨1251 / 2, 311 / 2⟩ = 256175 / 100 ∧
    round32 ((256175 / 100) / (4197171 / 8192)) = 5 ∧
    (5 : ℚ) < (256175 / 100) / (4197171 / 8192) := by
  decide!

theorem vector2Distance_comm (rl : Raylib F) (A B : Vector2 F) :
    Vector2Distance rl A B = Vector2Distance rl B A := by
  unfold Vector2Distance
  congr 1
  ring

/-- C5. For a circle built by a press at `c` and a press at `q`: the circle
is ready with centre `c` and radius `distance(c, q)`; `Contains(p)` holds
exactly when `distance(p, center) ≤ radius`; every point at distance exactly
`radius` from the centre is contained, `q` among them; a point at distance
`radius + e` with `e > 0` is not contained. -/
theorem circle_contains_iff (rl : Raylib F) (col : Color) (i1 i2 : Input F)
    (h1 : i1.leftPressed = true) (h2 : i2.leftPressed = true) :
    (((CircleShape.new col).HandleInput rl i1).1.HandleInput rl i2).2 = true ∧
    (((CircleShape.new col).HandleInput rl i1).1.HandleInput rl i2).1.center = i1.mouse ∧
    (((CircleShape.new col).HandleInput rl i1).1.HandleInput rl i2).1.radius =
      Vector2Distance rl i1.mouse i2.mouse ∧
    (∀ p : Vector2 F,
      (((CircleShape.new col).HandleInput rl i1).1.HandleInput rl i2).1.Contains rl p = true ↔
        Vector2Distance rl p i1.mouse ≤ Vector2Distance rl i1.mouse i2.mouse) ∧
    (∀ p : Vector2 F,
      Vector2Distance rl p i1.mouse = Vector2Distance rl i1.mouse i2.mouse →
      (((CircleShape.new col).HandleInput rl i1).1.HandleInput rl i2).1.Contains rl p = true) ∧
    (((CircleShape.new col).HandleInput rl i1).1.HandleInput rl i2).1.Contains rl i2.mouse = true ∧
    (∀ (p : Vector2 F) (e : F), 0 < e →
      Vector2Distance rl p i1.mouse = Vector2Distance rl i1.mouse i2.mouse + e →
      (((CircleShape.new col).HandleInput rl i1).1.HandleInput rl i2).1.Contains rl p = false) := by
  have hret : (((CircleShape.new col).HandleInput rl i1).1.HandleInput rl i2).2 = true := by
    simp [CircleShape.new, CircleShape.HandleInput, h1, h2]
  have hcirc : (((CircleShape.new col).HandleInput rl i1).1.HandleInput rl i2).1 =
      { center := i1.mouse, radius := Vector2Distance rl i1.mouse i2.mouse,
        waitingCenter := false, ready := true, color := col } := by
    simp [CircleShape.new, CircleShape.HandleInput, h1, h2]
  rw [hcirc]
  refine ⟨hret, rfl, rfl, ?_, ?_, ?_, ?_⟩
  · intro p
    simp [CircleShape.Contains, CheckCollisionPointCircle]
  · intro p hp
    simp [CircleShape.Contains, CheckCollisionPointCircle, hp]
  · simp [CircleShape.Contains, CheckCollisionPointCircle, vector2Distance_comm rl i2.mouse]
  · intro p e he hp
    simp [CircleShape.Contains, CheckCollisionPointCircle, hp, he]

/-- Witness of C5, over the rationals: centre `(0,0)`, second press at
`(3,4)`. -/
theorem circle_contains_iff_witness :
    (idleAt 0 0).press.leftPressed = true ∧ (idleAt 3 4).press.leftPressed = true ∧
    (((CircleShape.new ⟨0, 0, 0, 255⟩).HandleInput stdQ (idleAt 0 0).press).1.HandleInput stdQ
      (idleAt 3 4).press).1.Contains stdQ (idleAt 3 4).press.mouse = true :=
  ⟨rfl, rfl, (circle_contains_iff stdQ ⟨0, 0, 0, 255⟩ (idleAt 0 0).press (idleAt 3 4).press
    rfl rfl).2.2.2.2.2.1⟩

/-- Witness of C3, over the rationals: presses at `(10,20)` and `(4,30)` give
the rectangle with top-left corner `(4,20)`, width 6 and height 10, and the
hit test at `(5,25)` is the library test against that rectangle. -/
theorem rect_normalized_witness :
    (idleAt 10 20).press.leftPressed = true ∧ (idleAt 4 30).press.leftPressed = true ∧
    (((RectShape.new ⟨0, 0, 0, 255⟩).HandleInput (idleAt 10 20).press).1.HandleInput
      (idleAt 4 30).press).1.hitRect = ⟨4, 20, 6, 10⟩ ∧
    (((RectShape.new ⟨0, 0, 0, 255⟩).HandleInput (idleAt 10 20).press).1.HandleInput
      (idleAt 4 30).press).1.Contains stdQ ⟨5, 25⟩ =
        stdQ.CheckCollisionPointRec ⟨5, 25⟩ ⟨4, 20, 6, 10⟩ :=
  ⟨rfl, rfl, (rect_normalized stdQ ⟨0, 0, 0, 255⟩ ⟨0, 0, 0, 255⟩ (idleAt 10 20).press
    (idleAt 4 30).press rfl rfl).2.1.trans (by decide!),
    ((rect_normalized stdQ ⟨0, 0, 0, 255⟩ ⟨0, 0, 0, 255⟩ (idleAt 10 20).press
      (idleAt 4 30).press rfl rfl).2.2.2.2.2.2.2.2.1 ⟨5, 25⟩).trans (by decide!)⟩

/-! ### The steps of a frame, field by field -/

theorem beforeBranch_fields (rl : Raylib F) (inp : Input F) (s : State F) :
    (beforeBranch rl inp s).shapes = s.shapes ∧
      (beforeBranch rl inp s).selectedIndex = s.selectedIndex ∧
      (beforeBranch rl inp s).prevMouse = s.prevMouse ∧
      (beforeBranch rl inp s).dragging = s.dragging := by
  simp only [beforeBranch, cancelStep, createStep, mouseMoveStep, State.log]
  split_ifs <;> exact ⟨rfl, rfl, rfl, rfl⟩

theorem escapeStep_fields (rl : Raylib F) (inp : Input F) (s : State F) :
    (escapeStep rl inp s).shapes = s.shapes ∧
      (escapeStep rl inp s).current = s.current ∧
      (escapeStep rl inp s).selectedIndex = s.selectedIndex ∧
      (escapeStep rl inp s).prevMouse = s.prevMouse ∧
      (escapeStep rl inp s).dragging = s.dragging := by
  simp only [escapeStep, State.log]
  split_ifs <;> exact ⟨rfl, rfl, rfl, rfl, rfl⟩

theorem releaseStep_fields (rl : Raylib F) (inp : Input F) (s : State F) :
    (releaseStep rl inp s).shapes = s.shapes ∧
      (releaseStep rl inp s).current = s.current ∧
      (releaseStep rl inp s).selectedIndex = s.selectedIndex ∧
      (releaseStep rl inp s).prevMouse = s.prevMouse := by
  simp only [releaseStep, State.log]
  split_ifs <;> exact ⟨rfl, rfl, rfl, rfl⟩

theorem constructStep_fields (rl : Raylib F) (inp : Input F) (s : State F) (cur : Shape F) :
    (constructStep rl inp s cur).selectedIndex = s.selectedIndex ∧
      (constructStep rl inp s cur).prevMouse = s.prevMouse ∧
      (constructStep rl inp s cur).dragging = s.dragging ∧
      ((constructStep rl inp s cur).shapes = s.shapes ∨
        (constructStep rl inp s cur).shapes = s.shapes ++ [(cur.HandleInput rl inp).1]) := by
  simp only [constructStep, State.log]
  split_ifs
  · exact ⟨rfl, rfl, rfl, Or.inr rfl⟩
  · exact ⟨rfl, rfl, rfl, Or.inl rfl⟩

theorem selectScan_spec (rl : Raylib F) (shapes : List (Shape F)) (m : Vector2 F) :
    ∀ (n : Nat) (h : n ≤ shapes.length),
      (∀ i, selectScan rl shapes m n h = some i →
        i < n ∧ (∃ sh, shapes[i]? = some sh ∧ sh.Contains rl m = true) ∧
          ∀ j sh, i < j → j < n → shapes[j]? = some sh → sh.Contains rl m = false) ∧
      (selectScan rl shapes m n h = none →
        ∀ j sh, j < n → shapes[j]? = some sh → sh.Contains rl m = false) := by
  intro n
  induction n with
  | zero =>
    intro h
    simp [selectScan]
  | succ k ih =>
    intro h
    have hk : k < shapes.length := h
    have hget : shapes[k]? = some (shapes.get ⟨k, h⟩) := by
      simp [List.getElem?_eq_getElem hk]
    obtain ⟨ih1, ih2⟩ := ih (Nat.le_of_succ_le h)
    by_cases hc : (shapes.get ⟨k, h⟩).Contains rl m = true
    · have hs : selectScan rl shapes m (k + 1) h = some k := by
        simp only [selectScan, hc, if_true]
      rw [hs]
      refine ⟨?_, by simp⟩
      intro i hi
      have hik : k = i := Option.some.inj hi
      subst hik
      refine ⟨Nat.lt_succ_self _, ⟨_, hget, hc⟩, ?_⟩
      intro j sh hj1 hj2
      omega
    · have hs : selectScan rl shapes m (k + 1) h =
          selectScan rl shapes m k (Nat.le_of_succ_le h) := by
        simp only [selectScan, hc]
        simp
      have hcf : (shapes.get ⟨k, h⟩).Contains rl m = false := by simpa using hc
      rw [hs]
      constructor
      · intro i hi
        obtain ⟨a, b, c⟩ := ih1 i hi
        refine ⟨Nat.lt_succ_of_lt a, b, ?_⟩
        intro j sh hj1 hj2 hj3
        rcases Nat.lt_succ_iff_lt_or_eq.mp hj2 with hlt | heq
        · exact c j sh hj1 hlt hj3
        · subst heq
          rw [hget] at hj3
          cases hj3
          exact hcf
      · intro hn j sh hj2 hj3
        rcases Nat.lt_succ_iff_lt_or_eq.mp hj2 with hlt | heq
        · exact ih2 hn j sh hlt hj3
        · subst heq
          rw [hget] at hj3
          cases hj3
          exact hcf

theorem shapeAt_of_lt (shapes : List (Shape F)) (i : Int) (h0 : 0 ≤ i)
    (h1 : i < shapes.length) :
    ∃ sh, shapes[i.toNat]? = some sh ∧ shapeAt shapes i = some (i.toNat, sh) := by
  have hlt : i.toNat < shapes.length := by omega
  refine ⟨shapes[i.toNat], List.getElem?_eq_getElem hlt, ?_⟩
  simp [shapeAt, h0, List.getElem?_eq_getElem hlt]

theorem shapeAt_selOk (s : State F) (h : s.SelOk) (hne : s.selectedIndex ≠ -1) :
    ∃ sh, s.shapes[s.selectedIndex.toNat]? = some sh ∧
      shapeAt s.shapes s.selectedIndex = some (s.selectedIndex.toNat, sh) := by
  rcases h with h | ⟨h0, h1⟩
  · exact absurd h hne
  · exact shapeAt_of_lt _ _ h0 h1

theorem dragDelta_none_of_sel (inp : Input F) (s : State F) (h : s.selectedIndex = -1) :
    dragDelta inp s = none := by
  simp [dragDelta, h]

theorem dragDelta_some (inp : Input F) (s : State F) (d : Vector2 F)
    (h : dragDelta inp s = some d) :
    s.dragging = true ∧ inp.leftDown = true ∧ s.selectedIndex ≠ -1 ∧
      d = Vector2Subtract inp.mouse s.prevMouse := by
  unfold dragDelta at h
  split_ifs at h with hc
  simp only [Bool.and_eq_true, bne_iff_ne, ne_eq] at hc
  exact ⟨hc.1.1, hc.1.2, hc.2, (Option.some.inj h).symm⟩

theorem dragStep_spec (rl : Raylib F) (inp : Input F) (s : State F) (h : s.SelOk) :
    ∃ s1, dragStep rl inp s = some s1 ∧ s1.selectedIndex = s.selectedIndex ∧
      s1.current = s.current ∧ s1.dragging = s.dragging ∧
      s1.shapes.length = s.shapes.length ∧
      (dragDelta inp s = none → s1 = s) ∧
      (∀ d, dragDelta inp s = some d →
        s1.prevMouse = inp.mouse ∧
          ∃ sh, s.shapes[s.selectedIndex.toNat]? = some sh ∧
            s1.shapes = s.shapes.set s.selectedIndex.toNat (sh.Move d)) := by
  cases hd : dragDelta inp s with
  | none =>
    refine ⟨s, ?_, rfl, rfl, rfl, rfl, fun _ => rfl, ?_⟩
    · simp [dragStep, hd]
    · intro d hd'
      cases hd'
  | some d =>
    obtain ⟨_, _, hne, _⟩ := dragDelta_some inp s d hd
    obtain ⟨sh, hsh, hat⟩ := shapeAt_selOk s h hne
    refine ⟨{ s.log rl "drag" inp.mouse s.selectedIndex with
      shapes := s.shapes.set s.selectedIndex.toNat (sh.Move d), prevMouse := inp.mouse },
      ?_, ?_, ?_, ?_, ?_, ?_, ?_⟩
    · simp only [dragStep, hd, hat]
    · rfl
    · rfl
    · rfl
    · simp [State.log]
    · intro hn
      cases hn
    · intro d' hd'
      cases hd'
      exact ⟨rfl, sh, hsh, rfl⟩

theorem removeStep_spec (rl : Raylib F) (inp : Input F) (s : State F) (h : s.SelOk) :
    ∃ s1, removeStep rl inp s = some s1 ∧ s1.SelOk ∧ s1.current = s.current ∧
      s1.prevMouse = s.prevMouse ∧ s1.dragging = s.dragging ∧
      ((s.selectedIndex ≠ -1 ∧ inp.keyDelete = true) →
        s1.shapes = s.shapes.eraseIdx s.selectedIndex.toNat ∧ s1.selectedIndex = -1) ∧
      (¬ (s.selectedIndex ≠ -1 ∧ inp.keyDelete = true) → s1 = s) := by
  by_cases hc : s.selectedIndex ≠ -1 ∧ inp.keyDelete = true
  · obtain ⟨sh, hsh, hat⟩ := shapeAt_selOk s h hc.1
    refine ⟨{ s.log rl "remove" inp.mouse s.selectedIndex with
      shapes := s.shapes.eraseIdx s.selectedIndex.toNat, selectedIndex := -1 },
      ?_, ?_, ?_, ?_, ?_, ?_, ?_⟩
    · simp only [removeStep, bne_iff_ne, ne_eq, Bool.and_eq_true, decide_eq_true_eq]
      rw [if_pos hc, hat]
    · exact Or.inl rfl
    · rfl
    · rfl
    · rfl
    · intro _
      exact ⟨rfl, rfl⟩
    · intro hn
      exact absurd hc hn
  · refine ⟨s, ?_, h, rfl, rfl, rfl, ?_, fun _ => rfl⟩
    · simp only [removeStep, bne_iff_ne, ne_eq, Bool.and_eq_true, decide_eq_true_eq]
      rw [if_neg hc]
    · intro hc'
      exact absurd hc' hc

theorem selectStep_fields (rl : Raylib F) (inp : Input F) (s : State F) :
    (selectStep rl inp s).shapes = s.shapes ∧ (selectStep rl inp s).current = s.current := by
  unfold selectStep
  split_ifs
  · split <;> exact ⟨rfl, rfl⟩
  · exact ⟨rfl, rfl⟩

theorem selectStep_selOk (rl : Raylib F) (inp : Input F) (s : State F) (h : s.SelOk) :
    (selectStep rl inp s).SelOk := by
  unfold selectStep
  split_ifs
  · split
    · next i hi =>
      have := ((selectScan_spec rl s.shapes inp.mouse _ _).1 i hi).1
      right
      simp only [State.log]
      omega
    · exact Or.inl rfl
  · exact h

theorem selOk_of_eq (s s1 : State F) (h : s.SelOk) (h1 : s1.selectedIndex = s.selectedIndex)
    (h2 : s.shapes.length ≤ s1.shapes.length) : s1.SelOk := by
  rcases h with h | ⟨h0, hl⟩
  · exact Or.inl (h1.trans h)
  · right
    rw [h1]
    exact ⟨h0, by omega⟩

theorem editStep_selOk (rl : Raylib F) (inp : Input F) (s : State F) (h : s.SelOk) :
    ∃ s1, editStep rl inp s = some s1 ∧ s1.SelOk ∧ s1.current = s.current := by
  obtain ⟨s2, h2, h2s, h2c, _, h2l, _, _⟩ :=
    dragStep_spec rl inp (selectStep rl inp s) (selectStep_selOk rl inp s h)
  have hs2 : s2.SelOk :=
    selOk_of_eq _ _ (selectStep_selOk rl inp s h) h2s (le_of_eq h2l.symm)
  obtain ⟨r1, r2, r3, r4⟩ := releaseStep_fields rl inp s2
  have hs3 : (releaseStep rl inp s2).SelOk := selOk_of_eq _ _ hs2 r3 (le_of_eq (by rw [r1]))
  obtain ⟨s4, h4, h4s, h4c, _⟩ := removeStep_spec rl inp _ hs3
  refine ⟨s4, ?_, h4s, ?_⟩
  · simp [editStep, h2, h4]
  · rw [h4c, r2, h2c, (selectStep_fields rl inp s).2]

theorem frame_selOk (rl : Raylib F) (inp : Input F) (s : State F) (h : s.SelOk) :
    ∃ s1, frame rl inp s = some s1 ∧ s1.SelOk := by
  obtain ⟨b1, b2, _, _⟩ := beforeBranch_fields rl inp s
  have hb : (beforeBranch rl inp s).SelOk := selOk_of_eq _ _ h b2 (le_of_eq (by rw [b1]))
  cases hc : (beforeBranch rl inp s).current with
  | some cur =>
    refine ⟨escapeStep rl inp (constructStep rl inp (beforeBranch rl inp s) cur),
      by simp only [frame, hc], ?_⟩
    obtain ⟨e1, _, e3, _⟩ := escapeStep_fields rl inp (constructStep rl inp (beforeBranch rl inp s) cur)
    obtain ⟨c1, _, _, c4⟩ := constructStep_fields rl inp (beforeBranch rl inp s) cur
    apply selOk_of_eq _ _ hb (e3.trans c1)
    rw [e1]
    rcases c4 with c4 | c4 <;> simp [c4]
  | none =>
    obtain ⟨s1, h1, h1s, _⟩ := editStep_selOk rl inp _ hb
    refine ⟨escapeStep rl inp s1, by simp only [frame, hc, h1, Option.map_some'], ?_⟩
    obtain ⟨e1, _, e3, _⟩ := escapeStep_fields rl inp s1
    exact selOk_of_eq _ _ h1s e3 (le_of_eq (by rw [e1]))

theorem run_selOk (rl : Raylib F) (inps : List (Input F)) :
    ∀ s : State F, s.SelOk → ∃ s1, run rl inps s = some s1 ∧ s1.SelOk := by
  induction inps with
  | nil => intro s h; exact ⟨s, rfl, h⟩
  | cons inp rest ih =>
    intro s h
    obtain ⟨s1, h1, h1s⟩ := frame_selOk rl inp s h
    obtain ⟨s2, h2, h2s⟩ := ih s1 h1s
    exact ⟨s2, by simp [run, h1, h2], h2s⟩

theorem reachable_selOk (rl : Raylib F) (s : State F) (h : Reachable rl s) : s.SelOk := by
  obtain ⟨inps, hr⟩ := h
  obtain ⟨s1, h1, h1s⟩ := run_selOk rl inps (initState rl) (Or.inl rfl)
  rw [hr] at h1
  cases h1
  exact h1s

theorem selectStep_pressed (rl : Raylib F) (inp : Input F) (s : State F)
    (hp : inp.leftPressed = true) :
    (selectStep rl inp s).SelOk ∧
      (∀ i, selectScan rl s.shapes inp.mouse s.shapes.length (Nat.le_refl _) = some i →
        (selectStep rl inp s).selectedIndex = i ∧ (selectStep rl inp s).prevMouse = inp.mouse ∧
          (selectStep rl inp s).dragging = true) ∧
      (selectScan rl s.shapes inp.mouse s.shapes.length (Nat.le_refl _) = none →
        (selectStep rl inp s).selectedIndex = -1 ∧
          (selectStep rl inp s).prevMouse = s.prevMouse ∧
          (selectStep rl inp s).dragging = s.dragging) := by
  unfold selectStep
  rw [if_pos hp]
  cases hsc : selectScan rl s.shapes inp.mouse s.shapes.length (Nat.le_refl _) with
  | none =>
    refine ⟨Or.inl rfl, ?_, fun _ => ⟨rfl, rfl, rfl⟩⟩
    intro i hi
    cases hi
  | some k =>
    have := ((selectScan_spec rl s.shapes inp.mouse _ _).1 k hsc).1
    refine ⟨Or.inr ?_, ?_, ?_⟩
    · simp only [State.log]
      omega
    · intro i hi
      cases hi
      exact ⟨rfl, rfl, rfl⟩
    · intro hn
      cases hn

theorem frame_edit (rl : Raylib F) (inp : Input F) (s : State F)
    (hb : (beforeBranch rl inp s).current = none)
    (hs : (selectStep rl inp (beforeBranch rl inp s)).SelOk) :
    ∃ s2 s4, dragStep rl inp (selectStep rl inp (beforeBranch rl inp s)) = some s2 ∧
      removeStep rl inp (releaseStep rl inp s2) = some s4 ∧
      frame rl inp s = some (escapeStep rl inp s4) ∧ s2.SelOk ∧ (releaseStep rl inp s2).SelOk := by
  obtain ⟨s2, h2, h2s, _, _, h2l, _, _⟩ := dragStep_spec rl inp _ hs
  have hs2 : s2.SelOk := selOk_of_eq _ _ hs h2s (le_of_eq h2l.symm)
  obtain ⟨r1, _, r3, _⟩ := releaseStep_fields rl inp s2
  have hs3 : (releaseStep rl inp s2).SelOk := selOk_of_eq _ _ hs2 r3 (le_of_eq (by rw [r1]))
  obtain ⟨s4, h4, _⟩ := removeStep_spec rl inp _ hs3
  refine ⟨s2, s4, h2, h4, ?_, hs2, hs3⟩
  simp [frame, hb, editStep, h2, h4]

/-- C6. In a frame that runs the selection/edit branch (no shape is under
construction when line 409 is reached) and carries a press edge at cursor `m`
and no DELETE key, the frame succeeds and the selection after it is the
greatest index whose shape contains `m`, and `-1` when no committed shape
contains `m`; in particular, when all shapes at indices `0..k` contain `m`,
index `k` is selected. -/
theorem select_topmost (rl : Raylib F) (inp : Input F) (s : State F)
    (hmode : (beforeBranch rl inp s).current = none) (hp : inp.leftPressed = true)
    (hdel : inp.keyDelete = false) :
    ∃ s1, frame rl inp s = some s1 ∧
      ((∀ (j : Nat) (sh : Shape F), s.shapes[j]? = some sh → sh.Contains rl inp.mouse = false) →
        s1.selectedIndex = -1) ∧
      (∀ (i : Nat) (sh : Shape F), s.shapes[i]? = some sh → sh.Contains rl inp.mouse = true →
        (∀ (j : Nat) (sh1 : Shape F), i < j → s.shapes[j]? = some sh1 → sh1.Contains rl inp.mouse = false) →
        s1.selectedIndex = i) ∧
      (∀ k : Nat, s.shapes.length = k + 1 →
        (∀ (j : Nat) (sh : Shape F), s.shapes[j]? = some sh → sh.Contains rl inp.mouse = true) →
        s1.selectedIndex = k) := by
  obtain ⟨b1, _, _, _⟩ := beforeBranch_fields rl inp s
  obtain ⟨p1, p2, p3⟩ := selectStep_pressed rl inp (beforeBranch rl inp s) hp
  obtain ⟨s2, s4, h2, h4, hf, hs2, hs3⟩ := frame_edit rl inp s hmode p1
  obtain ⟨s2', h2', d1, _⟩ := dragStep_spec rl inp _ p1
  rw [h2] at h2'
  cases h2'
  obtain ⟨_, _, r3, _⟩ := releaseStep_fields rl inp s2
  obtain ⟨s4', h4', _, _, _, _, _, m2⟩ := removeStep_spec rl inp _ hs3
  rw [h4] at h4'
  cases h4'
  have hs4 : s4 = releaseStep rl inp s2 := m2 (by simp [hdel])
  obtain ⟨_, _, e3, _⟩ := escapeStep_fields rl inp s4
  have hsel : (escapeStep rl inp s4).selectedIndex =
      (selectStep rl inp (beforeBranch rl inp s)).selectedIndex := by
    rw [e3, hs4, r3, d1]
  have main : (∀ (i : Nat) (sh : Shape F), s.shapes[i]? = some sh → sh.Contains rl inp.mouse = true →
        (∀ (j : Nat) (sh1 : Shape F), i < j → s.shapes[j]? = some sh1 → sh1.Contains rl inp.mouse = false) →
        (escapeStep rl inp s4).selectedIndex = i) := by
    intro i sh hi hc hmax
    rw [hsel]
    have hlt : i < s.shapes.length := (List.getElem?_eq_some.mp hi).1
    obtain ⟨sp1, sp2⟩ := selectScan_spec rl (beforeBranch rl inp s).shapes inp.mouse _ (Nat.le_refl _)
    cases hsc : selectScan rl (beforeBranch rl inp s).shapes inp.mouse _ (Nat.le_refl _) with
    | none =>
      have := sp2 hsc i sh (by rw [b1]; exact hlt) (by rw [b1]; exact hi)
      rw [hc] at this
      cases this
    | some k =>
      obtain ⟨k1, ⟨shk, k2, k3⟩, k4⟩ := sp1 k hsc
      rw [(p2 k hsc).1]
      rw [b1] at k1 k2 k4
      rcases Nat.lt_trichotomy i k with hlt1 | heq | hgt
      · have := hmax k shk hlt1 k2
        rw [k3] at this
        cases this
      · rw [heq]
      · have := k4 i sh hgt hlt hi
        rw [hc] at this
        cases this
  refine ⟨escapeStep rl inp s4, hf, ?_, main, ?_⟩
  · intro hall
    rw [hsel]
    obtain ⟨sp1, _⟩ := selectScan_spec rl (beforeBranch rl inp s).shapes inp.mouse _ (Nat.le_refl _)
    cases hsc : selectScan rl (beforeBranch rl inp s).shapes inp.mouse _ (Nat.le_refl _) with
    | none => exact (p3 hsc).1
    | some k =>
      obtain ⟨_, ⟨shk, k2, k3⟩, _⟩ := sp1 k hsc
      rw [b1] at k2
      rw [hall k shk k2] at k3
      cases k3
  · intro k hk hall
    have hlt : k < s.shapes.length := by omega
    have hget : s.shapes[k]? = some s.shapes[k] := List.getElem?_eq_getElem hlt
    apply main k _ hget (hall k _ hget)
    intro j sh1 hj1 hj2
    have := (List.getElem?_eq_some.mp hj2).1
    omega

/-- C7, counterexample. The rectangle `(0,0)-(10,10)` is selected by a
press at `(1,1)`; with the button held, key L starts a line while the cursor
is at `(2,2)`, and BACKSPACE cancels it in the next frame, cursor at
`(10,10)`. That frame translates the rectangle by `(9,9)`, not by
`(10,10) - (2,2) = (8,8)`. -/
theorem delta_not_frame_difference : ¬ DeltaIsFrameDifference stdQ := by
  intro h
  have hrun : (run stdQ (selectRect ++ [holdKeyL]) (initState stdQ)).isSome = true := by decide!
  obtain ⟨s, hs⟩ := Option.isSome_iff_exists.mp hrun
  have hd : (run stdQ (selectRect ++ [holdKeyL]) (initState stdQ)).bind
      (fun s => frameDelta stdQ holdCancel s) = some ⟨9, 9⟩ := by decide!
  have hsel : (run stdQ (selectRect ++ [holdKeyL]) (initState stdQ)).bind
      (fun s => frameSelect stdQ holdCancel s) = none := by decide!
  rw [hs] at hd hsel
  have := h selectRect holdKeyL holdCancel s ⟨9, 9⟩ (by decide!) hs hd hsel
  revert this
  decide!

/-- Witness of C6: two overlapping rectangles, a press at `(7,7)` inside both. -/
theorem select_topmost_witness :
    (beforeBranch stdQ (idleAt 7 7).press overlapState).current = none ∧
    (idleAt 7 7).press.leftPressed = true ∧ (idleAt 7 7).press.keyDelete = false ∧
    ∃ s1, frame stdQ (idleAt 7 7).press overlapState = some s1 ∧ s1.selectedIndex = 1 := by
  obtain ⟨s1, h1, _, _, h2⟩ :=
    select_topmost stdQ (idleAt 7 7).press overlapState (by decide!) rfl rfl
  refine ⟨by decide!, rfl, rfl, s1, h1, ?_⟩
  apply h2 1 rfl
  intro j sh hj
  match j, hj with
  | 0, hj =>
    cases hj
    decide!
  | 1, hj =>
    cases hj
    decide!
  | n + 2, hj =>
    simp [overlapState] at hj

theorem releaseStep_dragging (rl : Raylib F) (inp : Input F) (s : State F)
    (h : (releaseStep rl inp s).dragging = true) : s.dragging = true := by
  unfold releaseStep at h
  split_ifs at h
  exact h

theorem selectStep_not_pressed (rl : Raylib F) (inp : Input F) (s : State F)
    (hp : inp.leftPressed = false) : selectStep rl inp s = s := by
  simp [selectStep, hp]

theorem frameSelect_edit (rl : Raylib F) (inp : Input F) (s : State F)
    (hb : (beforeBranch rl inp s).current = none) :
    frameSelect rl inp s =
      if inp.leftPressed then
        selectScan rl (beforeBranch rl inp s).shapes inp.mouse
          (beforeBranch rl inp s).shapes.length (Nat.le_refl _)
      else none := by
  simp only [frameSelect, hb]

theorem frameDelta_edit (rl : Raylib F) (inp : Input F) (s : State F)
    (hb : (beforeBranch rl inp s).current = none) :
    frameDelta rl inp s = dragDelta inp (selectStep rl inp (beforeBranch rl inp s)) := by
  simp only [frameDelta, hb]

/-- What a frame does to `prevMouse`: a frame that selects or translates a
shape stores its cursor; any other frame keeps the stored value and does not
raise the drag flag. -/
theorem frame_grab (rl : Raylib F) (inp : Input F) (s s1 : State F) (hok : s.SelOk)
    (hf : frame rl inp s = some s1) :
    (((frameDelta rl inp s).isSome || (frameSelect rl inp s).isSome) = true →
      s1.prevMouse = inp.mouse) ∧
    (((frameDelta rl inp s).isSome || (frameSelect rl inp s).isSome) = false →
      s1.prevMouse = s.prevMouse ∧ (s1.dragging = true → s.dragging = true)) := by
  obtain ⟨b1, b2, b3, b4⟩ := beforeBranch_fields rl inp s
  have hbok : (beforeBranch rl inp s).SelOk := selOk_of_eq _ _ hok b2 (le_of_eq (by rw [b1]))
  cases hc : (beforeBranch rl inp s).current with
  | some cur =>
    have hd : frameDelta rl inp s = none := by simp only [frameDelta, hc]
    have hsl : frameSelect rl inp s = none := by simp only [frameSelect, hc]
    have hfr : frame rl inp s =
        some (escapeStep rl inp (constructStep rl inp (beforeBranch rl inp s) cur)) := by
      simp only [frame, hc]
    rw [hfr] at hf
    cases hf
    obtain ⟨_, _, _, e4, e5⟩ :=
      escapeStep_fields rl inp (constructStep rl inp (beforeBranch rl inp s) cur)
    obtain ⟨_, c2, c3, _⟩ := constructStep_fields rl inp (beforeBranch rl inp s) cur
    rw [hd, hsl]
    refine ⟨fun h => by simp at h, fun _ => ⟨?_, ?_⟩⟩
    · rw [e4, c2, b3]
    · rw [e5, c3, b4]
      exact id
  | none =>
    have hsok := selectStep_selOk rl inp _ hbok
    obtain ⟨s2, s4, h2, h4, hfr, hs2, hs3⟩ := frame_edit rl inp s hc hsok
    rw [hfr] at hf
    cases hf
    obtain ⟨s2', h2', _, _, d3, _, d5, d6⟩ := dragStep_spec rl inp _ hsok
    rw [h2] at h2'
    cases h2'
    obtain ⟨s4', h4', _, _, m3, m4, _, _⟩ := removeStep_spec rl inp _ hs3
    rw [h4] at h4'
    cases h4'
    obtain ⟨_, _, _, r4⟩ := releaseStep_fields rl inp s2
    obtain ⟨_, _, _, e4, e5⟩ := escapeStep_fields rl inp s4
    have hpm : (escapeStep rl inp s4).prevMouse = s2.prevMouse := by rw [e4, m3, r4]
    have hdr : (escapeStep rl inp s4).dragging = true → s2.dragging = true := by
      rw [e5, m4]
      exact releaseStep_dragging rl inp s2
    rw [frameDelta_edit rl inp s hc, frameSelect_edit rl inp s hc, hpm]
    cases hdd : dragDelta inp (selectStep rl inp (beforeBranch rl inp s)) with
    | some d =>
      refine ⟨fun _ => (d6 d hdd).1, fun h => by simp at h⟩
    | none =>
      have hs2eq := d5 hdd
      cases hp : inp.leftPressed with
      | false =>
        have hsel := selectStep_not_pressed rl inp (beforeBranch rl inp s) hp
        refine ⟨fun h => by simp at h, fun _ => ⟨?_, ?_⟩⟩
        · rw [hs2eq, hsel]
          exact b3
        · intro h
          have := hdr h
          rw [hs2eq, hsel, b4] at this
          exact this
      | true =>
        obtain ⟨_, p2, p3⟩ := selectStep_pressed rl inp (beforeBranch rl inp s) hp
        cases hsc : selectScan rl (beforeBranch rl inp s).shapes inp.mouse _ (Nat.le_refl _) with
        | some i =>
          refine ⟨fun _ => ?_, fun h => by simp at h⟩
          rw [hs2eq]
          exact (p2 i hsc).2.1
        | none =>
          refine ⟨fun h => by simp at h, fun _ => ⟨?_, ?_⟩⟩
          · rw [hs2eq, (p3 hsc).2.1, b3]
          · intro h
            have := hdr h
            rw [hs2eq, (p3 hsc).2.2, b4] at this
            exact this

theorem lastGrab_run (rl : Raylib F) (inps : List (Input F)) :
    ∀ (s s1 : State F) (acc : Option (Vector2 F)), s.SelOk →
      (s.dragging = true → acc = some s.prevMouse) → run rl inps s = some s1 →
      (s1.dragging = true → lastGrab rl inps s acc = some s1.prevMouse) := by
  induction inps with
  | nil =>
    intro s s1 acc _ hacc hr
    cases hr
    exact hacc
  | cons inp rest ih =>
    intro s s1 acc hok hacc hr
    obtain ⟨s2, hf, hok2⟩ := frame_selOk rl inp s hok
    have hr2 : run rl rest s2 = some s1 := by
      simpa [run, hf] using hr
    obtain ⟨g1, g2⟩ := frame_grab rl inp s s2 hok hf
    simp only [lastGrab, hf]
    apply ih s2 s1 _ hok2 _ hr2
    cases hg : ((frameDelta rl inp s).isSome || (frameSelect rl inp s).isSome) with
    | true =>
      intro _
      rw [g1 hg]
      simp
    | false =>
      intro hd
      obtain ⟨k1, k2⟩ := g2 hg
      rw [k1]
      simpa using hacc (k2 hd)

/-- C7, amended. In every frame `c` of a run from the initial state in which
the controller translates the selected shape: if `c` is not the frame of the
selecting press, the delta passed to `Move` is the cursor of `c` minus the
cursor of the most recent earlier frame that selected or translated a shape
(the stored `prevMouse`); if `c` is the frame of the selecting press, the
delta is the cursor of `c` minus itself. -/
theorem delta_is_difference_to_last_grab (rl : Raylib F) (inps : List (Input F))
    (s : State F) (c : Input F) (d : Vector2 F)
    (hrun : run rl inps (initState rl) = some s) (hd : frameDelta rl c s = some d) :
    (frameSelect rl c s = none →
      lastGrab rl inps (initState rl) none = some s.prevMouse ∧
        d = Vector2Subtract c.mouse s.prevMouse) ∧
    (frameSelect rl c s ≠ none → d = Vector2Subtract c.mouse c.mouse) := by
  have hok : s.SelOk := reachable_selOk rl s ⟨inps, hrun⟩
  obtain ⟨b1, b2, b3, b4⟩ := beforeBranch_fields rl c s
  cases hc : (beforeBranch rl c s).current with
  | some cur =>
    simp only [frameDelta, hc] at hd
    cases hd
  | none =>
    rw [frameDelta_edit rl c s hc] at hd
    obtain ⟨k1, _, _, k4⟩ := dragDelta_some c _ d hd
    rw [frameSelect_edit rl c s hc]
    cases hp : c.leftPressed with
    | false =>
      rw [selectStep_not_pressed rl c _ hp] at k1 k4
      rw [b3] at k4
      rw [b4] at k1
      refine ⟨fun _ => ⟨?_, k4⟩, fun h => by simp at h⟩
      exact lastGrab_run rl inps _ s none (Or.inl rfl) (fun h => by cases h) hrun k1
    | true =>
      obtain ⟨_, p2, p3⟩ := selectStep_pressed rl c (beforeBranch rl c s) hp
      simp only [if_true]
      constructor
      · intro hn
        obtain ⟨_, q2, q3⟩ := p3 hn
        rw [q2, b3] at k4
        rw [q3, b4] at k1
        exact ⟨lastGrab_run rl inps _ s none (Or.inl rfl) (fun h => by cases h) hrun k1, k4⟩
      · intro hn
        obtain ⟨i, hi⟩ := Option.ne_none_iff_exists'.mp hn
        rw [(p2 i hi).2.1] at k4
        exact k4

/-- Witness of C7 (amended): the rectangle is selected at `(1,1)`, key L and
BACKSPACE follow with the button held; the delta `(9,9)` is the cursor `(10,10)` minus the cursor `(1,1)` of the selecting
press, the most recent frame that selected or translated a shape. -/
theorem delta_is_difference_to_last_grab_witness :
    ∃ s, run stdQ (selectRect ++ [holdKeyL]) (initState stdQ) = some s ∧
      frameDelta stdQ holdCancel s = some ⟨9, 9⟩ ∧ frameSelect stdQ holdCancel s = none ∧
      lastGrab stdQ (selectRect ++ [holdKeyL]) (initState stdQ) none = some s.prevMouse ∧
      (⟨9, 9⟩ : Vector2 ℚ) = Vector2Subtract holdCancel.mouse s.prevMouse := by
  have hrun : (run stdQ (selectRect ++ [holdKeyL]) (initState stdQ)).isSome = true := by decide!
  obtain ⟨s, hs⟩ := Option.isSome_iff_exists.mp hrun
  have hd : (run stdQ (selectRect ++ [holdKeyL]) (initState stdQ)).bind
      (fun s => frameDelta stdQ holdCancel s) = some ⟨9, 9⟩ := by decide!
  have hsel : (run stdQ (selectRect ++ [holdKeyL]) (initState stdQ)).bind
      (fun s => frameSelect stdQ holdCancel s) = none := by decide!
  rw [hs] at hd hsel
  exact ⟨s, hs, hd, hsel,
    (delta_is_difference_to_last_grab stdQ (selectRect ++ [holdKeyL]) s holdCancel ⟨9, 9⟩
      hs hd).1 hsel⟩

/-- C8, the program at a failing input. The rectangle `(0,0)-(10,10)` is
selected by a press at `(1,1)`; with the button held, key L starts a line;
the button is released while the line is under construction. At the end of
the frame of the release the drag flag is still set. After the two presses
that commit the line, with the button of the second press still down and the
cursor at `(70,70)`, the rectangle is translated by `(69,69)` although no
press has selected it again. -/
theorem drag_flag_survives_release :
    buttonsOk false (selectRect ++ [holdKeyL] ++ releaseWhileBuilding) = true ∧
    (run stdQ (selectRect ++ [holdKeyL] ++ releaseWhileBuilding.take 1) (initState stdQ)).map
      (fun s => s.dragging) = some true ∧
    (run stdQ (selectRect ++ [holdKeyL] ++ releaseWhileBuilding.take 4) (initState stdQ)).map
      (fun s => (s.shapes.head?, s.shapes.length, s.selectedIndex, s.dragging)) =
      some (some (rectOf 0 0 10 10), 2, 0, true) ∧
    lastGrab stdQ (selectRect ++ [holdKeyL] ++ releaseWhileBuilding.take 4) (initState stdQ) none
      = some ⟨1, 1⟩ ∧
    (run stdQ (selectRect ++ [holdKeyL] ++ releaseWhileBuilding) (initState stdQ)).map
      (fun s => (s.shapes.head?, s.shapes.length, s.selectedIndex, s.dragging)) =
      some (some (rectOf 69 69 79 79), 2, 0, true) := by
  refine ⟨?_, ?_, ?_, ?_, ?_⟩ <;> decide!

theorem eraseIdx_set_same (l : List (Shape F)) (i : Nat) (x : Shape F) :
    (l.set i x).eraseIdx i = l.eraseIdx i := by
  induction l generalizing i with
  | nil => simp
  | cons a rest ih =>
    cases i with
    | zero => simp
    | succ k => simp [ih]

theorem beforeBranch_current_none (rl : Raylib F) (inp : Input F) (s : State F)
    (hc : s.current = none) (h1 : inp.keyC = false) (h2 : inp.keyP = false)
    (h3 : inp.keyL = false) (h4 : inp.keyR = false) (h5 : inp.keyT = false) :
    (beforeBranch rl inp s).current = none := by
  simp [beforeBranch, cancelStep, createStep, mouseMoveStep, State.log, hc, h1, h2, h3, h4, h5]

/-- A frame of the selection/edit branch without a press edge, in a state
with no selection: the collection, the selection and the empty construction
slot stay as they are. -/
theorem frame_unselected (rl : Raylib F) (inp : Input F) (s : State F)
    (hc : (beforeBranch rl inp s).current = none) (hsel : s.selectedIndex = -1)
    (hp : inp.leftPressed = false) :
    ∃ s1, frame rl inp s = some s1 ∧ s1.shapes = s.shapes ∧ s1.selectedIndex = -1 ∧
      s1.current = none := by
  obtain ⟨b1, b2, _, _⟩ := beforeBranch_fields rl inp s
  have hbsel : (beforeBranch rl inp s).selectedIndex = -1 := b2.trans hsel
  have hselect := selectStep_not_pressed rl inp (beforeBranch rl inp s) hp
  have hok : (selectStep rl inp (beforeBranch rl inp s)).SelOk := by
    rw [hselect]
    exact Or.inl hbsel
  obtain ⟨s2, s4, h2, h4, hf, _, hs3⟩ := frame_edit rl inp s hc hok
  obtain ⟨s2', h2', _, _, _, _, d5, _⟩ := dragStep_spec rl inp _ hok
  rw [h2] at h2'
  cases h2'
  have hs2 : s2 = beforeBranch rl inp s := by
    rw [d5 (dragDelta_none_of_sel inp _ (by rw [hselect]; exact hbsel)), hselect]
  obtain ⟨r1, r2, r3, _⟩ := releaseStep_fields rl inp s2
  obtain ⟨s4', h4', _, _, _, _, _, m2⟩ := removeStep_spec rl inp _ hs3
  rw [h4] at h4'
  cases h4'
  have hs4 : s4 = releaseStep rl inp s2 := m2 (by rw [r3, hs2, hbsel]; simp)
  obtain ⟨e1, e2, e3, _⟩ := escapeStep_fields rl inp s4
  refine ⟨escapeStep rl inp s4, hf, ?_, ?_, ?_⟩
  · rw [e1, hs4, r1, hs2, b1]
  · rw [e3, hs4, r3, hs2, hbsel]
  · rw [e2, hs4, r2, hs2, hc]

theorem run_unselected (rl : Raylib F) (rest : List (Input F)) :
    ∀ s : State F, s.current = none → s.selectedIndex = -1 →
      (∀ r ∈ rest, r.leftPressed = false ∧ r.keyC = false ∧ r.keyP = false ∧ r.keyL = false ∧
        r.keyR = false ∧ r.keyT = false) →
      ∃ s1, run rl rest s = some s1 ∧ s1.shapes = s.shapes ∧ s1.selectedIndex = -1 ∧
        s1.current = none := by
  induction rest with
  | nil =>
    intro s hc hsel _
    exact ⟨s, rfl, rfl, hsel, hc⟩
  | cons r rest ih =>
    intro s hc hsel hall
    obtain ⟨hp, h1, h2, h3, h4, h5⟩ := hall r (List.mem_cons_self _ _)
    obtain ⟨s1, hf, f1, f2, f3⟩ :=
      frame_unselected rl r s (beforeBranch_current_none rl r s hc h1 h2 h3 h4 h5) hsel hp
    obtain ⟨s2, hr, g1, g2, g3⟩ :=
      ih s1 f3 f2 (fun q hq => hall q (List.mem_cons_of_mem _ hq))
    exact ⟨s2, by simp [run, hf, hr], g1.trans f1, g2, g3⟩

/-! ### The event log -/

theorem appends_refl (types : List String) (s : State F) : Appends types s s :=
  ⟨[], by simp, by simp⟩

theorem appends_trans (types : List String) (s s1 s2 : State F) (h1 : Appends types s s1)
    (h2 : Appends types s1 s2) : Appends types s s2 := by
  obtain ⟨l1, e1, m1⟩ := h1
  obtain ⟨l2, e2, m2⟩ := h2
  refine ⟨l1 ++ l2, by rw [e2, e1, List.append_assoc], ?_⟩
  intro e he
  rcases List.mem_append.mp he with h | h
  · exact m1 e h
  · exact m2 e h

theorem appends_log (rl : Raylib F) (types : List String) (s s1 : State F) (t : String)
    (p : Vector2 F) (i : Int) (ht : t ∈ types) (h : s1.eventLog = (s.log rl t p i).eventLog) :
    Appends types s s1 := by
  refine ⟨[⟨rl.clock s.eventLog.length, t, p, i⟩], h, ?_⟩
  intro e he
  rw [List.mem_singleton.mp he]
  exact ht

theorem appends_of_eq (types : List String) (s s1 : State F) (h : s1.eventLog = s.eventLog) :
    Appends types s s1 :=
  ⟨[], by simp [h], by simp⟩

theorem beforeBranch_appends (rl : Raylib F) (inp : Input F) (s : State F) :
    Appends otherTypes s (beforeBranch rl inp s) := by
  have h1 : Appends otherTypes s (mouseMoveStep rl inp s) :=
    appends_log rl _ _ _ "mouse_move" inp.mouse (-1) (by decide) rfl
  have h2 : Appends otherTypes (mouseMoveStep rl inp s) (createStep rl inp (mouseMoveStep rl inp s)) := by
    unfold createStep
    split_ifs
    · exact appends_log rl _ _ _ "create_circle" inp.mouse (-1) (by decide) rfl
    · exact appends_log rl _ _ _ "create_point" inp.mouse (-1) (by decide) rfl
    · exact appends_log rl _ _ _ "create_line" inp.mouse (-1) (by decide) rfl
    · exact appends_log rl _ _ _ "create_rectangle" inp.mouse (-1) (by decide) rfl
    · exact appends_log rl _ _ _ "create_triangle" inp.mouse (-1) (by decide) rfl
    · exact appends_refl _ _
    · exact appends_refl _ _
  have h3 : Appends otherTypes (createStep rl inp (mouseMoveStep rl inp s))
      (beforeBranch rl inp s) := by
    unfold beforeBranch cancelStep
    split_ifs
    · exact appends_log rl _ _ _ "cancel" inp.mouse (-1) (by decide) rfl
    · exact appends_refl _ _
  exact appends_trans _ _ _ _ (appends_trans _ _ _ _ h1 h2) h3

theorem escapeStep_appends (rl : Raylib F) (inp : Input F) (s : State F) :
    Appends otherTypes s (escapeStep rl inp s) := by
  unfold escapeStep
  split_ifs
  · exact appends_log rl _ _ _ "escape_pressed" inp.mouse (-1) (by decide) rfl
  · exact appends_refl _ _

theorem selectStep_appends (rl : Raylib F) (inp : Input F) (s : State F) :
    Appends otherTypes s (selectStep rl inp s) := by
  unfold selectStep
  split_ifs
  · split
    · next i _ => exact appends_log rl _ _ _ "select" inp.mouse i (by decide) rfl
    · exact appends_of_eq _ _ _ rfl
  · exact appends_refl _ _

theorem dragStep_appends (rl : Raylib F) (inp : Input F) (s s1 : State F)
    (h : dragStep rl inp s = some s1) : Appends otherTypes s s1 := by
  unfold dragStep at h
  split at h
  · split at h
    · cases h
      exact appends_log rl _ _ _ "drag" inp.mouse s.selectedIndex (by decide) rfl
    · cases h
  · cases h
    exact appends_refl _ _

theorem releaseStep_appends (rl : Raylib F) (inp : Input F) (s : State F) :
    Appends otherTypes s (releaseStep rl inp s) := by
  unfold releaseStep
  split_ifs
  · exact appends_log rl _ _ _ "drag_end" inp.mouse s.selectedIndex (by decide) rfl
  · exact appends_refl _ _

theorem removeStep_appends (rl : Raylib F) (inp : Input F) (s s1 : State F)
    (h : removeStep rl inp s = some s1) : Appends otherTypes s s1 := by
  unfold removeStep at h
  split_ifs at h
  · split at h
    · cases h
      exact appends_log rl _ _ _ "remove" inp.mouse s.selectedIndex (by decide) rfl
    · cases h
  · cases h
    exact appends_refl _ _

theorem editStep_appends (rl : Raylib F) (inp : Input F) (s s1 : State F)
    (h : editStep rl inp s = some s1) : Appends otherTypes s s1 := by
  unfold editStep at h
  cases hd : dragStep rl inp (selectStep rl inp s) with
  | none => simp [hd] at h
  | some s2 =>
    rw [hd] at h
    simp only [Option.some_bind] at h
    exact appends_trans _ _ _ _
      (appends_trans _ _ _ _
        (appends_trans _ _ _ _ (selectStep_appends rl inp s) (dragStep_appends rl inp _ _ hd))
        (releaseStep_appends rl inp s2))
      (removeStep_appends rl inp _ _ h)

theorem appended_eq (s s1 : State F) (l : List (LogEvent F))
    (h : s1.eventLog = s.eventLog ++ l) : appended s s1 = l := by
  simp [appended, h]

theorem Shape.handleInput_ready (rl : Raylib F) (sh : Shape F) (inp : Input F) :
    (sh.HandleInput rl inp).1.ready = (sh.HandleInput rl inp).2 := by
  cases sh <;> rfl

/-- Every `shape_ready` record a frame appends carries the index at which
the frame stores the committed shape. -/
theorem shape_ready_index (rl : Raylib F) (s s1 : State F) (inp : Input F) (e : LogEvent F)
    (hf : frame rl inp s = some s1) (he : e ∈ appended s s1) (ht : e.type = "shape_ready") :
    e.shapeIndex = s.shapes.length ∧
      ∃ sh, sh.ready = true ∧ s1.shapes = s.shapes ++ [sh] ∧
        s1.shapes[e.shapeIndex.toNat]? = some sh := by
  have hnot : ∀ (a b : State F), Appends otherTypes a b → ∀ e1 ∈ appended a b,
      e1.type ≠ "shape_ready" := by
    intro a b hab e1 he1 h1
    obtain ⟨l, hl, hm⟩ := hab
    rw [appended_eq a b l hl] at he1
    have := hm e1 he1
    rw [h1] at this
    revert this
    decide
  obtain ⟨b1, _, _, _⟩ := beforeBranch_fields rl inp s
  cases hc : (beforeBranch rl inp s).current with
  | none =>
    simp only [frame, hc] at hf
    cases hed : editStep rl inp (beforeBranch rl inp s) with
    | none => simp [hed] at hf
    | some s4 =>
      rw [hed] at hf
      simp only [Option.map_some'] at hf
      cases hf
      have := appends_trans _ _ _ _
        (appends_trans _ _ _ _ (beforeBranch_appends rl inp s) (editStep_appends rl inp _ _ hed))
        (escapeStep_appends rl inp s4)
      exact absurd ht (hnot _ _ this e he)
  | some cur =>
    simp only [frame, hc] at hf
    cases hf
    obtain ⟨l0, hl0, hm0⟩ := beforeBranch_appends rl inp s
    obtain ⟨l2, hl2, hm2⟩ :=
      escapeStep_appends rl inp (constructStep rl inp (beforeBranch rl inp s) cur)
    obtain ⟨e1, _, _, _, _⟩ :=
      escapeStep_fields rl inp (constructStep rl inp (beforeBranch rl inp s) cur)
    have hno : ∀ e1 : LogEvent F, e1.type = "shape_ready" → e1.type ∉ otherTypes := by
      intro e1 h1
      rw [h1]
      decide
    cases hr : (cur.HandleInput rl inp).2 with
    | false =>
      have hcl : (constructStep rl inp (beforeBranch rl inp s) cur).eventLog =
          (beforeBranch rl inp s).eventLog := by
        simp [constructStep, hr]
      rw [hcl, hl0, List.append_assoc] at hl2
      rw [appended_eq _ _ _ hl2] at he
      rcases List.mem_append.mp he with h | h
      · exact absurd (hm0 e h) (hno e ht)
      · exact absurd (hm2 e h) (hno e ht)
    | true =>
      have hcl : (constructStep rl inp (beforeBranch rl inp s) cur).eventLog =
          (beforeBranch rl inp s).eventLog ++
            [⟨rl.clock (beforeBranch rl inp s).eventLog.length, "shape_ready", inp.mouse,
              (beforeBranch rl inp s).shapes.length⟩] := by
        simp [constructStep, hr, State.log]
      have hcs : (constructStep rl inp (beforeBranch rl inp s) cur).shapes =
          (beforeBranch rl inp s).shapes ++ [(cur.HandleInput rl inp).1] := by
        simp [constructStep, hr, State.log]
      rw [hcl, hl0, List.append_assoc, List.append_assoc] at hl2
      rw [appended_eq _ _ _ hl2] at he
      rcases List.mem_append.mp he with h | h
      · exact absurd (hm0 e h) (hno e ht)
      · rcases List.mem_append.mp h with h | h
        · rw [List.mem_singleton.mp h]
          refine ⟨?_, (cur.HandleInput rl inp).1, ?_, ?_, ?_⟩
          · show ((beforeBranch rl inp s).shapes.length : Int) = s.shapes.length
            rw [b1]
          · rw [Shape.handleInput_ready, hr]
          · rw [e1, hcs, b1]
          · show (escapeStep rl inp (constructStep rl inp (beforeBranch rl inp s) cur)).shapes[
              ((beforeBranch rl inp s).shapes.length : Int).toNat]? = _
            rw [e1, hcs, b1]
            simp
        · exact absurd (hm2 e h) (hno e ht)

theorem frame_idle_waiting_point (rl : Raylib F) (m : Vector2 F) (s : State F)
    (p : PointShape F) (hc : s.current = some (.point p)) (hr : p.ready = false) :
    frame rl (Input.idle m) s = some (s.log rl "mouse_move" m (-1)) := by
  simp [frame, beforeBranch, mouseMoveStep, createStep, cancelStep, constructStep, escapeStep,
    State.log, Input.idle, hc, Shape.HandleInput, PointShape.HandleInput, hr]

theorem run_idle_waiting_point (rl : Raylib F) (ms : List (Vector2 F)) :
    ∀ (s : State F) (p : PointShape F), s.current = some (.point p) → p.ready = false →
      ∃ s1, run rl (ms.map Input.idle) s = some s1 ∧ s1.shapes = s.shapes ∧
        s1.current = s.current ∧ s1.selectedIndex = s.selectedIndex ∧
        s1.eventLog.map LogEvent.view =
          s.eventLog.map LogEvent.view ++ ms.map (fun m => ("mouse_move", m, (-1 : Int))) := by
  induction ms with
  | nil =>
    intro s p _ _
    exact ⟨s, rfl, rfl, rfl, rfl, by simp⟩
  | cons m rest ih =>
    intro s p hc hr
    obtain ⟨s1, h1, h2, h3, h4, h5⟩ := ih (s.log rl "mouse_move" m (-1)) p hc hr
    refine ⟨s1, ?_, h2, h3, h4, ?_⟩
    · simp [run, frame_idle_waiting_point rl m s p hc hr, h1]
    · rw [h5]
      simp [State.log, LogEvent.view]

/-- C10. From the initial state, a frame with the key P pressed (cursor
anywhere), any number of frames without input, and one press of the left
button at `(x, y)`: the run succeeds; the collection holds exactly one shape,
a ready point at `(x, y)`; no shape is under construction; the log is
`program_start`, the `mouse_move` and `create_point` of the first frame, one
`mouse_move` per frame without input, and the `mouse_move` and
`shape_ready` (index 0) of the last frame. In every frame of every state, a
`shape_ready` record the frame appends carries the index at which the frame
stores the committed, ready shape (the end of the collection). -/
theorem create_point_end_to_end (rl : Raylib F) (x y : F) (m0 : Vector2 F) (r0 r1 r2 : Int)
    (ms : List (Vector2 F)) :
    (∃ s, run rl (Input.keyPAt m0 r0 r1 r2 :: (ms.map Input.idle ++ [(Input.idle ⟨x, y⟩).press]))
        (initState rl) = some s ∧
      s.shapes = [.point { pos := ⟨x, y⟩, waiting := false, ready := true,
                           color := RandomColor r0 r1 r2 }] ∧
      s.current = none ∧ s.selectedIndex = -1 ∧
      s.eventLog.map LogEvent.view =
        [("program_start", ⟨0, 0⟩, -1), ("mouse_move", m0, -1), ("create_point", m0, -1)] ++
          ms.map (fun m => ("mouse_move", m, (-1 : Int))) ++
          [("mouse_move", ⟨x, y⟩, -1), ("shape_ready", ⟨x, y⟩, 0)]) ∧
    (∀ (s s1 : State F) (inp : Input F) (e : LogEvent F), frame rl inp s = some s1 →
      e ∈ appended s s1 → e.type = "shape_ready" →
      e.shapeIndex = s.shapes.length ∧
        ∃ sh, sh.ready = true ∧ s1.shapes = s.shapes ++ [sh] ∧
          s1.shapes[e.shapeIndex.toNat]? = some sh) := by
  refine ⟨?_, fun s s1 inp e hf he ht => shape_ready_index rl s s1 inp e hf he ht⟩
  have hfirst : ∃ s1, frame rl (Input.keyPAt m0 r0 r1 r2) (initState rl) = some s1 ∧
      s1.shapes = [] ∧ s1.current = some (.point (PointShape.new (RandomColor r0 r1 r2))) ∧
      s1.selectedIndex = -1 ∧
      s1.eventLog.map LogEvent.view =
        [("program_start", ⟨0, 0⟩, -1), ("mouse_move", m0, -1), ("create_point", m0, -1)] := by
    refine ⟨_, rfl, ?_, ?_, ?_, ?_⟩ <;>
      simp [frame, beforeBranch, mouseMoveStep, createStep, cancelStep, constructStep,
        escapeStep, State.log, Input.idle, Input.keyPAt, initState, Shape.HandleInput,
        PointShape.HandleInput, PointShape.new, LogEvent.view]
  obtain ⟨s1, f1, f2, f3, f4, f5⟩ := hfirst
  obtain ⟨s2, g1, g2, g3, g4, g5⟩ :=
    run_idle_waiting_point rl ms s1 (PointShape.new (RandomColor r0 r1 r2)) f3 rfl
  rw [f3] at g3
  have hlast : ∃ s3, frame rl (Input.idle ⟨x, y⟩).press s2 = some s3 ∧
      s3.shapes = s2.shapes ++ [.point { pos := ⟨x, y⟩, waiting := false, ready := true,
                                         color := RandomColor r0 r1 r2 }] ∧
      s3.current = none ∧ s3.selectedIndex = s2.selectedIndex ∧
      s3.eventLog.map LogEvent.view = s2.eventLog.map LogEvent.view ++
        [("mouse_move", ⟨x, y⟩, -1), ("shape_ready", ⟨x, y⟩, (s2.shapes.length : Int))] := by
    have hb : (beforeBranch rl (Input.idle ⟨x, y⟩).press s2).current =
        some (.point (PointShape.new (RandomColor r0 r1 r2))) := by
      simp [beforeBranch, mouseMoveStep, createStep, cancelStep, State.log, Input.idle,
        Input.press, g3]
    refine ⟨escapeStep rl (Input.idle ⟨x, y⟩).press
      (constructStep rl (Input.idle ⟨x, y⟩).press (beforeBranch rl (Input.idle ⟨x, y⟩).press s2)
        (.point (PointShape.new (RandomColor r0 r1 r2)))), ?_, ?_, ?_, ?_, ?_⟩
    · simp only [frame, hb]
    all_goals
      simp [beforeBranch, mouseMoveStep, createStep, cancelStep, constructStep,
        escapeStep, State.log, Input.idle, Input.press, g3, Shape.HandleInput,
        PointShape.HandleInput, PointShape.new, LogEvent.view]
  obtain ⟨s3, k1, k2, k3, k4, k5⟩ := hlast
  refine ⟨s3, ?_, ?_, k3, ?_, ?_⟩
  · have happ : ∀ (l1 l2 : List (Input F)) (a b : State F), run rl l1 a = some b →
        run rl (l1 ++ l2) a = run rl l2 b := by
      intro l1
      induction l1 with
      | nil =>
        intro l2 a b h
        cases h
        rfl
      | cons i l ih =>
        intro l2 a b h
        cases hfi : frame rl i a with
        | none => simp [run, hfi] at h
        | some a1 =>
          simp only [run, hfi, Option.some_bind, List.cons_append] at h ⊢
          exact ih l2 a1 b h
    simp only [run, f1, Option.some_bind]
    rw [happ _ _ _ _ g1]
    simp [run, k1]
  · rw [k2, g2, f2]
    rfl
  · rw [k4, g4, f4]
  · rw [k5, g5, f5, g2, f2]
    simp

/-- Witness of C10: key P, then a press at `(100, 200)`. -/
theorem create_point_end_to_end_witness :
    ∃ s, run stdQ [Input.keyPAt ⟨0, 0⟩ 10 20 30, (idleAt 100 200).press] (initState stdQ) = some s ∧
      s.shapes = [.point { pos := ⟨100, 200⟩, waiting := false, ready := true,
                           color := ⟨10, 20, 30, 255⟩ }] ∧
      s.current = none ∧
      s.eventLog.map LogEvent.view =
        [("program_start", ⟨0, 0⟩, -1), ("mouse_move", ⟨0, 0⟩, -1), ("create_point", ⟨0, 0⟩, -1),
          ("mouse_move", ⟨100, 200⟩, -1), ("shape_ready", ⟨100, 200⟩, 0)] := by
  obtain ⟨s, h1, h2, h3, _, h5⟩ :=
    (create_point_end_to_end stdQ 100 200 ⟨0, 0⟩ 10 20 30 []).1
  exact ⟨s, h1, h2, h3, h5⟩

/-! ### Frames of the construction branch -/

theorem Shape.handleInput_idle (rl : Raylib F) (sh : Shape F) (inp : Input F)
    (h : inp.leftPressed = false) : sh.HandleInput rl inp = (sh, sh.ready) := by
  cases sh <;>
    simp [Shape.HandleInput, PointShape.HandleInput, LineShape.HandleInput,
      CircleShape.HandleInput, RectShape.HandleInput, TriangleShape.HandleInput, Shape.ready, h]

/-- C15. For a shape of any variant in any state (fresh, partly defined or
ready; in fact for every value of its fields), a call of `HandleInput` in a
frame without a press edge of the left button returns the object unchanged
together with its `ready` flag; over any number of such frames the object
stays the same and every call returns that same flag. -/
theorem handleInput_idempotent (rl : Raylib F) (sh : Shape F) (inp : Input F)
    (inps : List (Input F)) (h : inp.leftPressed = false)
    (hall : ∀ i ∈ inps, i.leftPressed = false) :
    (sh.HandleInput rl inp).1 = sh ∧ (sh.HandleInput rl inp).2 = sh.ready ∧
      handleInputsState rl sh inps = sh ∧
      handleInputs rl sh inps = List.replicate inps.length sh.ready := by
  refine ⟨by rw [Shape.handleInput_idle rl sh inp h], by rw [Shape.handleInput_idle rl sh inp h],
    ?_, ?_⟩
  · induction inps with
    | nil => rfl
    | cons i rest ih =>
      have hi := hall i (List.mem_cons_self _ _)
      simp only [handleInputsState, Shape.handleInput_idle rl sh i hi]
      exact ih (fun j hj => hall j (List.mem_cons_of_mem _ hj))
  · induction inps with
    | nil => rfl
    | cons i rest ih =>
      have hi := hall i (List.mem_cons_self _ _)
      simp only [handleInputs, Shape.handleInput_idle rl sh i hi, List.length_cons,
        List.replicate_succ]
      rw [ih (fun j hj => hall j (List.mem_cons_of_mem _ hj))]

/-- Witness of C15: a line with its first endpoint fixed, over three frames
without a press. -/
theorem handleInput_idempotent_witness :
    (idleAt 3 4).leftPressed = false ∧
    handleInputsState stdQ (halfLine 1 2) [idleAt 5 5, idleAt 6 6, idleAt 7 7] = halfLine 1 2 ∧
    handleInputs stdQ (halfLine 1 2) [idleAt 5 5, idleAt 6 6, idleAt 7 7] =
      [false, false, false] := by
  have h := handleInput_idempotent stdQ (halfLine 1 2) (idleAt 3 4)
    [idleAt 5 5, idleAt 6 6, idleAt 7 7] rfl (by
      intro i hi
      simp only [List.mem_cons, List.mem_singleton, List.not_mem_nil, or_false] at hi
      rcases hi with h | h | h <;> rw [h] <;> rfl)
  exact ⟨rfl, h.2.2.1, h.2.2.2⟩

theorem createStep_of_some (rl : Raylib F) (inp : Input F) (s : State F) (cur : Shape F)
    (hc : s.current = some cur) : createStep rl inp s = s := by
  simp [createStep, hc]

theorem beforeBranch_current_some (rl : Raylib F) (inp : Input F) (s : State F) (cur : Shape F)
    (hc : s.current = some cur) (hb : inp.keyBackspace = false) :
    (beforeBranch rl inp s).current = some cur := by
  have h1 : (mouseMoveStep rl inp s).current = some cur := hc
  simp [beforeBranch, cancelStep, createStep_of_some rl inp _ cur h1, hb, h1]

theorem beforeBranch_current_cancel (rl : Raylib F) (inp : Input F) (s : State F) (cur : Shape F)
    (hc : s.current = some cur) (hb : inp.keyBackspace = true) :
    (beforeBranch rl inp s).current = none := by
  have h1 : (mouseMoveStep rl inp s).current = some cur := hc
  simp [beforeBranch, cancelStep, createStep_of_some rl inp _ cur h1, hb, h1]

theorem frame_construct (rl : Raylib F) (inp : Input F) (s : State F) (cur : Shape F)
    (hc : (beforeBranch rl inp s).current = some cur) :
    frame rl inp s = some (escapeStep rl inp (constructStep rl inp (beforeBranch rl inp s) cur)) := by
  simp only [frame, hc]

/-- C11. In a state with a shape `cur` under construction and a frame
without BACKSPACE, the frame succeeds; if `HandleInput` of `cur` returns
true, the collection after the frame is the collection before it with the
shape (as `HandleInput` left it) appended at the end and the construction slot
is empty; if it returns false, the collection is unchanged and the shape (as
`HandleInput` left it) is still in the construction slot. -/
theorem commit_appends (rl : Raylib F) (inp : Input F) (s : State F) (cur : Shape F)
    (hc : s.current = some cur) (hb : inp.keyBackspace = false) :
    ∃ s1, frame rl inp s = some s1 ∧
      ((cur.HandleInput rl inp).2 = true →
        s1.shapes = s.shapes ++ [(cur.HandleInput rl inp).1] ∧ s1.current = none) ∧
      ((cur.HandleInput rl inp).2 = false →
        s1.shapes = s.shapes ∧ s1.current = some (cur.HandleInput rl inp).1) := by
  have hbc := beforeBranch_current_some rl inp s cur hc hb
  obtain ⟨b1, _, _, _⟩ := beforeBranch_fields rl inp s
  obtain ⟨e1, e2, _, _, _⟩ :=
    escapeStep_fields rl inp (constructStep rl inp (beforeBranch rl inp s) cur)
  refine ⟨_, frame_construct rl inp s cur hbc, ?_, ?_⟩
  · intro hr
    rw [e1, e2]
    simp [constructStep, hr, State.log, b1]
  · intro hr
    rw [e1, e2]
    simp [constructStep, hr, b1]

/-- Witness of C11: a line with its first endpoint fixed is committed by a
press at `(8,9)`. -/
theorem commit_appends_witness :
    buildingLine.current = some (halfLine 1 2) ∧ (idleAt 8 9).press.keyBackspace = false ∧
    ∃ s1, frame stdQ (idleAt 8 9).press buildingLine = some s1 ∧
      s1.shapes = [rectOf 0 0 10 10,
        ((halfLine 1 2).HandleInput stdQ (idleAt 8 9).press).1] ∧ s1.current = none := by
  obtain ⟨s1, h1, h2, _⟩ :=
    commit_appends stdQ (idleAt 8 9).press buildingLine (halfLine 1 2) rfl rfl
  exact ⟨rfl, rfl, s1, h1, h2 (by decide!)⟩

/-! ### The log, step by step -/

theorem appends_mono (t1 t2 : List String) (s s1 : State F) (h : Appends t1 s s1)
    (hsub : ∀ t ∈ t1, t ∈ t2) : Appends t2 s s1 := by
  obtain ⟨l, hl, hm⟩ := h
  exact ⟨l, hl, fun e he => hsub _ (hm e he)⟩

theorem appends_append (t1 t2 : List String) (s s1 s2 : State F) (h1 : Appends t1 s s1)
    (h2 : Appends t2 s1 s2) : Appends (t1 ++ t2) s s2 :=
  appends_trans _ _ _ _
    (appends_mono _ _ _ _ h1 (fun _ ht => List.mem_append_left _ ht))
    (appends_mono _ _ _ _ h2 (fun _ ht => List.mem_append_right _ ht))

theorem createStep_appends_create (rl : Raylib F) (inp : Input F) (s : State F) :
    Appends createTypes s (createStep rl inp s) := by
  unfold createStep
  split_ifs
  · exact appends_log rl _ _ _ "create_circle" inp.mouse (-1) (by decide) rfl
  · exact appends_log rl _ _ _ "create_point" inp.mouse (-1) (by decide) rfl
  · exact appends_log rl _ _ _ "create_line" inp.mouse (-1) (by decide) rfl
  · exact appends_log rl _ _ _ "create_rectangle" inp.mouse (-1) (by decide) rfl
  · exact appends_log rl _ _ _ "create_triangle" inp.mouse (-1) (by decide) rfl
  · exact appends_refl _ _
  · exact appends_refl _ _

theorem cancelStep_appends_cancel (rl : Raylib F) (inp : Input F) (s : State F) :
    Appends ["cancel"] s (cancelStep rl inp s) := by
  unfold cancelStep
  split_ifs
  · exact appends_log rl _ _ _ "cancel" inp.mouse (-1) (by decide) rfl
  · exact appends_refl _ _

theorem constructStep_appends_ready (rl : Raylib F) (inp : Input F) (s : State F)
    (cur : Shape F) : Appends ["shape_ready"] s (constructStep rl inp s cur) := by
  unfold constructStep
  split_ifs
  · exact appends_log rl _ _ _ "shape_ready" inp.mouse s.shapes.length (by decide) rfl
  · exact appends_of_eq _ _ _ rfl

theorem escapeStep_appends_escape (rl : Raylib F) (inp : Input F) (s : State F) :
    Appends ["escape_pressed"] s (escapeStep rl inp s) := by
  unfold escapeStep
  split_ifs
  · exact appends_log rl _ _ _ "escape_pressed" inp.mouse (-1) (by decide) rfl
  · exact appends_refl _ _

theorem editStep_appends_edit (rl : Raylib F) (inp : Input F) (s s1 : State F)
    (h : editStep rl inp s = some s1) : Appends editTypes s s1 := by
  unfold editStep at h
  cases hd : dragStep rl inp (selectStep rl inp s) with
  | none => simp [hd] at h
  | some s2 =>
    rw [hd] at h
    simp only [Option.some_bind] at h
    have h1 : Appends editTypes s (selectStep rl inp s) := by
      unfold selectStep
      split_ifs
      · split
        · next i _ => exact appends_log rl _ _ _ "select" inp.mouse i (by decide) rfl
        · exact appends_of_eq _ _ _ rfl
      · exact appends_refl _ _
    have h2 : Appends editTypes (selectStep rl inp s) s2 := by
      unfold dragStep at hd
      split at hd
      · split at hd
        · cases hd
          exact appends_log rl _ _ _ "drag" inp.mouse _ (by decide) rfl
        · cases hd
      · cases hd
        exact appends_refl _ _
    have h3 : Appends editTypes s2 (releaseStep rl inp s2) := by
      unfold releaseStep
      split_ifs
      · exact appends_log rl _ _ _ "drag_end" inp.mouse s2.selectedIndex (by decide) rfl
      · exact appends_refl _ _
    have h4 : Appends editTypes (releaseStep rl inp s2) s1 := by
      unfold removeStep at h
      split_ifs at h
      · split at h
        · cases h
          exact appends_log rl _ _ _ "remove" inp.mouse _ (by decide) rfl
        · cases h
      · cases h
        exact appends_refl _ _
    exact appends_trans _ _ _ _ (appends_trans _ _ _ _ (appends_trans _ _ _ _ h1 h2) h3) h4

theorem mouseMoveStep_log (rl : Raylib F) (inp : Input F) (s : State F) :
    (mouseMoveStep rl inp s).eventLog = s.eventLog ++ [mouseMoveRecord rl inp s] := rfl

/-- The log after a frame: the log before it, the `mouse_move` record of the
frame, the records of creation and cancel, and the records of the branch
taken. -/
theorem frame_log (rl : Raylib F) (inp : Input F) (s s1 : State F)
    (hf : frame rl inp s = some s1) :
    Appends (createTypes ++ ["cancel"]) (mouseMoveStep rl inp s) (beforeBranch rl inp s) ∧
    ((∃ cur, (beforeBranch rl inp s).current = some cur) →
      Appends (["shape_ready"] ++ ["escape_pressed"]) (beforeBranch rl inp s) s1) ∧
    ((beforeBranch rl inp s).current = none →
      Appends (editTypes ++ ["escape_pressed"]) (beforeBranch rl inp s) s1) := by
  refine ⟨appends_append _ _ _ _ _ (createStep_appends_create rl inp _)
    (cancelStep_appends_cancel rl inp _), ?_, ?_⟩
  · rintro ⟨cur, hc⟩
    rw [frame_construct rl inp s cur hc] at hf
    cases hf
    exact appends_append _ _ _ _ _ (constructStep_appends_ready rl inp _ cur)
      (escapeStep_appends_escape rl inp _)
  · intro hc
    simp only [frame, hc] at hf
    cases hed : editStep rl inp (beforeBranch rl inp s) with
    | none => simp [hed] at hf
    | some s4 =>
      rw [hed] at hf
      simp only [Option.map_some'] at hf
      cases hf
      exact appends_append _ _ _ _ _ (editStep_appends_edit rl inp _ _ hed)
        (escapeStep_appends_escape rl inp _)

/-- The records a frame appends, when the records after `mouse_move` have
their types among `types`. -/
theorem appended_of_appends (rl : Raylib F) (inp : Input F) (s s1 : State F)
    (types : List String) (h : Appends types (mouseMoveStep rl inp s) s1) :
    ∃ l, s1.eventLog = s.eventLog ++ mouseMoveRecord rl inp s :: l ∧
      appended s s1 = mouseMoveRecord rl inp s :: l ∧ ∀ e ∈ l, e.type ∈ types := by
  obtain ⟨l, hl, hm⟩ := h
  rw [mouseMoveStep_log, List.append_assoc] at hl
  exact ⟨l, hl, appended_eq _ _ _ hl, hm⟩

theorem frame_after (rl : Raylib F) (inp : Input F) (s s1 : State F)
    (hf : frame rl inp s = some s1) : Appends afterTypes (mouseMoveStep rl inp s) s1 := by
  obtain ⟨h1, h2, h3⟩ := frame_log rl inp s s1 hf
  cases hc : (beforeBranch rl inp s).current with
  | some cur =>
    exact appends_trans _ _ _ _
      (appends_mono _ _ _ _ h1 (by decide))
      (appends_mono _ _ _ _ (h2 ⟨cur, hc⟩) (by decide))
  | none =>
    exact appends_trans _ _ _ _
      (appends_mono _ _ _ _ h1 (by decide))
      (appends_mono _ _ _ _ (h3 hc) (by decide))

theorem frame_mouse_first (rl : Raylib F) (inp : Input F) (s s1 : State F)
    (hf : frame rl inp s = some s1) :
    ∃ l, s1.eventLog = s.eventLog ++ mouseMoveRecord rl inp s :: l ∧
      (∀ e ∈ l, e.type ≠ "mouse_move") ∧ mouseMoves (mouseMoveRecord rl inp s :: l) = 1 := by
  obtain ⟨l, hl, _, hm⟩ := appended_of_appends rl inp s s1 _ (frame_after rl inp s s1 hf)
  have hne : ∀ e ∈ l, e.type ≠ "mouse_move" := by
    intro e he h
    have := hm e he
    rw [h] at this
    revert this
    decide
  refine ⟨l, hl, hne, ?_⟩
  have h0 : mouseMoves l = 0 := by
    unfold mouseMoves
    rw [List.countP_eq_zero]
    intro e he
    simpa using hne e he
  unfold mouseMoves at h0 ⊢
  rw [List.countP_cons, h0]
  simp [mouseMoveRecord]

theorem mouseMoves_append (l1 l2 : List (LogEvent F)) :
    mouseMoves (l1 ++ l2) = mouseMoves l1 + mouseMoves l2 := by
  simp [mouseMoves, List.countP_append]

theorem run_log (rl : Raylib F) (inps : List (Input F)) :
    ∀ s s1 : State F, run rl inps s = some s1 →
      ∃ l, s1.eventLog = s.eventLog ++ l ∧ mouseMoves l = inps.length := by
  induction inps with
  | nil =>
    intro s s1 h
    cases h
    exact ⟨[], by simp, rfl⟩
  | cons inp rest ih =>
    intro s s1 h
    cases hf : frame rl inp s with
    | none => simp [run, hf] at h
    | some s2 =>
      simp only [run, hf, Option.some_bind] at h
      obtain ⟨l1, hl1, _, hc1⟩ := frame_mouse_first rl inp s s2 hf
      obtain ⟨l2, hl2, hc2⟩ := ih s2 s1 h
      refine ⟨(mouseMoveRecord rl inp s :: l1) ++ l2, ?_, ?_⟩
      · rw [hl2, hl1, List.append_assoc]
      · rw [mouseMoves_append, hc1, hc2, List.length_cons, Nat.add_comm]

/-- C16. From a state whose selected index is in bounds (every reachable
state), a frame succeeds and the log after it is the log before it (kept as
it was, a prefix) followed by the `mouse_move` record of the frame, which
carries the cursor of the frame and index -1, and by records none of which is
a `mouse_move`: the appended records hold exactly one `mouse_move`, the first.
Over a run of `n` frames the log before the run is a prefix of the log after
it and `n` `mouse_move` records are appended. -/
theorem log_append_only (rl : Raylib F) (inp : Input F) (s : State F) (inps : List (Input F))
    (hok : s.SelOk) :
    (∃ s1 l, frame rl inp s = some s1 ∧ s.eventLog <+: s1.eventLog ∧
      appended s s1 = mouseMoveRecord rl inp s :: l ∧
      s1.eventLog = s.eventLog ++ mouseMoveRecord rl inp s :: l ∧
      (mouseMoveRecord rl inp s).type = "mouse_move" ∧
      (mouseMoveRecord rl inp s).pos = inp.mouse ∧
      (mouseMoveRecord rl inp s).shapeIndex = -1 ∧
      (∀ e ∈ l, e.type ≠ "mouse_move") ∧ mouseMoves (appended s s1) = 1) ∧
    (∃ s2, run rl inps s = some s2 ∧ s.eventLog <+: s2.eventLog ∧
      mouseMoves (appended s s2) = inps.length) := by
  constructor
  · obtain ⟨s1, hf, _⟩ := frame_selOk rl inp s hok
    obtain ⟨l, hl, hne, hc⟩ := frame_mouse_first rl inp s s1 hf
    refine ⟨s1, l, hf, ⟨_, hl.symm⟩, appended_eq _ _ _ hl, hl, rfl, rfl, rfl, hne, ?_⟩
    rw [appended_eq _ _ _ hl]
    exact hc
  · obtain ⟨s2, hr, _⟩ := run_selOk rl inps s hok
    obtain ⟨l, hl, hc⟩ := run_log rl inps s s2 hr
    refine ⟨s2, hr, ⟨_, hl.symm⟩, ?_⟩
    rw [appended_eq _ _ _ hl]
    exact hc

/-- Witness of C16: the frame that cancels a line, in the state
`buildingLine`. -/
theorem log_append_only_witness :
    buildingLine.SelOk ∧
    ∃ s1 l, frame stdQ holdCancel buildingLine = some s1 ∧
      appended buildingLine s1 = mouseMoveRecord stdQ holdCancel buildingLine :: l ∧
      (∀ e ∈ l, e.type ≠ "mouse_move") := by
  have hok : buildingLine.SelOk := Or.inr (by decide)
  obtain ⟨⟨s1, l, h1, _, h2, _, _, _, _, h3, _⟩, _⟩ :=
    log_append_only stdQ holdCancel buildingLine [] hok
  exact ⟨hok, s1, l, h1, h2, h3⟩

/-! ### Ready shapes -/

theorem beforeBranch_readyOk (rl : Raylib F) (inp : Input F) (s : State F) (h : s.ReadyOk) :
    (beforeBranch rl inp s).ReadyOk := by
  obtain ⟨b1, _, _, _⟩ := beforeBranch_fields rl inp s
  refine ⟨by rw [b1]; exact h.1, ?_⟩
  intro cur hcur
  simp only [beforeBranch, cancelStep, createStep, mouseMoveStep, State.log] at hcur
  split_ifs at hcur <;> first
    | (cases hcur; rfl)
    | exact h.2 cur hcur

theorem mem_set_cases (l : List (Shape F)) (i : Nat) (x sh : Shape F)
    (h : sh ∈ l.set i x) : sh ∈ l ∨ sh = x := by
  induction l generalizing i with
  | nil => simp at h
  | cons a rest ih =>
    cases i with
    | zero =>
      simp only [List.set_cons_zero, List.mem_cons] at h
      rcases h with h | h
      · exact Or.inr h
      · exact Or.inl (List.mem_cons_of_mem _ h)
    | succ k =>
      simp only [List.set_cons_succ, List.mem_cons] at h
      rcases h with h | h
      · exact Or.inl (by rw [h]; exact List.mem_cons_self _ _)
      · rcases ih k h with h1 | h1
        · exact Or.inl (List.mem_cons_of_mem _ h1)
        · exact Or.inr h1

theorem mem_of_mem_eraseIdx_shape (l : List (Shape F)) (i : Nat) (sh : Shape F)
    (h : sh ∈ l.eraseIdx i) : sh ∈ l := by
  induction l generalizing i with
  | nil => simp at h
  | cons a rest ih =>
    cases i with
    | zero =>
      simp only [List.eraseIdx_cons_zero] at h
      exact List.mem_cons_of_mem _ h
    | succ k =>
      simp only [List.eraseIdx_cons_succ, List.mem_cons] at h
      rcases h with h | h
      · rw [h]
        exact List.mem_cons_self _ _
      · exact List.mem_cons_of_mem _ (ih k h)

theorem frame_readyOk (rl : Raylib F) (inp : Input F) (s s1 : State F) (hok : s.SelOk)
    (hr : s.ReadyOk) (hf : frame rl inp s = some s1) : s1.ReadyOk := by
  have hb := beforeBranch_readyOk rl inp s hr
  obtain ⟨b1, b2, _, _⟩ := beforeBranch_fields rl inp s
  have hbok : (beforeBranch rl inp s).SelOk := selOk_of_eq _ _ hok b2 (le_of_eq (by rw [b1]))
  cases hc : (beforeBranch rl inp s).current with
  | some cur =>
    rw [frame_construct rl inp s cur hc] at hf
    cases hf
    obtain ⟨e1, e2, _, _, _⟩ :=
      escapeStep_fields rl inp (constructStep rl inp (beforeBranch rl inp s) cur)
    have hcr := Shape.handleInput_ready rl cur inp
    cases hh : (cur.HandleInput rl inp).2 with
    | true =>
      have hs : (constructStep rl inp (beforeBranch rl inp s) cur).shapes =
          (beforeBranch rl inp s).shapes ++ [(cur.HandleInput rl inp).1] := by
        simp [constructStep, hh, State.log]
      have hcu : (constructStep rl inp (beforeBranch rl inp s) cur).current = none := by
        simp [constructStep, hh]
      refine ⟨?_, ?_⟩
      · intro sh hsh
        rw [e1, hs] at hsh
        rcases List.mem_append.mp hsh with h | h
        · exact hb.1 sh h
        · rw [List.mem_singleton.mp h, hcr, hh]
      · intro c hcc
        rw [e2, hcu] at hcc
        cases hcc
    | false =>
      have hs : (constructStep rl inp (beforeBranch rl inp s) cur).shapes =
          (beforeBranch rl inp s).shapes := by
        simp [constructStep, hh]
      have hcu : (constructStep rl inp (beforeBranch rl inp s) cur).current =
          some (cur.HandleInput rl inp).1 := by
        simp [constructStep, hh]
      refine ⟨?_, ?_⟩
      · intro sh hsh
        rw [e1, hs] at hsh
        exact hb.1 sh hsh
      · intro c hcc
        rw [e2, hcu] at hcc
        cases hcc
        rw [hcr, hh]
  | none =>
    have hsok := selectStep_selOk rl inp _ hbok
    obtain ⟨s2, s4, h2, h4, hfr, hs2, hs3⟩ := frame_edit rl inp s hc hsok
    rw [hfr] at hf
    cases hf
    obtain ⟨f1, f2⟩ := selectStep_fields rl inp (beforeBranch rl inp s)
    obtain ⟨s2', h2', _, d2, _, _, d5, d6⟩ := dragStep_spec rl inp _ hsok
    rw [h2] at h2'
    cases h2'
    obtain ⟨r1, r2, _, _⟩ := releaseStep_fields rl inp s2
    obtain ⟨s4', h4', _, m2, _, _, m5, m6⟩ := removeStep_spec rl inp _ hs3
    rw [h4] at h4'
    cases h4'
    obtain ⟨e1, e2, _, _, _⟩ := escapeStep_fields rl inp s4
    have hs2r : ∀ sh ∈ s2.shapes, sh.ready = true := by
      intro sh hsh
      cases hdd : dragDelta inp (selectStep rl inp (beforeBranch rl inp s)) with
      | none =>
        rw [d5 hdd, f1] at hsh
        exact hb.1 sh hsh
      | some d =>
        obtain ⟨_, sh0, hget, hset⟩ := d6 d hdd
        rw [hset, f1] at hsh
        rw [f1] at hget
        rcases mem_set_cases _ _ _ _ hsh with h | h
        · exact hb.1 sh h
        · rw [h, (Shape.move_fields sh0 d).2.2.1]
          exact hb.1 sh0 (List.getElem?_mem hget)
    have hs4r : ∀ sh ∈ s4.shapes, sh.ready = true := by
      intro sh hsh
      by_cases hcond : (releaseStep rl inp s2).selectedIndex ≠ -1 ∧ inp.keyDelete = true
      · rw [(m5 hcond).1, r1] at hsh
        exact hs2r sh (mem_of_mem_eraseIdx_shape _ _ _ hsh)
      · rw [m6 hcond, r1] at hsh
        exact hs2r sh hsh
    refine ⟨fun sh hsh => hs4r sh (by rw [e1] at hsh; exact hsh), ?_⟩
    intro c hcc
    rw [e2, m2, r2, d2, f2, hc] at hcc
    cases hcc

theorem run_readyOk (rl : Raylib F) (inps : List (Input F)) :
    ∀ s s1 : State F, s.SelOk → s.ReadyOk → run rl inps s = some s1 → s1.ReadyOk := by
  induction inps with
  | nil =>
    intro s s1 _ hr h
    cases h
    exact hr
  | cons inp rest ih =>
    intro s s1 hok hr h
    obtain ⟨s2, hf, hok2⟩ := frame_selOk rl inp s hok
    simp only [run, hf, Option.some_bind] at h
    exact ih s2 s1 hok2 (frame_readyOk rl inp s s2 hok hr hf) h

theorem reachable_readyOk (rl : Raylib F) (s : State F) (h : Reachable rl s) : s.ReadyOk := by
  obtain ⟨inps, hr⟩ := h
  refine run_readyOk rl inps (initState rl) s (Or.inl rfl) ⟨?_, ?_⟩ hr
  · intro sh hsh
    simp [initState, State.log] at hsh
  · intro c hc
    simp [initState, State.log] at hc

/-- C18. In every reachable state every committed shape is ready and the
shape under construction, if there is one, is not; every frame from such a
state succeeds and ends in a state with the same two properties. The shapes
the frame passes to `Contains` (the committed collection at the scan) and to
`Move` (the shape at the selected index) are therefore ready. -/
theorem committed_shapes_ready (rl : Raylib F) (s : State F) (inp : Input F)
    (hr : Reachable rl s) :
    (∀ sh ∈ s.shapes, sh.ready = true) ∧ (∀ cur, s.current = some cur → cur.ready = false) ∧
    (∃ s1, frame rl inp s = some s1 ∧ (∀ sh ∈ s1.shapes, sh.ready = true) ∧
      (∀ cur, s1.current = some cur → cur.ready = false)) ∧
    (∀ sh ∈ (beforeBranch rl inp s).shapes, sh.ready = true) ∧
    (∀ i sh, shapeAt (selectStep rl inp (beforeBranch rl inp s)).shapes
        (selectStep rl inp (beforeBranch rl inp s)).selectedIndex = some (i, sh) →
      sh.ready = true) := by
  have hok := reachable_selOk rl s hr
  have hrd := reachable_readyOk rl s hr
  obtain ⟨s1, hf, _⟩ := frame_selOk rl inp s hok
  have h1 := frame_readyOk rl inp s s1 hok hrd hf
  have hb := beforeBranch_readyOk rl inp s hrd
  refine ⟨hrd.1, hrd.2, ⟨s1, hf, h1.1, h1.2⟩, hb.1, ?_⟩
  intro i sh hat
  rw [(selectStep_fields rl inp _).1] at hat
  unfold shapeAt at hat
  split_ifs at hat
  obtain ⟨sh0, hg, heq⟩ := Option.map_eq_some'.mp hat
  cases heq
  exact hb.1 _ (List.get?_mem hg)

/-- Witness of C18: the state after `selectRect` and the frame `holdKeyL`
(one committed rectangle, a fresh line under construction). -/
theorem committed_shapes_ready_witness :
    ∃ s, run stdQ (selectRect ++ [holdKeyL]) (initState stdQ) = some s ∧
      (∀ sh ∈ s.shapes, sh.ready = true) ∧ (∀ cur, s.current = some cur → cur.ready = false) := by
  have hrun : (run stdQ (selectRect ++ [holdKeyL]) (initState stdQ)).isSome = true := by decide!
  obtain ⟨s, hs⟩ := Option.isSome_iff_exists.mp hrun
  obtain ⟨h1, h2, _⟩ := committed_shapes_ready stdQ s holdCancel ⟨_, hs⟩
  exact ⟨s, hs, h1, h2⟩

/-- C12. In a reachable state with a shape `cur` under construction (at any
stage), a frame with BACKSPACE pressed succeeds, whatever else it carries; at
its end the construction slot is empty, the collection is no longer than
before, `cur` is not in it (all its shapes are ready, `cur` is not), and none
of the records the frame appends is a `shape_ready`. -/
theorem cancel_discards (rl : Raylib F) (inp : Input F) (s : State F) (cur : Shape F)
    (hr : Reachable rl s) (hc : s.current = some cur) (hb : inp.keyBackspace = true) :
    ∃ s1, frame rl inp s = some s1 ∧ s1.current = none ∧
      s1.shapes.length ≤ s.shapes.length ∧ cur ∉ s1.shapes ∧
      ∀ e ∈ appended s s1, e.type ≠ "shape_ready" := by
  have hok := reachable_selOk rl s hr
  have hrd := reachable_readyOk rl s hr
  obtain ⟨s1, hf, _⟩ := frame_selOk rl inp s hok
  have h1 := frame_readyOk rl inp s s1 hok hrd hf
  have hbc := beforeBranch_current_cancel rl inp s cur hc hb
  obtain ⟨b1, b2, _, _⟩ := beforeBranch_fields rl inp s
  have hbok : (beforeBranch rl inp s).SelOk := selOk_of_eq _ _ hok b2 (le_of_eq (by rw [b1]))
  have hsok := selectStep_selOk rl inp _ hbok
  obtain ⟨s2, s4, h2, h4, hfr, hs2, hs3⟩ := frame_edit rl inp s hbc hsok
  rw [hfr] at hf
  cases hf
  obtain ⟨f1, f2⟩ := selectStep_fields rl inp (beforeBranch rl inp s)
  obtain ⟨s2', h2', _, d2, _, d4, _, _⟩ := dragStep_spec rl inp _ hsok
  rw [h2] at h2'
  cases h2'
  obtain ⟨r1, r2, _, _⟩ := releaseStep_fields rl inp s2
  obtain ⟨s4', h4', _, m2, _, _, m5, m6⟩ := removeStep_spec rl inp _ hs3
  rw [h4] at h4'
  cases h4'
  obtain ⟨e1, e2, _, _, _⟩ := escapeStep_fields rl inp s4
  refine ⟨_, hfr, ?_, ?_, ?_, ?_⟩
  · rw [e2, m2, r2, d2, f2, hbc]
  · rw [e1]
    by_cases hcond : (releaseStep rl inp s2).selectedIndex ≠ -1 ∧ inp.keyDelete = true
    · rw [(m5 hcond).1, r1]
      have := List.length_eraseIdx_le s2.shapes (releaseStep rl inp s2).selectedIndex.toNat
      rw [d4, f1, b1] at this
      exact this
    · rw [m6 hcond, r1, d4, f1, b1]
  · intro hmem
    have := h1.1 cur hmem
    rw [hrd.2 cur hc] at this
    cases this
  · obtain ⟨g1, _, g3⟩ := frame_log rl inp s _ hfr
    have hall : Appends afterTypes (mouseMoveStep rl inp s) (escapeStep rl inp s4) :=
      frame_after rl inp s _ hfr
    have hno : Appends (createTypes ++ ["cancel"] ++ (editTypes ++ ["escape_pressed"]))
        (mouseMoveStep rl inp s) (escapeStep rl inp s4) :=
      appends_append _ _ _ _ _ g1 (g3 hbc)
    obtain ⟨l, _, hl, hm⟩ := appended_of_appends rl inp s _ _ hno
    intro e he ht
    rw [hl] at he
    rcases List.mem_cons.mp he with h | h
    · rw [h] at ht
      revert ht
      simp [mouseMoveRecord]
    · have := hm e h
      rw [ht] at this
      revert this
      decide

/-- Witness of C12: BACKSPACE together with a press, in the state after
`selectRect` and `holdKeyL`. -/
theorem cancel_discards_witness :
    ∃ s cur s1, run stdQ (selectRect ++ [holdKeyL]) (initState stdQ) = some s ∧
      s.current = some cur ∧ pressCancel.keyBackspace = true ∧
      frame stdQ pressCancel s = some s1 ∧ s1.current = none ∧
      s1.shapes.length ≤ s.shapes.length ∧ cur ∉ s1.shapes := by
  have hrun : (run stdQ (selectRect ++ [holdKeyL]) (initState stdQ)).isSome = true := by decide!
  obtain ⟨s, hs⟩ := Option.isSome_iff_exists.mp hrun
  have hcur : ((run stdQ (selectRect ++ [holdKeyL]) (initState stdQ)).bind
      (fun s => s.current)).isSome = true := by decide!
  rw [hs] at hcur
  obtain ⟨cur, hc⟩ := Option.isSome_iff_exists.mp hcur
  have hc1 : s.current = some cur := hc
  obtain ⟨s1, h1, h2, h3, h4, _⟩ := cancel_discards stdQ pressCancel s cur ⟨_, hs⟩ hc1 rfl
  exact ⟨s, cur, s1, hs, hc1, rfl, h1, h2, h3, h4⟩

/-! ### Input that has no effect -/

theorem frame_edit_current (rl : Raylib F) (inp : Input F) (s s1 : State F) (hok : s.SelOk)
    (hc : (beforeBranch rl inp s).current = none) (hf : frame rl inp s = some s1) :
    s1.current = none := by
  obtain ⟨b1, b2, _, _⟩ := beforeBranch_fields rl inp s
  have hbok : (beforeBranch rl inp s).SelOk := selOk_of_eq _ _ hok b2 (le_of_eq (by rw [b1]))
  obtain ⟨s4, h4, _, h4c⟩ := editStep_selOk rl inp _ hbok
  simp only [frame, hc, h4, Option.map_some'] at hf
  cases hf
  rw [(escapeStep_fields rl inp s4).2.1, h4c, hc]

theorem frame_unselected_eq (rl : Raylib F) (inp : Input F) (s : State F)
    (hc : (beforeBranch rl inp s).current = none) (hsel : s.selectedIndex = -1)
    (hp : inp.leftPressed = false) :
    frame rl inp s =
      some (escapeStep rl inp (releaseStep rl inp (beforeBranch rl inp s))) := by
  obtain ⟨_, b2, _, _⟩ := beforeBranch_fields rl inp s
  have hbsel : (beforeBranch rl inp s).selectedIndex = -1 := b2.trans hsel
  have hselect := selectStep_not_pressed rl inp (beforeBranch rl inp s) hp
  have hdrag : dragStep rl inp (beforeBranch rl inp s) = some (beforeBranch rl inp s) := by
    simp [dragStep, dragDelta_none_of_sel inp _ hbsel]
  have hrem : removeStep rl inp (releaseStep rl inp (beforeBranch rl inp s)) =
      some (releaseStep rl inp (beforeBranch rl inp s)) := by
    have := (releaseStep_fields rl inp (beforeBranch rl inp s)).2.2.1
    simp [removeStep, this, hbsel]
  simp [frame, hc, editStep, hselect, hdrag, hrem]

theorem constructStep_idle (rl : Raylib F) (inp : Input F) (s : State F) (cur : Shape F)
    (hp : inp.leftPressed = false) (hr : cur.ready = false) :
    constructStep rl inp s cur = { s with current := some cur } := by
  simp [constructStep, Shape.handleInput_idle rl cur inp hp, hr]

theorem releaseStep_appends_end (rl : Raylib F) (inp : Input F) (s : State F) :
    Appends ["drag_end"] s (releaseStep rl inp s) := by
  unfold releaseStep
  split_ifs
  · exact appends_log rl _ _ _ "drag_end" inp.mouse s.selectedIndex (by decide) rfl
  · exact appends_refl _ _

/-- C13. In a reachable state, a frame without a press edge of the left
button succeeds and: (a) if a shape `cur` is under construction at the start
of the frame, no `create_*` record is appended, whatever creation keys are
pressed; without BACKSPACE the construction slot still holds `cur`, with all
its fields as they were, and the collection is unchanged (with BACKSPACE the
slot is emptied by the cancel command, never refilled); (b) if nothing is
selected, the collection is unchanged, nothing is selected after the frame
and no `remove` record is appended, whether or not DELETE is pressed. -/
theorem noop_input_ignored (rl : Raylib F) (inp : Input F) (s : State F)
    (hr : Reachable rl s) (hp : inp.leftPressed = false) :
    ∃ s1, frame rl inp s = some s1 ∧
      (∀ cur, s.current = some cur →
        (∀ e ∈ appended s s1, e.type ∉ createTypes) ∧
        (inp.keyBackspace = false → s1.current = some cur ∧ s1.shapes = s.shapes) ∧
        (inp.keyBackspace = true → s1.current = none)) ∧
      (s.selectedIndex = -1 →
        s1.shapes = s.shapes ∧ s1.selectedIndex = -1 ∧
          ∀ e ∈ appended s s1, e.type ≠ "remove") := by
  have hok := reachable_selOk rl s hr
  have hrd := reachable_readyOk rl s hr
  have hbrd := beforeBranch_readyOk rl inp s hrd
  obtain ⟨s1, hf, _⟩ := frame_selOk rl inp s hok
  obtain ⟨b1, b2, _, _⟩ := beforeBranch_fields rl inp s
  obtain ⟨g1, g2, g3⟩ := frame_log rl inp s s1 hf
  have hty : (mouseMoveRecord rl inp s).type = "mouse_move" := rfl
  refine ⟨s1, hf, ?_, ?_⟩
  · intro cur hc
    have hmc : (mouseMoveStep rl inp s).current = some cur := hc
    have hbb : Appends ["cancel"] (mouseMoveStep rl inp s) (beforeBranch rl inp s) := by
      have hbeq : beforeBranch rl inp s = cancelStep rl inp (mouseMoveStep rl inp s) := by
        unfold beforeBranch
        rw [createStep_of_some rl inp _ cur hmc]
      rw [hbeq]
      exact cancelStep_appends_cancel rl inp (mouseMoveStep rl inp s)
    refine ⟨?_, ?_, ?_⟩
    · have hall : Appends (["cancel"] ++ (["shape_ready", "escape_pressed"] ++
          (editTypes ++ ["escape_pressed"]))) (mouseMoveStep rl inp s) s1 := by
        cases hcb : (beforeBranch rl inp s).current with
        | some c =>
          exact appends_append _ _ _ _ _ hbb
            (appends_mono _ _ _ _ (g2 ⟨c, hcb⟩) (by decide))
        | none =>
          exact appends_append _ _ _ _ _ hbb
            (appends_mono _ _ _ _ (g3 hcb) (by decide))
      obtain ⟨l, _, hl, hm⟩ := appended_of_appends rl inp s _ _ hall
      intro e he ht
      rw [hl] at he
      rcases List.mem_cons.mp he with h | h
      · rw [h, hty] at ht
        revert ht
        decide
      · have h1 := hm e h
        generalize e.type = t at ht h1
        revert t
        decide
    · intro hb
      have hbc := beforeBranch_current_some rl inp s cur hc hb
      rw [frame_construct rl inp s cur hbc] at hf
      cases hf
      rw [constructStep_idle rl inp _ cur hp (hrd.2 cur hc)]
      obtain ⟨e1, e2, _, _, _⟩ := escapeStep_fields rl inp
        { beforeBranch rl inp s with current := some cur }
      exact ⟨e2, e1.trans b1⟩
    · intro hb
      exact frame_edit_current rl inp s s1 hok (beforeBranch_current_cancel rl inp s cur hc hb) hf
  · intro hsel
    cases hcb : (beforeBranch rl inp s).current with
    | some c =>
      have hlog := g2 ⟨c, hcb⟩
      rw [frame_construct rl inp s c hcb] at hf
      cases hf
      rw [constructStep_idle rl inp _ c hp (hbrd.2 c hcb)] at hlog ⊢
      obtain ⟨e1, _, e3, _, _⟩ := escapeStep_fields rl inp
        { beforeBranch rl inp s with current := some c }
      refine ⟨e1.trans b1, e3.trans (b2.trans hsel), ?_⟩
      have hall := appends_append _ _ _ _ _ g1 hlog
      obtain ⟨l, _, hl, hm⟩ := appended_of_appends rl inp s _ _ hall
      intro e he ht
      rw [hl] at he
      rcases List.mem_cons.mp he with h | h
      · rw [h, hty] at ht
        revert ht
        decide
      · have h1 := hm e h
        rw [ht] at h1
        revert h1
        decide
    | none =>
      rw [frame_unselected_eq rl inp s hcb hsel hp] at hf
      cases hf
      obtain ⟨e1, _, e3, _, _⟩ :=
        escapeStep_fields rl inp (releaseStep rl inp (beforeBranch rl inp s))
      obtain ⟨r1, _, r3, _⟩ := releaseStep_fields rl inp (beforeBranch rl inp s)
      refine ⟨e1.trans (r1.trans b1), e3.trans (r3.trans (b2.trans hsel)), ?_⟩
      have hall := appends_append _ _ _ _ _ g1
        (appends_append _ _ _ _ _ (releaseStep_appends_end rl inp (beforeBranch rl inp s))
          (escapeStep_appends_escape rl inp _))
      obtain ⟨l, _, hl, hm⟩ := appended_of_appends rl inp s _ _ hall
      intro e he ht
      rw [hl] at he
      rcases List.mem_cons.mp he with h | h
      · rw [h, hty] at ht
        revert ht
        decide
      · have h1 := hm e h
        rw [ht] at h1
        revert h1
        decide

/-- Witness of C13: after the key L has started a line (nothing selected),
a frame with the keys C and DELETE leaves the line in the construction slot
and the collection and the selection as they were. -/
theorem noop_input_ignored_witness :
    ∃ s cur s1, run stdQ [{ idleAt 0 0 with keyL := true }] (initState stdQ) = some s ∧
      s.current = some cur ∧ s.selectedIndex = -1 ∧ keysCDelete.leftPressed = false ∧
      frame stdQ keysCDelete s = some s1 ∧ s1.current = some cur ∧ s1.shapes = s.shapes ∧
      s1.selectedIndex = -1 := by
  have hrun : (run stdQ [{ idleAt 0 0 with keyL := true }] (initState stdQ)).isSome = true := by
    decide!
  obtain ⟨s, hs⟩ := Option.isSome_iff_exists.mp hrun
  have hcur : ((run stdQ [{ idleAt 0 0 with keyL := true }] (initState stdQ)).bind
      (fun s => s.current)).isSome = true := by decide!
  have hsel : (run stdQ [{ idleAt 0 0 with keyL := true }] (initState stdQ)).map
      (fun s => s.selectedIndex) = some (-1) := by decide!
  rw [hs] at hcur hsel
  obtain ⟨cur, hc⟩ := Option.isSome_iff_exists.mp hcur
  have hc1 : s.current = some cur := hc
  have hsel1 : s.selectedIndex = -1 := by simpa using hsel
  obtain ⟨s1, h1, h2, h3⟩ := noop_input_ignored stdQ keysCDelete s ⟨_, hs⟩ rfl
  obtain ⟨_, h4, _⟩ := h2 cur hc1
  exact ⟨s, cur, s1, hs, hc1, hsel1, rfl, h1, (h4 rfl).1, (h4 rfl).2, (h3 hsel1).2.1⟩

/-! ### Selection and construction -/

/-- C14, counterexample. The rectangle `(0,0)-(10,10)` is selected by a press
at `(1,1)`, the button is released, and the key L starts a line: at the end of
that frame the line is under construction and index 0 is still selected. -/
theorem selection_survives_creation : ¬ NoSelectionWhileBuilding stdQ := by
  intro h
  have hrun : (run stdQ (selectRect ++ [releaseAt11, keyLAt11]) (initState stdQ)).isSome = true := by
    decide!
  obtain ⟨s, hs⟩ := Option.isSome_iff_exists.mp hrun
  have hcur : (run stdQ (selectRect ++ [releaseAt11, keyLAt11]) (initState stdQ)).map
      (fun s => s.current.isSome) = some true := by decide!
  have hsel : (run stdQ (selectRect ++ [releaseAt11, keyLAt11]) (initState stdQ)).map
      (fun s => s.selectedIndex) = some 0 := by decide!
  rw [hs] at hcur hsel
  simp only [Option.map_some', Option.some.injEq] at hsel hcur
  have hc : s.current ≠ none := by
    intro hn
    rw [hn] at hcur
    simp at hcur
  have := h (selectRect ++ [releaseAt11, keyLAt11]) s (by decide!) hs hc
  rw [this] at hsel
  revert hsel
  decide

/-- C14, amended. A creation command does not touch the selection: from a
state whose selected index is in bounds (every reachable state) a frame
succeeds, and if a construction is in progress at its end (the frame ran the
construction branch, in particular if it accepted a creation command), the
selected index, the drag flag and the stored cursor are what they were at the
start of the frame. -/
theorem selection_kept_while_building (rl : Raylib F) (inp : Input F) (s : State F)
    (hok : s.SelOk) :
    ∃ s1, frame rl inp s = some s1 ∧
      (s1.current ≠ none → s1.selectedIndex = s.selectedIndex ∧ s1.dragging = s.dragging ∧
        s1.prevMouse = s.prevMouse) := by
  obtain ⟨s1, hf, _⟩ := frame_selOk rl inp s hok
  refine ⟨s1, hf, ?_⟩
  intro hne
  obtain ⟨_, b2, b3, b4⟩ := beforeBranch_fields rl inp s
  cases hc : (beforeBranch rl inp s).current with
  | none => exact absurd (frame_edit_current rl inp s s1 hok hc hf) hne
  | some cur =>
    rw [frame_construct rl inp s cur hc] at hf
    cases hf
    obtain ⟨_, _, e3, e4, e5⟩ :=
      escapeStep_fields rl inp (constructStep rl inp (beforeBranch rl inp s) cur)
    obtain ⟨c1, c2, c3, _⟩ := constructStep_fields rl inp (beforeBranch rl inp s) cur
    exact ⟨e3.trans (c1.trans b2), e5.trans (c3.trans b4), e4.trans (c2.trans b3)⟩

/-- Witness of C14 (amended): the key L is pressed while the rectangle at
index 0 is selected; the selection is kept. -/
theorem selection_kept_while_building_witness :
    ∃ s s1, run stdQ (selectRect ++ [releaseAt11]) (initState stdQ) = some s ∧ s.SelOk ∧
      s.selectedIndex = 0 ∧ frame stdQ keyLAt11 s = some s1 ∧ s1.current ≠ none ∧
      s1.selectedIndex = s.selectedIndex := by
  have hrun : (run stdQ (selectRect ++ [releaseAt11]) (initState stdQ)).isSome = true := by
    decide!
  obtain ⟨s, hs⟩ := Option.isSome_iff_exists.mp hrun
  have hsel : (run stdQ (selectRect ++ [releaseAt11]) (initState stdQ)).map
      (fun s => s.selectedIndex) = some 0 := by decide!
  have hcur : (run stdQ (selectRect ++ [releaseAt11]) (initState stdQ)).map
      (fun s => ((frame stdQ keyLAt11 s).bind (fun s1 => s1.current)).isSome) = some true := by
    decide!
  rw [hs] at hsel hcur
  simp only [Option.map_some', Option.some.injEq] at hsel hcur
  have hok : s.SelOk := reachable_selOk stdQ s ⟨_, hs⟩
  obtain ⟨s1, h1, h2⟩ := selection_kept_while_building stdQ keyLAt11 s hok
  rw [h1] at hcur
  have hne : s1.current ≠ none := by
    intro hn
    rw [Option.some_bind, hn] at hcur
    simp at hcur
  exact ⟨s, s1, hs, hok, hsel, h1, hne, (h2 hne).1⟩

/-! ### The selected index -/

theorem moveAll_append (sh : Shape F) (ds es : List (Vector2 F)) :
    moveAll sh (ds ++ es) = moveAll (moveAll sh ds) es := by
  simp [moveAll, List.foldl_append]

/-- A frame that ends with the selected index `i ≠ -1` it started with
leaves at `i` the shape that was there, translated or not, and leaves every
other shape of the collection where and as it was. -/
theorem frame_same_shape (rl : Raylib F) (inp : Input F) (s s1 : State F) (hok : s.SelOk)
    (hne : s.selectedIndex ≠ -1) (hf : frame rl inp s = some s1)
    (hsel : s1.selectedIndex = s.selectedIndex) :
    s.shapes.length ≤ s1.shapes.length ∧
    (∀ j : Nat, j ≠ s.selectedIndex.toNat → j < s.shapes.length →
      s1.shapes[j]? = s.shapes[j]?) ∧
    ∃ sh ds, s.shapes[s.selectedIndex.toNat]? = some sh ∧
      s1.shapes[s.selectedIndex.toNat]? = some (moveAll sh ds) := by
  obtain ⟨b1, b2, _, _⟩ := beforeBranch_fields rl inp s
  have hbok : (beforeBranch rl inp s).SelOk := selOk_of_eq _ _ hok b2 (le_of_eq (by rw [b1]))
  obtain ⟨sh, hsh, _⟩ := shapeAt_selOk s hok hne
  have hlt : s.selectedIndex.toNat < s.shapes.length := (List.getElem?_eq_some.mp hsh).1
  cases hc : (beforeBranch rl inp s).current with
  | some cur =>
    rw [frame_construct rl inp s cur hc] at hf
    cases hf
    obtain ⟨e1, _, _, _, _⟩ :=
      escapeStep_fields rl inp (constructStep rl inp (beforeBranch rl inp s) cur)
    obtain ⟨_, _, _, c4⟩ := constructStep_fields rl inp (beforeBranch rl inp s) cur
    rw [e1]
    rcases c4 with c4 | c4
    · rw [c4, b1]
      exact ⟨le_refl _, fun _ _ _ => rfl, sh, [], hsh, hsh⟩
    · rw [c4, b1]
      refine ⟨by simp, ?_, sh, [], hsh, ?_⟩
      · intro j _ hj
        exact List.getElem?_append_left hj
      · rw [List.getElem?_append_left hlt]
        exact hsh
  | none =>
    have hsok := selectStep_selOk rl inp _ hbok
    obtain ⟨s2, s4, h2, h4, hfr, hs2, hs3⟩ := frame_edit rl inp s hc hsok
    rw [hfr] at hf
    cases hf
    obtain ⟨f1, _⟩ := selectStep_fields rl inp (beforeBranch rl inp s)
    obtain ⟨s2', h2', d1, _, _, d4, d5, d6⟩ := dragStep_spec rl inp _ hsok
    rw [h2] at h2'
    cases h2'
    obtain ⟨r1, _, r3, _⟩ := releaseStep_fields rl inp s2
    obtain ⟨s4', h4', _, _, _, _, m5, m6⟩ := removeStep_spec rl inp _ hs3
    rw [h4] at h4'
    cases h4'
    obtain ⟨e1, _, e3, _, _⟩ := escapeStep_fields rl inp s4
    have hcond : ¬ ((releaseStep rl inp s2).selectedIndex ≠ -1 ∧ inp.keyDelete = true) := by
      intro hcond
      have := (m5 hcond).2
      rw [e3, this] at hsel
      exact hne hsel.symm
    have hs4 := m6 hcond
    have hseleq : (selectStep rl inp (beforeBranch rl inp s)).selectedIndex =
        s.selectedIndex := by
      rw [← d1, ← r3, ← hs4, ← e3]
      exact hsel
    rw [e1, hs4, r1]
    cases hdd : dragDelta inp (selectStep rl inp (beforeBranch rl inp s)) with
    | none =>
      rw [d5 hdd, f1, b1]
      exact ⟨le_refl _, fun _ _ _ => rfl, sh, [], hsh, hsh⟩
    | some d =>
      obtain ⟨_, sh0, hget, hset⟩ := d6 d hdd
      rw [f1, b1, hseleq] at hget hset
      rw [hsh] at hget
      cases hget
      rw [hset]
      refine ⟨by simp, ?_, sh, [d], hsh, ?_⟩
      · intro j hj _
        exact List.getElem?_set_ne (Ne.symm hj)
      · rw [List.getElem?_set_self hlt]
        rfl

theorem run_same_shape (rl : Raylib F) (inps : List (Input F)) :
    ∀ s : State F, s.SelOk → s.selectedIndex ≠ -1 → keepsSelection rl inps s →
      ∃ s2, run rl inps s = some s2 ∧ s2.selectedIndex = s.selectedIndex ∧
        s.shapes.length ≤ s2.shapes.length ∧
        (∀ j : Nat, j ≠ s.selectedIndex.toNat → j < s.shapes.length →
          s2.shapes[j]? = s.shapes[j]?) ∧
        ∃ sh ds, s.shapes[s.selectedIndex.toNat]? = some sh ∧
          s2.shapes[s.selectedIndex.toNat]? = some (moveAll sh ds) := by
  induction inps with
  | nil =>
    intro s hok hne _
    obtain ⟨sh, hsh, _⟩ := shapeAt_selOk s hok hne
    exact ⟨s, rfl, rfl, le_refl _, fun _ _ _ => rfl, sh, [], hsh, hsh⟩
  | cons inp rest ih =>
    intro s hok hne hk
    obtain ⟨s1, hf, hsel, hk1⟩ := hk
    obtain ⟨s1', hf', hok1⟩ := frame_selOk rl inp s hok
    rw [hf] at hf'
    cases hf'
    obtain ⟨a1, a2, sh, ds, a3, a4⟩ := frame_same_shape rl inp s s1 hok hne hf hsel
    obtain ⟨s2, hr, g1, g2, g3, sh1, es, g4, g5⟩ := ih s1 hok1 (by rw [hsel]; exact hne) hk1
    rw [hsel] at g3 g4 g5
    rw [a4] at g4
    cases g4
    refine ⟨s2, by simp [run, hf, hr], g1.trans hsel, le_trans a1 g2, ?_, sh, ds ++ es, a3, ?_⟩
    · intro j hj hlt
      rw [g3 j hj (lt_of_lt_of_le hlt a1), a2 j hj hlt]
    · rw [g5, moveAll_append]

/-- C17. In every reachable state the selected index is `-1` or an index
into the committed collection, and every frame from it succeeds: neither
`shapes[selectedIndex]` nor `shapes.erase(shapes.begin() + selectedIndex)` is
reached with an index out of bounds. A frame without a press edge handled by
the selection/edit branch and without a removal keeps the selected index; and
as long as the frames of a run keep the selected index `i ≠ -1`, the shape at
`i` is the shape that was there, translated by the `Move` calls made in
between, and every other shape of the collection stays where and as it
was. -/
theorem selected_index_in_bounds (rl : Raylib F) (s : State F) (inp : Input F)
    (inps : List (Input F)) (hr : Reachable rl s) :
    (s.selectedIndex = -1 ∨ (0 ≤ s.selectedIndex ∧ s.selectedIndex < s.shapes.length)) ∧
    (∃ s1, frame rl inp s = some s1 ∧
      (s1.selectedIndex = -1 ∨ (0 ≤ s1.selectedIndex ∧ s1.selectedIndex < s1.shapes.length)) ∧
      (((beforeBranch rl inp s).current ≠ none ∨
          (inp.leftPressed = false ∧ (inp.keyDelete = false ∨ s.selectedIndex = -1))) →
        s1.selectedIndex = s.selectedIndex)) ∧
    (s.selectedIndex ≠ -1 → keepsSelection rl inps s →
      ∃ s2, run rl inps s = some s2 ∧ s2.selectedIndex = s.selectedIndex ∧
        s.shapes.length ≤ s2.shapes.length ∧
        (∀ j : Nat, j ≠ s.selectedIndex.toNat → j < s.shapes.length →
          s2.shapes[j]? = s.shapes[j]?) ∧
        ∃ sh ds, s.shapes[s.selectedIndex.toNat]? = some sh ∧
          s2.shapes[s.selectedIndex.toNat]? = some (moveAll sh ds)) := by
  have hok := reachable_selOk rl s hr
  obtain ⟨s1, hf, hok1⟩ := frame_selOk rl inp s hok
  refine ⟨hok, ⟨s1, hf, hok1, ?_⟩, fun hne hk => run_same_shape rl inps s hok hne hk⟩
  intro hcase
  obtain ⟨b1, b2, _, _⟩ := beforeBranch_fields rl inp s
  have hbok : (beforeBranch rl inp s).SelOk := selOk_of_eq _ _ hok b2 (le_of_eq (by rw [b1]))
  cases hc : (beforeBranch rl inp s).current with
  | some cur =>
    rw [frame_construct rl inp s cur hc] at hf
    cases hf
    obtain ⟨_, _, e3, _, _⟩ :=
      escapeStep_fields rl inp (constructStep rl inp (beforeBranch rl inp s) cur)
    obtain ⟨c1, _, _, _⟩ := constructStep_fields rl inp (beforeBranch rl inp s) cur
    exact e3.trans (c1.trans b2)
  | none =>
    rcases hcase with h | ⟨hp, hd⟩
    · exact absurd hc h
    · have hsok := selectStep_selOk rl inp _ hbok
      obtain ⟨s2, s4, h2, h4, hfr, hs2, hs3⟩ := frame_edit rl inp s hc hsok
      rw [hfr] at hf
      cases hf
      obtain ⟨s2', h2', d1, _⟩ := dragStep_spec rl inp _ hsok
      rw [h2] at h2'
      cases h2'
      obtain ⟨_, _, r3, _⟩ := releaseStep_fields rl inp s2
      obtain ⟨s4', h4', _, _, _, _, _, m6⟩ := removeStep_spec rl inp _ hs3
      rw [h4] at h4'
      cases h4'
      obtain ⟨_, _, e3, _, _⟩ := escapeStep_fields rl inp s4
      have hs2sel : (releaseStep rl inp s2).selectedIndex = s.selectedIndex := by
        rw [r3, d1, selectStep_not_pressed rl inp _ hp, b2]
      have hcond : ¬ ((releaseStep rl inp s2).selectedIndex ≠ -1 ∧ inp.keyDelete = true) := by
        rintro ⟨hc1, hc2⟩
        rcases hd with hd | hd
        · rw [hd] at hc2
          cases hc2
        · exact hc1 (hs2sel.trans hd)
      rw [e3, m6 hcond, hs2sel]

/-- Witness of C17: after `selectRect` index 0 is selected; a frame with the
button held at `(3,3)` keeps the selection and leaves at index 0 the
rectangle, translated. -/
theorem selected_index_in_bounds_witness :
    ∃ s s2 sh ds, run stdQ selectRect (initState stdQ) = some s ∧ s.selectedIndex ≠ -1 ∧
      keepsSelection stdQ [holdAt 3 3] s ∧ run stdQ [holdAt 3 3] s = some s2 ∧
      s2.selectedIndex = s.selectedIndex ∧
      s.shapes[s.selectedIndex.toNat]? = some sh ∧
      s2.shapes[s.selectedIndex.toNat]? = some (moveAll sh ds) := by
  have hrun : (run stdQ selectRect (initState stdQ)).isSome = true := by decide!
  obtain ⟨s, hs⟩ := Option.isSome_iff_exists.mp hrun
  have hsel : (run stdQ selectRect (initState stdQ)).map
      (fun s => decide (s.selectedIndex ≠ -1)) = some true := by decide!
  rw [hs] at hsel
  have hne : s.selectedIndex ≠ -1 := by simpa using hsel
  obtain ⟨_, ⟨s1, h1, _, h2⟩, _⟩ :=
    selected_index_in_bounds stdQ s (holdAt 3 3) [] ⟨_, hs⟩
  have hk : keepsSelection stdQ [holdAt 3 3] s :=
    ⟨s1, h1, h2 (Or.inr ⟨rfl, Or.inl rfl⟩), trivial⟩
  obtain ⟨_, _, h3⟩ := selected_index_in_bounds stdQ s (holdAt 3 3) [holdAt 3 3] ⟨_, hs⟩
  obtain ⟨s2, g1, g2, _, _, sh, ds, g3, g4⟩ := h3 hne hk
  exact ⟨s, s2, sh, ds, hs, hne, hk, g1, g2, g3, g4⟩

/-! ### A drag gesture -/

theorem set_of_getElem? (l : List (Shape F)) (i : Nat) (x : Shape F) (h : l[i]? = some x) :
    l.set i x = l := by
  induction l generalizing i with
  | nil => simp
  | cons a rest ih =>
    cases i with
    | zero =>
      simp only [List.getElem?_cons_zero, Option.some.injEq] at h
      simp [h]
    | succ k =>
      simp only [List.getElem?_cons_succ] at h
      simp [ih k h]

theorem Shape.move_zero (sh : Shape F) (m : Vector2 F) :
    sh.Move (Vector2Subtract m m) = sh := by
  cases sh <;>
    simp [Shape.Move, PointShape.Move, LineShape.Move, CircleShape.Move, RectShape.Move,
      TriangleShape.move_eq, Vector2Add, Vector2Subtract]

theorem Shape.move_move (sh : Shape F) (a b : Vector2 F) :
    (sh.Move a).Move b = sh.Move (Vector2Add a b) := by
  cases sh <;>
    simp [Shape.Move, PointShape.Move, LineShape.Move, CircleShape.Move, RectShape.Move,
      TriangleShape.move_eq, Vector2Add, add_assoc]

theorem vector2_telescope (m p h : Vector2 F) :
    Vector2Add (Vector2Subtract p m) (Vector2Subtract h p) = Vector2Subtract h m := by
  simp [Vector2Add, Vector2Subtract]

/-- The frame of a selecting press without release edge and without DELETE:
the shape at the selected index is where it was (translated by zero at
most), the drag flag is set and the cursor is stored. -/
theorem frame_select_first (rl : Raylib F) (inp : Input F) (s : State F) (i : Nat)
    (hsel : frameSelect rl inp s = some i) (hrel : inp.leftReleased = false)
    (hdel : inp.keyDelete = false) :
    ∃ t sh, frame rl inp s = some t ∧ s.shapes[i]? = some sh ∧ t.shapes = s.shapes ∧
      t.current = none ∧ t.selectedIndex = i ∧ t.dragging = true ∧ t.prevMouse = inp.mouse := by
  obtain ⟨b1, _, _, _⟩ := beforeBranch_fields rl inp s
  cases hc : (beforeBranch rl inp s).current with
  | some cur => simp [frameSelect, hc] at hsel
  | none =>
    rw [frameSelect_edit rl inp s hc] at hsel
    cases hp : inp.leftPressed with
    | false => simp [hp] at hsel
    | true =>
      simp only [hp, if_true] at hsel
      obtain ⟨p1, p2, _⟩ := selectStep_pressed rl inp (beforeBranch rl inp s) hp
      obtain ⟨q1, q2, q3⟩ := p2 i hsel
      obtain ⟨_, ⟨sh, k2, _⟩, _⟩ := (selectScan_spec rl _ inp.mouse _ (Nat.le_refl _)).1 i hsel
      rw [b1] at k2
      obtain ⟨f1, f2⟩ := selectStep_fields rl inp (beforeBranch rl inp s)
      obtain ⟨s2, s4, h2, h4, hfr, hs2, hs3⟩ := frame_edit rl inp s hc p1
      obtain ⟨s2', h2', d1, d2, d3, _, d5, d6⟩ := dragStep_spec rl inp _ p1
      rw [h2] at h2'
      cases h2'
      obtain ⟨r1, r2, r3, r4⟩ := releaseStep_fields rl inp s2
      obtain ⟨s4', h4', _, m2, m3, m4, _, m6⟩ := removeStep_spec rl inp _ hs3
      rw [h4] at h4'
      cases h4'
      have hs4 : s4 = releaseStep rl inp s2 := m6 (by simp [hdel])
      have hrs : releaseStep rl inp s2 = s2 := by simp [releaseStep, hrel]
      rw [hrs] at hs4
      obtain ⟨e1, e2, e3, e4, e5⟩ := escapeStep_fields rl inp s4
      have hshapes : s2.shapes = s.shapes ∧ s2.prevMouse = inp.mouse := by
        cases hdd : dragDelta inp (selectStep rl inp (beforeBranch rl inp s)) with
        | none =>
          rw [d5 hdd, f1, b1, q2]
          exact ⟨rfl, rfl⟩
        | some d =>
          obtain ⟨_, _, _, hd⟩ := dragDelta_some inp _ d hdd
          obtain ⟨g1, sh0, hget, hset⟩ := d6 d hdd
          rw [q1, f1, b1] at hget hset
          simp only [Int.toNat_ofNat] at hget hset
          rw [k2] at hget
          cases hget
          rw [hset, hd, q2, Shape.move_zero, set_of_getElem? _ _ _ k2]
          exact ⟨rfl, g1⟩
      refine ⟨escapeStep rl inp s4, sh, hfr, k2, ?_, ?_, ?_, ?_, ?_⟩
      · rw [e1, hs4, hshapes.1]
      · rw [e2, hs4, d2, f2, hc]
      · rw [e3, hs4, d1, q1]
      · rw [e5, hs4, d3, q3]
      · rw [e4, hs4, hshapes.2]

/-- A frame in which the button stays held, in the selection/edit mode with
index `i` selected and the drag flag set: the shape at `i` is translated by
the cursor of the frame minus the stored cursor. -/
theorem frame_hold (rl : Raylib F) (h : Input F) (t : State F) (i : Nat) (x : Shape F)
    (hh : h.holds) (hc : t.current = none) (hsel : t.selectedIndex = i)
    (hdr : t.dragging = true) (hx : t.shapes[i]? = some x) :
    ∃ t1, frame rl h t = some t1 ∧ t1.current = none ∧ t1.selectedIndex = i ∧
      t1.dragging = true ∧ t1.prevMouse = h.mouse ∧
      t1.shapes = t.shapes.set i (x.Move (Vector2Subtract h.mouse t.prevMouse)) := by
  obtain ⟨g1, g2, g3, g4, g5, g6, g7, g8, g9⟩ := hh
  obtain ⟨b1, b2, b3, b4⟩ := beforeBranch_fields rl h t
  have hbc := beforeBranch_current_none rl h t hc g4 g5 g6 g7 g8
  have hlt : i < t.shapes.length := (List.getElem?_eq_some.mp hx).1
  have hok : t.SelOk := Or.inr (by rw [hsel]; omega)
  have hbok : (beforeBranch rl h t).SelOk := selOk_of_eq _ _ hok b2 (le_of_eq (by rw [b1]))
  have hselect := selectStep_not_pressed rl h (beforeBranch rl h t) g2
  have hsok : (selectStep rl h (beforeBranch rl h t)).SelOk := by
    rw [hselect]
    exact hbok
  obtain ⟨s2, s4, h2, h4, hfr, hs2, hs3⟩ := frame_edit rl h t hbc hsok
  obtain ⟨s2', h2', d1, d2, d3, _, _, d6⟩ := dragStep_spec rl h _ hsok
  rw [h2] at h2'
  cases h2'
  rw [hselect] at d1 d2 d3 d6
  have hdd : dragDelta h (beforeBranch rl h t) =
      some (Vector2Subtract h.mouse t.prevMouse) := by
    simp [dragDelta, b2, b3, b4, hdr, g1, hsel]
  obtain ⟨k1, sh0, hget, hset⟩ := d6 _ hdd
  rw [b2, b1, hsel] at hget hset
  simp only [Int.toNat_ofNat] at hget hset
  rw [hx] at hget
  cases hget
  obtain ⟨s4', h4', _, m2, m3, m4, _, m6⟩ := removeStep_spec rl h _ hs3
  rw [h4] at h4'
  cases h4'
  have hs4 : s4 = releaseStep rl h s2 := m6 (by simp [g9])
  have hrs : releaseStep rl h s2 = s2 := by simp [releaseStep, g3]
  rw [hrs] at hs4
  obtain ⟨e1, e2, e3, e4, e5⟩ := escapeStep_fields rl h s4
  refine ⟨escapeStep rl h s4, hfr, ?_, ?_, ?_, ?_, ?_⟩
  · rw [e2, hs4, d2, hbc]
  · rw [e3, hs4, d1, b2, hsel]
  · rw [e5, hs4, d3, b4, hdr]
  · rw [e4, hs4, k1]
  · rw [e1, hs4, hset]

theorem run_holds (rl : Raylib F) (holds : List (Input F)) :
    ∀ (t : State F) (i : Nat) (sh : Shape F) (base : List (Shape F)) (m0 : Vector2 F)
      (prev : Input F),
      (∀ h ∈ holds, h.holds) → t.current = none → t.selectedIndex = i → t.dragging = true →
      base[i]? = some sh → t.prevMouse = prev.mouse →
      t.shapes = base.set i (sh.Move (Vector2Subtract prev.mouse m0)) →
      ∃ t2, run rl holds t = some t2 ∧ t2.selectedIndex = i ∧ t2.current = none ∧
        t2.shapes = base.set i (sh.Move (Vector2Subtract (lastCursor prev holds) m0)) := by
  induction holds with
  | nil =>
    intro t i sh base m0 prev _ hc hsel _ _ _ hsh
    exact ⟨t, rfl, hsel, hc, hsh⟩
  | cons h rest ih =>
    intro t i sh base m0 prev hall hc hsel hdr hb hpm hsh
    have hlt : i < base.length := (List.getElem?_eq_some.mp hb).1
    have hx : t.shapes[i]? = some (sh.Move (Vector2Subtract prev.mouse m0)) := by
      rw [hsh, List.getElem?_set_self hlt]
    obtain ⟨t1, f1, f2, f3, f4, f5, f6⟩ :=
      frame_hold rl h t i _ (hall h (List.mem_cons_self _ _)) hc hsel hdr hx
    have hsh1 : t1.shapes = base.set i (sh.Move (Vector2Subtract h.mouse m0)) := by
      rw [f6, hsh, List.set_set, Shape.move_move, hpm, vector2_telescope]
    obtain ⟨t2, r1, r2, r3, r4⟩ :=
      ih t1 i sh base m0 h (fun q hq => hall q (List.mem_cons_of_mem _ hq)) f2 f3 f4 hb f5 hsh1
    exact ⟨t2, by simp [run, f1, r1], r2, r3, r4⟩

/-- C19. A frame `first` with a press edge that selects index `i` (no
release edge, no DELETE), followed by frames in which the button stays held
with no edge, no creation key and no DELETE: the run succeeds; at its end the
collection is the one before `first` with the shape at `i` translated by the
cursor of the last frame minus the cursor of `first`, so that each of its
defining points is its old value plus that difference and every other shape is
unchanged; index `i` is still selected. -/
theorem drag_gesture (rl : Raylib F) (s : State F) (first : Input F) (holds : List (Input F))
    (i : Nat) (hsel : frameSelect rl first s = some i) (hrel : first.leftReleased = false)
    (hdel : first.keyDelete = false) (hholds : ∀ h ∈ holds, h.holds) :
    ∃ s2 sh, run rl (first :: holds) s = some s2 ∧ s.shapes[i]? = some sh ∧
      s2.shapes =
        s.shapes.set i (sh.Move (Vector2Subtract (lastCursor first holds) first.mouse)) ∧
      (sh.Move (Vector2Subtract (lastCursor first holds) first.mouse)).points =
        sh.points.map
          (fun p => Vector2Add p (Vector2Subtract (lastCursor first holds) first.mouse)) ∧
      (∀ j : Nat, j ≠ i → s2.shapes[j]? = s.shapes[j]?) ∧
      s2.shapes.length = s.shapes.length ∧ s2.selectedIndex = i := by
  obtain ⟨t, sh, hf, hsh, t1, t2, t3, t4, t5⟩ := frame_select_first rl first s i hsel hrel hdel
  have hbase : t.shapes =
      s.shapes.set i (sh.Move (Vector2Subtract first.mouse first.mouse)) := by
    rw [t1, Shape.move_zero, set_of_getElem? _ _ _ hsh]
  obtain ⟨s2, r1, r2, _, r4⟩ :=
    run_holds rl holds t i sh s.shapes first.mouse first hholds t2 t3 t4 hsh t5 hbase
  refine ⟨s2, sh, by simp [run, hf, r1], hsh, r4, (Shape.move_fields sh _).1, ?_, ?_, r2⟩
  · intro j hj
    rw [r4]
    exact List.getElem?_set_ne (Ne.symm hj)
  · rw [r4]
    simp

/-- Witness of C19: a press at `(7,7)` selects the rectangle at index 1 of
`overlapState`; the button is held through the cursor positions `(8,9)` and
`(12,5)`; the rectangle `(15,15)-(5,5)` ends as `(20,13)-(10,3)`. -/
theorem drag_gesture_witness :
    frameSelect stdQ (idleAt 7 7).press overlapState = some 1 ∧
    (∀ h ∈ [holdAt 8 9, holdAt 12 5], h.holds) ∧
    ∃ s2, run stdQ ((idleAt 7 7).press :: [holdAt 8 9, holdAt 12 5]) overlapState = some s2 ∧
      s2.shapes = [rectOf 0 0 10 10, rectOf 20 13 10 3] ∧ s2.selectedIndex = 1 := by
  have hsel : frameSelect stdQ (idleAt 7 7).press overlapState = some 1 := by decide!
  have hholds : ∀ h ∈ [holdAt 8 9, holdAt 12 5], h.holds := by
    intro h hh
    simp only [List.mem_cons, List.mem_singleton, List.not_mem_nil, or_false] at hh
    rcases hh with hh | hh <;> rw [hh] <;> exact ⟨rfl, rfl, rfl, rfl, rfl, rfl, rfl, rfl, rfl⟩
  obtain ⟨s2, sh, h1, h2, h3, _, _, _, h7⟩ :=
    drag_gesture stdQ overlapState (idleAt 7 7).press [holdAt 8 9, holdAt 12 5] 1 hsel rfl rfl
      hholds
  have hsh : sh = rectOf 15 15 5 5 := by
    have : overlapState.shapes[1]? = some (rectOf 15 15 5 5) := rfl
    rw [this] at h2
    exact (Option.some.inj h2).symm
  refine ⟨hsel, hholds, s2, h1, ?_, h7⟩
  rw [h3, hsh]
  decide!

/-! ### Lines whose endpoints coincide -/

theorem sqrtf_zero (rl : Raylib F) (hs : rl.SqrtOk) : rl.sqrtf 0 = 0 := by
  obtain ⟨_, h⟩ := hs 0 (le_refl 0)
  exact mul_self_eq_zero.mp h

theorem vector2Distance_self (rl : Raylib F) (hs : rl.SqrtOk) (a : Vector2 F) :
    Vector2Distance rl a a = 0 := by
  simp [Vector2Distance, sqrtf_zero rl hs]

theorem vector2Distance_eq_zero_iff (rl : Raylib F) (hs : rl.SqrtOk) (a b : Vector2 F) :
    Vector2Distance rl a b = 0 ↔ a = b := by
  constructor
  · intro h
    by_contra hne
    exact vector2Distance_ne_zero rl hs a b hne h
  · intro h
    rw [h]
    exact vector2Distance_self rl hs b

theorem lineNumerator_self (p a : Vector2 F) : lineNumerator p a a = 0 := by
  simp only [lineNumerator]
  ring

theorem Shape.degenerate_contains (rl : Raylib F) (hs : rl.SqrtOk) (sh : Shape F)
    (p : Vector2 F) (h : sh.degenerate = true) : sh.Contains rl p = false := by
  cases sh with
  | line l =>
    have hab : l.a = l.b := by simpa [Shape.degenerate] using h
    simp [Shape.Contains, LineShape.Contains, CheckCollisionPointLine, hab,
      vector2Distance_self rl hs]
  | point _ => simp [Shape.degenerate] at h
  | circle _ => simp [Shape.degenerate] at h
  | rect _ => simp [Shape.degenerate] at h
  | triangle _ => simp [Shape.degenerate] at h

theorem Shape.degenerate_move (sh : Shape F) (d : Vector2 F) :
    (sh.Move d).degenerate = sh.degenerate := by
  cases sh with
  | line l =>
    simp only [Shape.Move, Shape.degenerate, LineShape.Move, Vector2Add]
    by_cases hab : l.a = l.b
    · simp [hab]
    · have : ¬ ((⟨l.a.x + d.x, l.a.y + d.y⟩ : Vector2 F) = ⟨l.b.x + d.x, l.b.y + d.y⟩) := by
        intro h
        apply hab
        have hx : l.a.x + d.x = l.b.x + d.x := congrArg Vector2.x h
        have hy : l.a.y + d.y = l.b.y + d.y := congrArg Vector2.y h
        cases ha : l.a
        cases hb : l.b
        rw [ha, hb] at hx hy
        simp only [add_left_inj] at hx hy
        rw [hx, hy]
      simp [hab, this]
  | point _ => rfl
  | circle _ => rfl
  | rect _ => rfl
  | triangle _ => rfl

theorem filter_set_of_false (p : Shape F → Bool) (l : List (Shape F)) (i : Nat)
    (x y : Shape F) (hx : l[i]? = some x) (hpx : p x = false) (hpy : p y = false) :
    (l.set i y).filter p = l.filter p := by
  induction l generalizing i with
  | nil => simp
  | cons a rest ih =>
    cases i with
    | zero =>
      simp only [List.getElem?_cons_zero, Option.some.injEq] at hx
      simp [List.filter_cons, hx, hpx, hpy]
    | succ k =>
      simp only [List.getElem?_cons_succ] at hx
      simp [List.filter_cons, ih k hx]

theorem filter_eraseIdx_of_false (p : Shape F → Bool) (l : List (Shape F)) (i : Nat)
    (x : Shape F) (hx : l[i]? = some x) (hpx : p x = false) :
    (l.eraseIdx i).filter p = l.filter p := by
  induction l generalizing i with
  | nil => simp
  | cons a rest ih =>
    cases i with
    | zero =>
      simp only [List.getElem?_cons_zero, Option.some.injEq] at hx
      simp [List.filter_cons, hx, hpx]
    | succ k =>
      simp only [List.getElem?_cons_succ] at hx
      simp [List.filter_cons, ih k hx]

/-- A frame never selects, moves or erases a line whose endpoints coincide:
the selected index does not designate one after the frame if it did not
before, and the lines of that kind in the collection stay as they are, in
their order, followed by the one the frame may commit. -/
theorem frame_degenerate (rl : Raylib F) (hs : rl.SqrtOk) (inp : Input F) (s s1 : State F)
    (hok : s.SelOk) (hnd : s.SelNotDegenerate) (hf : frame rl inp s = some s1) :
    s1.SelNotDegenerate ∧
      s.shapes.filter Shape.degenerate <+: s1.shapes.filter Shape.degenerate := by
  obtain ⟨b1, b2, _, _⟩ := beforeBranch_fields rl inp s
  have hbok : (beforeBranch rl inp s).SelOk := selOk_of_eq _ _ hok b2 (le_of_eq (by rw [b1]))
  cases hc : (beforeBranch rl inp s).current with
  | some cur =>
    rw [frame_construct rl inp s cur hc] at hf
    cases hf
    obtain ⟨e1, _, e3, _, _⟩ :=
      escapeStep_fields rl inp (constructStep rl inp (beforeBranch rl inp s) cur)
    obtain ⟨c1, _, _, c4⟩ := constructStep_fields rl inp (beforeBranch rl inp s) cur
    have hsel : (escapeStep rl inp
        (constructStep rl inp (beforeBranch rl inp s) cur)).selectedIndex = s.selectedIndex :=
      e3.trans (c1.trans b2)
    rcases c4 with c4 | c4
    · refine ⟨?_, ?_⟩
      · intro sh hne hsh
        rw [hsel] at hne hsh
        rw [e1, c4, b1] at hsh
        exact hnd sh hne hsh
      · rw [e1, c4, b1]
    · refine ⟨?_, ?_⟩
      · intro sh hne hsh
        rw [hsel] at hne hsh
        rw [e1, c4, b1] at hsh
        obtain ⟨sh0, h0, _⟩ := shapeAt_selOk s hok hne
        rw [List.getElem?_append_left (List.getElem?_eq_some.mp h0).1] at hsh
        exact hnd sh hne hsh
      · rw [e1, c4, b1, List.filter_append]
        exact List.prefix_append _ _
  | none =>
    have hsok := selectStep_selOk rl inp _ hbok
    obtain ⟨s2, s4, h2, h4, hfr, hs2, hs3⟩ := frame_edit rl inp s hc hsok
    rw [hfr] at hf
    cases hf
    obtain ⟨f1, _⟩ := selectStep_fields rl inp (beforeBranch rl inp s)
    have hselnd : (selectStep rl inp (beforeBranch rl inp s)).SelNotDegenerate := by
      intro sh hne hsh
      rw [f1, b1] at hsh
      cases hp : inp.leftPressed with
      | false =>
        rw [selectStep_not_pressed rl inp _ hp, b2] at hne hsh
        exact hnd sh hne hsh
      | true =>
        obtain ⟨_, p2, p3⟩ := selectStep_pressed rl inp (beforeBranch rl inp s) hp
        cases hsc : selectScan rl (beforeBranch rl inp s).shapes inp.mouse _ (Nat.le_refl _) with
        | none => exact absurd (p3 hsc).1 hne
        | some k =>
          obtain ⟨_, ⟨shk, k2, k3⟩, _⟩ :=
            (selectScan_spec rl _ inp.mouse _ (Nat.le_refl _)).1 k hsc
          rw [(p2 k hsc).1] at hsh
          simp only [Int.toNat_ofNat] at hsh
          rw [b1, hsh] at k2
          cases k2
          cases hdg : sh.degenerate with
          | false => rfl
          | true =>
            rw [Shape.degenerate_contains rl hs sh inp.mouse hdg] at k3
            cases k3
    obtain ⟨s2', h2', d1, _, _, _, d5, d6⟩ := dragStep_spec rl inp _ hsok
    rw [h2] at h2'
    cases h2'
    have hs2nd : s2.SelNotDegenerate ∧
        s2.shapes.filter Shape.degenerate = s.shapes.filter Shape.degenerate := by
      cases hdd : dragDelta inp (selectStep rl inp (beforeBranch rl inp s)) with
      | none =>
        rw [d5 hdd]
        exact ⟨hselnd, by rw [f1, b1]⟩
      | some d =>
        obtain ⟨_, _, hne, _⟩ := dragDelta_some inp _ d hdd
        obtain ⟨_, sh0, hget, hset⟩ := d6 d hdd
        have h0 := hselnd sh0 hne hget
        have hm : (sh0.Move d).degenerate = false := by rw [Shape.degenerate_move, h0]
        refine ⟨?_, ?_⟩
        · intro sh _ hsh
          rw [d1, hset, List.getElem?_set_self (List.getElem?_eq_some.mp hget).1] at hsh
          cases hsh
          exact hm
        · rw [hset, filter_set_of_false _ _ _ _ _ hget h0 hm, f1, b1]
    obtain ⟨r1, _, r3, _⟩ := releaseStep_fields rl inp s2
    obtain ⟨s4', h4', _, _, _, _, m5, m6⟩ := removeStep_spec rl inp _ hs3
    rw [h4] at h4'
    cases h4'
    obtain ⟨e1, _, e3, _, _⟩ := escapeStep_fields rl inp s4
    by_cases hcond : (releaseStep rl inp s2).selectedIndex ≠ -1 ∧ inp.keyDelete = true
    · obtain ⟨m5a, m5b⟩ := m5 hcond
      refine ⟨?_, ?_⟩
      · intro sh hne _
        rw [e3, m5b] at hne
        exact absurd rfl hne
      · rw [e1, m5a, r1, r3]
        have hne : s2.selectedIndex ≠ -1 := by
          rw [← r3]
          exact hcond.1
        obtain ⟨sh0, h0, _⟩ := shapeAt_selOk s2 hs2 hne
        rw [filter_eraseIdx_of_false _ _ _ _ h0 (hs2nd.1 sh0 hne h0), hs2nd.2]
    · have hs4 := m6 hcond
      refine ⟨?_, ?_⟩
      · intro sh hne hsh
        rw [e1] at hsh
        rw [e3] at hne hsh
        rw [hs4, r3] at hne hsh
        rw [r1] at hsh
        exact hs2nd.1 sh hne hsh
      · rw [e1, hs4, r1, hs2nd.2]

theorem run_degenerate (rl : Raylib F) (hs : rl.SqrtOk) (inps : List (Input F)) :
    ∀ s : State F, s.SelOk → s.SelNotDegenerate →
      ∃ s2, run rl inps s = some s2 ∧ s2.SelNotDegenerate ∧
        s.shapes.filter Shape.degenerate <+: s2.shapes.filter Shape.degenerate := by
  induction inps with
  | nil =>
    intro s _ hnd
    exact ⟨s, rfl, hnd, List.prefix_refl _⟩
  | cons inp rest ih =>
    intro s hok hnd
    obtain ⟨s1, hf, hok1⟩ := frame_selOk rl inp s hok
    obtain ⟨a1, a2⟩ := frame_degenerate rl hs inp s s1 hok hnd hf
    obtain ⟨s2, hr, g1, g2⟩ := ih s1 hok1 a1
    exact ⟨s2, by simp [run, hf, hr], g1, List.IsPrefix.trans a2 g2⟩

theorem reachable_selNotDegenerate (rl : Raylib F) (hs : rl.SqrtOk) (s : State F)
    (hr : Reachable rl s) : s.SelNotDegenerate := by
  obtain ⟨inps, hrun⟩ := hr
  have h0 : (initState rl).SelNotDegenerate := by
    intro sh hne _
    exact absurd rfl hne
  obtain ⟨s2, h2, g1, _⟩ := run_degenerate rl hs inps (initState rl) (Or.inl rfl) h0
  rw [hrun] at h2
  cases h2
  exact g1

theorem commit_degenerate_line (rl : Raylib F) (m0 m : Vector2 F) (r0 r1 r2 : Int) :
    ∃ t, run rl [Input.keyLAt m0 r0 r1 r2, (Input.idle m).press, Input.release m,
        (Input.idle m).press] (initState rl) = some t ∧
      t.shapes = [.line { a := m, b := m, waitingA := false, ready := true,
                          color := RandomColor r0 r1 r2 }] ∧
      t.current = none := by
  refine ⟨_, rfl, ?_, ?_⟩ <;>
    simp [run, frame, beforeBranch, mouseMoveStep, createStep, cancelStep, constructStep,
      escapeStep, State.log, Input.idle, Input.keyLAt, Input.press, Input.release, initState,
      Shape.HandleInput, LineShape.HandleInput, LineShape.new]

/-- C20. With `sqrtf` the square root: the divisor `Vector2Distance(a, b)` of
the line hit test is zero exactly when `a = b`; the controller commits such a
line (key L, two presses at the same cursor position `m`); for a line with
`a = b` the numerator and the divisor are both zero and `Contains` returns
false at every point (the quotient is not formed: in the program it is the
`float` 0/0, which is not `<= 5`). In every reachable state the selected
index does not designate such a line, and over every run from it the lines
of that kind in the collection stay as they are, in their order: none is ever
selected, translated or erased. -/
theorem degenerate_line_unselectable (rl : Raylib F) (hs : rl.SqrtOk) (s : State F)
    (hr : Reachable rl s) (inps : List (Input F)) (m0 m : Vector2 F) (r0 r1 r2 : Int) :
    (∀ a b : Vector2 F, Vector2Distance rl a b = 0 ↔ a = b) ∧
    (∃ t, run rl [Input.keyLAt m0 r0 r1 r2, (Input.idle m).press, Input.release m,
        (Input.idle m).press] (initState rl) = some t ∧
      t.shapes = [.line { a := m, b := m, waitingA := false, ready := true,
                          color := RandomColor r0 r1 r2 }] ∧
      t.current = none) ∧
    (∀ (l : LineShape F) (p : Vector2 F), l.a = l.b →
      lineNumerator p l.a l.b = 0 ∧ Vector2Distance rl l.a l.b = 0 ∧
        l.Contains rl p = false) ∧
    (∀ (l : LineShape F), s.selectedIndex ≠ -1 →
      s.shapes[s.selectedIndex.toNat]? = some (.line l) → l.a ≠ l.b) ∧
    (∃ s2, run rl inps s = some s2 ∧
      s.shapes.filter Shape.degenerate <+: s2.shapes.filter Shape.degenerate ∧
      ∀ (l : LineShape F), s2.selectedIndex ≠ -1 →
        s2.shapes[s2.selectedIndex.toNat]? = some (.line l) → l.a ≠ l.b) := by
  have hok := reachable_selOk rl s hr
  have hnd := reachable_selNotDegenerate rl hs s hr
  have hline : ∀ (t : State F), t.SelNotDegenerate → ∀ (l : LineShape F),
      t.selectedIndex ≠ -1 → t.shapes[t.selectedIndex.toNat]? = some (.line l) →
      l.a ≠ l.b := by
    intro t ht l hne hl hab
    have := ht _ hne hl
    simp [Shape.degenerate, hab] at this
  obtain ⟨s2, h2, g1, g2⟩ := run_degenerate rl hs inps s hok hnd
  refine ⟨vector2Distance_eq_zero_iff rl hs, commit_degenerate_line rl m0 m r0 r1 r2, ?_,
    hline s hnd, s2, h2, g2, hline s2 g1⟩
  intro l p hab
  refine ⟨by rw [hab]; exact lineNumerator_self p l.b, by
    rw [hab]; exact vector2Distance_self rl hs l.b, ?_⟩
  have := Shape.degenerate_contains rl hs (.line l) p (by simp [Shape.degenerate, hab])
  simpa [Shape.Contains] using this

/-- Witness of C20, over the reals with `Real.sqrt`: two presses at `(3,4)`
commit a line with both endpoints at `(3,4)`, which contains no point. -/
theorem degenerate_line_unselectable_witness :
    (Raylib.std Real.sqrt (fun n => (n : ℝ))).SqrtOk ∧
    ∃ t, run (Raylib.std Real.sqrt (fun n => (n : ℝ)))
        [Input.keyLAt ⟨0, 0⟩ 0 0 0, (Input.idle ⟨3, 4⟩).press, Input.release ⟨3, 4⟩,
          (Input.idle ⟨3, 4⟩).press]
        (initState (Raylib.std Real.sqrt (fun n => (n : ℝ)))) = some t ∧
      t.shapes = [.line { a := ⟨3, 4⟩, b := ⟨3, 4⟩, waitingA := false, ready := true,
                          color := RandomColor 0 0 0 }] ∧
      (∀ p : Vector2 ℝ,
        LineShape.Contains (Raylib.std Real.sqrt (fun n => (n : ℝ)))
          { a := ⟨3, 4⟩, b := ⟨3, 4⟩, waitingA := false, ready := true,
            color := RandomColor 0 0 0 } p = false) := by
  have hs : (Raylib.std Real.sqrt (fun n => (n : ℝ))).SqrtOk :=
    fun v hv => ⟨Real.sqrt_nonneg v, Real.mul_self_sqrt hv⟩
  obtain ⟨_, ⟨t, h1, h2, _⟩, h3, _⟩ :=
    degenerate_line_unselectable (Raylib.std Real.sqrt (fun n => (n : ℝ))) hs
      (initState (Raylib.std Real.sqrt (fun n => (n : ℝ)))) ⟨[], rfl⟩ [] ⟨0, 0⟩ ⟨3, 4⟩ 0 0 0
  exact ⟨hs, t, h1, h2, fun p => (h3 _ p rfl).2.2⟩


/-! ### Removal of the selected shape -/

theorem beforeBranch_current_backspace (rl : Raylib F) (inp : Input F) (s : State F)
    (hb : inp.keyBackspace = true) : (beforeBranch rl inp s).current = none := by
  simp only [beforeBranch, cancelStep, hb, Bool.true_and]
  split_ifs with h
  · rfl
  · cases hc : (createStep rl inp (mouseMoveStep rl inp s)).current with
    | none => rfl
    | some cur => rw [hc] at h; simp at h

theorem beforeBranch_current_created (rl : Raylib F) (inp : Input F) (s : State F)
    (hc : s.current = none) (hb : inp.keyBackspace = false) (hk : inp.createKey = true) :
    ∃ cur, (beforeBranch rl inp s).current = some cur ∧ cur.ready = false := by
  simp only [Input.createKey, Bool.or_eq_true] at hk
  cases h1 : inp.keyC <;> cases h2 : inp.keyP <;> cases h3 : inp.keyL <;>
    cases h4 : inp.keyR <;> cases h5 : inp.keyT <;>
    first
    | (simp [h1, h2, h3, h4, h5] at hk; done)
    | simp [beforeBranch, cancelStep, createStep, mouseMoveStep, State.log, hc, hb, h1, h2, h3,
        h4, h5, Shape.ready, CircleShape.new, PointShape.new, LineShape.new, RectShape.new,
        TriangleShape.new]

/-- C9, counterexample. The rectangle `(0,0)-(10,10)` is selected by a press
at `(1,1)` and the button is released: no shape is under construction and
index 0 is selected.  The next frame carries DELETE together with the key C
and no press edge: the key C puts a circle in the construction slot, the frame
runs the construction branch, and at its end index 0 is still selected (the
collection still holds the rectangle). -/
theorem delete_with_creation_key : ¬ DeleteRemovesSelected stdQ := by
  intro h
  have hrun : (run stdQ (selectRect ++ [releaseAt11]) (initState stdQ)).isSome = true := by
    decide!
  obtain ⟨s, hs⟩ := Option.isSome_iff_exists.mp hrun
  have hcur : (run stdQ (selectRect ++ [releaseAt11]) (initState stdQ)).map
      (fun s => s.current.isNone) = some true := by decide!
  have hsel : (run stdQ (selectRect ++ [releaseAt11]) (initState stdQ)).map
      (fun s => s.selectedIndex) = some 0 := by decide!
  have hafter : ((run stdQ (selectRect ++ [releaseAt11]) (initState stdQ)).bind
      (frame stdQ keysCDelete)).map (fun s => s.selectedIndex) = some 0 := by decide!
  rw [hs] at hcur hsel hafter
  simp only [Option.map_some', Option.some.injEq, Option.some_bind] at hcur hsel hafter
  have hc : s.current = none := Option.isNone_iff_eq_none.mp hcur
  have hne : s.selectedIndex ≠ -1 := by
    rw [hsel]
    decide
  obtain ⟨s1, hf, _, h1⟩ := h (selectRect ++ [releaseAt11]) keysCDelete s (by decide!) hs hc hne
    rfl rfl
  rw [hf] at hafter
  simp only [Option.map_some', Option.some.injEq] at hafter
  rw [h1] at hafter
  revert hafter
  decide

/-- That run, value by value: before the frame the collection holds one
shape, index 0 is selected and the construction slot is empty; after the frame
with DELETE and the key C the collection still holds one shape, index 0 is
still selected and a shape is under construction. -/
theorem creation_key_frame_values :
    (run stdQ (selectRect ++ [releaseAt11]) (initState stdQ)).map
        (fun s => (s.shapes.length, s.selectedIndex, s.current.isSome)) = some (1, 0, false) ∧
    (run stdQ (selectRect ++ [releaseAt11, keysCDelete]) (initState stdQ)).map
        (fun s => (s.shapes.length, s.selectedIndex, s.current.isSome)) = some (1, 0, true) := by
  decide!

/-- C9, amended. In a reachable state with no shape under construction and a
selected index `i`, `i` is an index into the collection, and a frame with the
DELETE key pressed and no press edge does one of two things.  If no creation
key is pressed in the frame, or BACKSPACE is, the frame succeeds, the
collection after it is the old one with the element at index `i` erased (the
other shapes as they were, in their order) and nothing is selected; any
following frames without a press edge and without a creation key (DELETE, a
held or released button, any other key) leave the collection as it is and the
selection empty.  If a creation key is pressed and BACKSPACE is not, the frame
succeeds and removes nothing: the collection and the selected index are what
they were, and a shape is under construction. -/
theorem delete_removes_selected (rl : Raylib F) (s : State F) (inp : Input F)
    (rest : List (Input F)) (hr : Reachable rl s)
    (hcur : s.current = none) (hsel : s.selectedIndex ≠ -1)
    (hdel : inp.keyDelete = true) (hnp : inp.leftPressed = false)
    (hrest : ∀ r ∈ rest, r.leftPressed = false ∧ r.keyC = false ∧ r.keyP = false ∧
      r.keyL = false ∧ r.keyR = false ∧ r.keyT = false) :
    0 ≤ s.selectedIndex ∧ s.selectedIndex < s.shapes.length ∧
    ((inp.createKey = false ∨ inp.keyBackspace = true) →
      ∃ s1 s2, frame rl inp s = some s1 ∧
        s1.shapes = s.shapes.eraseIdx s.selectedIndex.toNat ∧ s1.selectedIndex = -1 ∧
        run rl rest s1 = some s2 ∧ s2.shapes = s1.shapes ∧ s2.selectedIndex = -1) ∧
    (inp.createKey = true → inp.keyBackspace = false →
      ∃ s1, frame rl inp s = some s1 ∧ s1.shapes = s.shapes ∧
        s1.selectedIndex = s.selectedIndex ∧ s1.current ≠ none) := by
  have hok : s.SelOk := reachable_selOk rl s hr
  have hrange : 0 ≤ s.selectedIndex ∧ s.selectedIndex < s.shapes.length := by
    rcases hok with h | h
    · exact absurd h hsel
    · exact h
  obtain ⟨b1, b2, _, _⟩ := beforeBranch_fields rl inp s
  refine ⟨hrange.1, hrange.2, ?_, ?_⟩
  · intro hkeys
    have hmode : (beforeBranch rl inp s).current = none := by
      rcases hkeys with hk | hb
      · simp only [Input.createKey, Bool.or_eq_false_iff] at hk
        exact beforeBranch_current_none rl inp s hcur hk.1.1.1.1 hk.1.1.1.2 hk.1.1.2 hk.1.2 hk.2
      · exact beforeBranch_current_backspace rl inp s hb
    have hbok : (beforeBranch rl inp s).SelOk := selOk_of_eq _ _ hok b2 (le_of_eq (by rw [b1]))
    have hselect := selectStep_not_pressed rl inp (beforeBranch rl inp s) hnp
    have hsok : (selectStep rl inp (beforeBranch rl inp s)).SelOk := by
      rw [hselect]
      exact hbok
    obtain ⟨s2, s4, h2, h4, hf, _, hs3⟩ := frame_edit rl inp s hmode hsok
    obtain ⟨s2', h2', d1, d2, _, _, d5, d6⟩ := dragStep_spec rl inp _ hsok
    rw [h2] at h2'
    cases h2'
    rw [hselect] at d1 d2 d5 d6
    have hs2erase : s2.shapes.eraseIdx s.selectedIndex.toNat =
        s.shapes.eraseIdx s.selectedIndex.toNat := by
      cases hdd : dragDelta inp (beforeBranch rl inp s) with
      | none => rw [d5 hdd, b1]
      | some d =>
        obtain ⟨_, sh, _, hset⟩ := d6 d hdd
        rw [hset, b2, b1, eraseIdx_set_same]
    obtain ⟨r1, r2, r3, _⟩ := releaseStep_fields rl inp s2
    obtain ⟨s4', h4', _, m2, _, _, m5, _⟩ := removeStep_spec rl inp _ hs3
    rw [h4] at h4'
    cases h4'
    have hrsel : (releaseStep rl inp s2).selectedIndex = s.selectedIndex := by
      rw [r3, d1, b2]
    obtain ⟨m5a, m5b⟩ := m5 ⟨by rw [hrsel]; exact hsel, hdel⟩
    obtain ⟨e1, e2, e3, _⟩ := escapeStep_fields rl inp s4
    have hcur4 : (escapeStep rl inp s4).current = none := by
      rw [e2, m2, r2, d2, hmode]
    obtain ⟨t, ht, t1, t2, _⟩ := run_unselected rl rest _ hcur4 (e3.trans m5b) hrest
    refine ⟨escapeStep rl inp s4, t, hf, ?_, e3.trans m5b, ht, t1, t2⟩
    rw [e1, m5a, hrsel, r1, hs2erase]
  · intro hk hb
    obtain ⟨cur, hc, hready⟩ := beforeBranch_current_created rl inp s hcur hb hk
    obtain ⟨e1, e2, e3, _⟩ :=
      escapeStep_fields rl inp (constructStep rl inp (beforeBranch rl inp s) cur)
    refine ⟨_, frame_construct rl inp s cur hc, ?_, ?_, ?_⟩
    · rw [e1, constructStep_idle rl inp _ cur hnp hready]
      exact b1
    · rw [e3, constructStep_idle rl inp _ cur hnp hready]
      exact b2
    · rw [e2, constructStep_idle rl inp _ cur hnp hready]
      simp

/-- Witness of C9: after `selectRect` the rectangle at index 0 is selected and
no shape is under construction; DELETE with the button still held and no
creation key erases it, and a second such frame changes nothing. -/
theorem delete_removes_selected_witness :
    ∃ s s1 s2, run stdQ selectRect (initState stdQ) = some s ∧ s.current = none ∧
      s.selectedIndex ≠ -1 ∧ holdDelete.keyDelete = true ∧ holdDelete.leftPressed = false ∧
      holdDelete.createKey = false ∧
      frame stdQ holdDelete s = some s1 ∧
      s1.shapes = s.shapes.eraseIdx s.selectedIndex.toNat ∧ s1.selectedIndex = -1 ∧
      run stdQ [holdDelete] s1 = some s2 ∧ s2.shapes = s1.shapes ∧ s2.selectedIndex = -1 := by
  have hrun : (run stdQ selectRect (initState stdQ)).isSome = true := by decide!
  obtain ⟨s, hs⟩ := Option.isSome_iff_exists.mp hrun
  have hm : (run stdQ selectRect (initState stdQ)).map
      (fun s => s.current.isNone) = some true := by decide!
  have hsel : (run stdQ selectRect (initState stdQ)).map
      (fun s => decide (s.selectedIndex ≠ -1)) = some true := by decide!
  rw [hs] at hm hsel
  simp only [Option.map_some', Option.some.injEq] at hm
  have hm1 : s.current = none := Option.isNone_iff_eq_none.mp hm
  have hsel1 : s.selectedIndex ≠ -1 := by simpa using hsel
  obtain ⟨s1, s2, h1, h2, h3, h4, h5, h6⟩ :=
    (delete_removes_selected stdQ s holdDelete [holdDelete] ⟨selectRect, hs⟩ hm1 hsel1 rfl rfl
      (by
        intro r hr
        rw [List.mem_singleton.mp hr]
        exact ⟨rfl, rfl, rfl, rfl, rfl, rfl⟩)).2.2.1 (Or.inl rfl)
  exact ⟨s, s1, s2, hs, hm1, hsel1, rfl, rfl, rfl, h1, h2, h3, h4, h5, h6⟩
end Model

end Trabalho1
